import Mathlib

/-!
# rexray CLI output formatter (`cli/cli/cli_formatter.go`)

A shallow embedding of `fmtOutput`, `buildDefaultTemplate` and the registry
`defaultTemplates`, together with the parts of the Go standard library that
decide what `fmtOutput` does (`strings.EqualFold`, `strings.Replace`,
`strings.SplitN`, `strconv.Unquote`, `sort.Strings`, `unicode/utf8`).

Go strings are byte sequences; they are modelled as lists of natural numbers
(each below 256).  The template engine and the column-aligning writer are
collaborators of the formatter: their calls are recorded as events.  The
template function `sort` belongs to the package `cli/cli/template`, which is
not among the source files; `sortByField` models it from the specification.

The library functions follow the current Go standard library.  Earlier
releases differ from it only on escapes of surrogate halves (`\ud800`) and
on how a string without escapes that is not valid UTF-8 comes back from
`strconv.Unquote`; no statement below rests on such a string.
-/

namespace CliFormatter

/-! ## Go strings -/

/-- A Go `string`: a sequence of bytes. -/
abbrev GoString := List Nat

/-! ### unicode/utf8 -/

/-- The constant `utf8.RuneError` (U+FFFD). -/
def RuneError : Nat := 0xFFFD

/-- The constant `utf8.RuneSelf`. -/
def RuneSelf : Nat := 0x80

/-- The constant `utf8.MaxRune`. -/
def MaxRune : Nat := 0x10FFFF

/-- The table `utf8.first` with `utf8.acceptRanges` folded in: for a leading
byte of a multi-byte sequence, the length of the sequence and the accepted
range of the second byte; `none` for ASCII and for invalid leading bytes. -/
def first (b : Nat) : Option (Nat × Nat × Nat) :=
  if 0xC2 ≤ b ∧ b ≤ 0xDF then some (2, 0x80, 0xBF)
  else if b = 0xE0 then some (3, 0xA0, 0xBF)
  else if 0xE1 ≤ b ∧ b ≤ 0xEC then some (3, 0x80, 0xBF)
  else if b = 0xED then some (3, 0x80, 0x9F)
  else if 0xEE ≤ b ∧ b ≤ 0xEF then some (3, 0x80, 0xBF)
  else if b = 0xF0 then some (4, 0x90, 0xBF)
  else if 0xF1 ≤ b ∧ b ≤ 0xF3 then some (4, 0x80, 0xBF)
  else if b = 0xF4 then some (4, 0x80, 0x8F)
  else none

/-- Continuation byte test: `locb <= b && b <= hicb`. -/
def isCont (b : Nat) : Bool := 0x80 ≤ b && b ≤ 0xBF

/-- The function `utf8.DecodeRuneInString`: the first rune of `s` and its
width in bytes; `(RuneError, 0)` on the empty string and `(RuneError, 1)` on
an invalid encoding.  The masks and shifts of the Go code (`s0&mask2`,
`<<6`, `|`) are written with `%`, `*` and `+`. -/
def DecodeRuneInString (s : GoString) : Nat × Nat :=
  match s with
  | [] => (RuneError, 0)
  | s0 :: t =>
    if s0 < RuneSelf then (s0, 1)
    else
      match first s0 with
      | none => (RuneError, 1)
      | some (sz, lo, hi) =>
        match t with
        | [] => (RuneError, 1)
        | s1 :: t1 =>
          if s1 < lo ∨ hi < s1 then (RuneError, 1)
          else if sz ≤ 2 then ((s0 % 0x20) * 0x40 + s1 % 0x40, 2)
          else
            match t1 with
            | [] => (RuneError, 1)
            | s2 :: t2 =>
              if !isCont s2 then (RuneError, 1)
              else if sz ≤ 3 then
                ((s0 % 0x10) * 0x1000 + (s1 % 0x40) * 0x40 + s2 % 0x40, 3)
              else
                match t2 with
                | [] => (RuneError, 1)
                | s3 :: _ =>
                  if !isCont s3 then (RuneError, 1)
                  else
                    ((s0 % 0x08) * 0x40000 + (s1 % 0x40) * 0x1000
                      + (s2 % 0x40) * 0x40 + s3 % 0x40, 4)

/-- The function `utf8.ValidRune`. -/
def ValidRune (r : Nat) : Bool :=
  r < 0xD800 || (0xDFFF < r && r ≤ MaxRune)

/-- The function `utf8.EncodeRune` (as `utf8.AppendRune` to the empty
buffer): the UTF-8 encoding of `r`; surrogates and values above `MaxRune`
are encoded as `RuneError`. -/
def EncodeRune (r : Nat) : GoString :=
  if r ≤ 0x7F then [r]
  else if r ≤ 0x7FF then [0xC0 + r / 0x40, 0x80 + r % 0x40]
  else
    let r := if ValidRune r then r else RuneError
    if r ≤ 0xFFFF then
      [0xE0 + r / 0x1000, 0x80 + (r / 0x40) % 0x40, 0x80 + r % 0x40]
    else
      [0xF0 + r / 0x40000, 0x80 + (r / 0x1000) % 0x40,
        0x80 + (r / 0x40) % 0x40, 0x80 + r % 0x40]

/-- The loop of `utf8.ValidString`; `fuel` bounds the number of runes. -/
def validLoop : Nat → GoString → Bool
  | 0, s => s.isEmpty
  | fuel + 1, s =>
    match s with
    | [] => true
    | s0 :: t =>
      if s0 < RuneSelf then validLoop fuel t
      else
        let p := DecodeRuneInString s
        if p.2 ≤ 1 then false else validLoop fuel (s.drop p.2)

/-- The function `utf8.ValidString`. -/
def ValidString (s : GoString) : Bool := validLoop s.length s

/-- The bytes of a string literal of the source (its UTF-8 encoding). -/
def lit (s : String) : GoString := s.toList.flatMap (fun c => EncodeRune c.toNat)

/-! ### strings -/

/-- The function `unicode.SimpleFold` on the orbits of the ASCII runes:
`A..Z` and `a..z` alternate, `k` continues to the Kelvin sign U+212A and
`s` to the long s U+017F.  These orbits are the only ones `EqualFold`
walks when one of its arguments is ASCII (the walk starts at the smaller
rune); every other rune is left fixed here. -/
def SimpleFold (r : Nat) : Nat :=
  if r = 0x6B then 0x212A
  else if r = 0x212A then 0x4B
  else if r = 0x73 then 0x17F
  else if r = 0x17F then 0x53
  else if 0x41 ≤ r ∧ r ≤ 0x5A then r + 0x20
  else if 0x61 ≤ r ∧ r ≤ 0x7A then r - 0x20
  else r

/-- The inner loop of `EqualFold`:
`for r != sr && r < tr { r = unicode.SimpleFold(r) }`; an orbit has at most
four runes, which bounds `fuel`. -/
def foldWalk : Nat → Nat → Nat → Nat → Nat
  | 0, _, _, r => r
  | fuel + 1, sr, tr, r =>
    if r ≠ sr ∧ r < tr then foldWalk fuel sr tr (SimpleFold r) else r

/-- One step of `EqualFold` on the runes `sr` and `tr`: do they match under
simple case folding. -/
def foldEq (sr tr : Nat) : Bool :=
  if tr = sr then true
  else
    let lo := min sr tr
    let hi := max sr tr
    if hi < RuneSelf then
      decide (0x41 ≤ lo ∧ lo ≤ 0x5A ∧ hi = lo + 0x20)
    else
      foldWalk 4 lo hi (SimpleFold lo) == hi

/-- The rune loop of `strings.EqualFold`; `fuel` bounds the number of runes
of `s`. -/
def equalFoldLoop : Nat → GoString → GoString → Bool
  | 0, s, t => s.isEmpty && t.isEmpty
  | fuel + 1, s, t =>
    match s, t with
    | [], t => t.isEmpty
    | _ :: _, [] => false
    | s0 :: s1, t0 :: t1 =>
      let ps := if s0 < RuneSelf then (s0, 1) else DecodeRuneInString (s0 :: s1)
      let pt := if t0 < RuneSelf then (t0, 1) else DecodeRuneInString (t0 :: t1)
      if foldEq ps.1 pt.1 then
        equalFoldLoop fuel ((s0 :: s1).drop ps.2) ((t0 :: t1).drop pt.2)
      else false

/-- The function `strings.EqualFold`: equality of `s` and `t`, read as
UTF-8, under simple Unicode case folding. -/
def EqualFold (s t : GoString) : Bool := equalFoldLoop s.length s t

/-- The call `strings.Replace(s, old, new, -1)` for a one-byte `old`: every
occurrence of the byte `old` is replaced by `new`. -/
def Replace (s : GoString) (old : Nat) (new : GoString) : GoString :=
  match s with
  | [] => []
  | b :: t => (if b = old then new else [b]) ++ Replace t old new

/-- The call `strings.SplitN(s, sep, 2)` for a one-byte `sep`: `[s]` when
`sep` does not occur in `s`, else the text before and the text after its
first occurrence. -/
def SplitN2 (s : GoString) (sep : Nat) : List GoString :=
  match s with
  | [] => [[]]
  | b :: t =>
    if b = sep then [[], t]
    else
      match SplitN2 t sep with
      | x :: rest => (b :: x) :: rest
      | [] => [[b]]

/-- The comparison `a < b` of Go strings: bytewise lexicographic. -/
def strLt : GoString → GoString → Bool
  | [], [] => false
  | [], _ :: _ => true
  | _ :: _, [] => false
  | a :: s, b :: t => a < b || (a == b && strLt s t)

/-- Insertion of `a` into a sorted list before the first larger element. -/
def orderedInsert (a : GoString) : List GoString → List GoString
  | [] => [a]
  | b :: l => if strLt b a then b :: orderedInsert a l else a :: b :: l

/-- The call `sort.Strings(x)`: `x` sorted in increasing order.  Equal Go
strings are indistinguishable, so the sorted slice does not depend on the
sorting algorithm; insertion sort stands for it. -/
def sortStrings : List GoString → List GoString
  | [] => []
  | a :: l => orderedInsert a (sortStrings l)

/-! ### strconv -/

/-- The errors `fmtOutput` can return. -/
inductive GoError
  /-- The value `strconv.ErrSyntax`. -/
  | ErrSyntax
  /-- The error of `template.NewTemplate` on a document. -/
  | parse (doc : GoString)
  /-- The error of executing a template. -/
  | exec (code : Nat)
  deriving DecidableEq, Repr

deriving instance DecidableEq for Except

/-- The function `unhex` of `strconv`. -/
def unhex (b : Nat) : Option Nat :=
  if 0x30 ≤ b ∧ b ≤ 0x39 then some (b - 0x30)
  else if 0x61 ≤ b ∧ b ≤ 0x66 then some (b - 0x61 + 10)
  else if 0x41 ≤ b ∧ b ≤ 0x46 then some (b - 0x41 + 10)
  else none

/-- The digit loop of the hexadecimal escapes: `n` digits of `s` are read,
`v = v<<4 | x`; the value and the rest of `s`. -/
def hexDigits : Nat → GoString → Nat → Option (Nat × GoString)
  | 0, s, v => some (v, s)
  | _ + 1, [], _ => none
  | n + 1, b :: t, v =>
    match unhex b with
    | none => none
    | some x => hexDigits n t (v * 16 + x)

/-- The digit loop of the octal escape: two more digits, `v = (v<<3) | x`. -/
def octDigits : Nat → GoString → Nat → Option (Nat × GoString)
  | 0, s, v => some (v, s)
  | _ + 1, [], _ => none
  | n + 1, b :: t, v =>
    if 0x30 ≤ b ∧ b ≤ 0x37 then octDigits n t (v * 8 + (b - 0x30)) else none

/-- The hard case of `strconv.UnquoteChar`, after a backslash: the switch on
the character `c` that follows the backslash, `s` being the string after
`c`. -/
def unquoteEscape (c : Nat) (s : GoString) (quote : Nat) :
    Except GoError (Nat × Bool × GoString) :=
  if c = 0x61 then .ok (7, false, s)
  else if c = 0x62 then .ok (8, false, s)
  else if c = 0x66 then .ok (12, false, s)
  else if c = 0x6E then .ok (10, false, s)
  else if c = 0x72 then .ok (13, false, s)
  else if c = 0x74 then .ok (9, false, s)
  else if c = 0x76 then .ok (11, false, s)
  else if c = 0x78 ∨ c = 0x75 ∨ c = 0x55 then
    let n := if c = 0x78 then 2 else if c = 0x75 then 4 else 8
    match hexDigits n s 0 with
    | none => .error .ErrSyntax
    | some (v, s) =>
      if c = 0x78 then .ok (v, false, s)
      else if !ValidRune v then .error .ErrSyntax
      else .ok (v, true, s)
  else if 0x30 ≤ c ∧ c ≤ 0x37 then
    match octDigits 2 s (c - 0x30) with
    | none => .error .ErrSyntax
    | some (v, s) => if v > 255 then .error .ErrSyntax else .ok (v, false, s)
  else if c = 0x5C then .ok (0x5C, false, s)
  else if c = 0x27 ∨ c = 0x22 then
    if c ≠ quote then .error .ErrSyntax else .ok (c, false, s)
  else .error .ErrSyntax

/-- The function `strconv.UnquoteChar`: the first character or byte of the
escaped string `s`, whether it is a multibyte rune, and the rest of `s`. -/
def UnquoteChar (s : GoString) (quote : Nat) :
    Except GoError (Nat × Bool × GoString) :=
  match s with
  | [] => .error .ErrSyntax
  | c :: t =>
    if c = quote ∧ (quote = 0x27 ∨ quote = 0x22) then .error .ErrSyntax
    else if c ≥ RuneSelf then
      let p := DecodeRuneInString s
      .ok (p.1, true, s.drop p.2)
    else if c ≠ 0x5C then .ok (c, false, t)
    else
      -- hard case: c is backslash
      match t with
      | [] => .error .ErrSyntax
      | c :: s => unquoteEscape c s quote

/-- The call `index(s, c)` of `strconv`: position of the first byte `c`. -/
def index (s : GoString) (c : Nat) : Option Nat :=
  match s with
  | [] => none
  | b :: t => if b = c then some 0 else (index t c).map (· + 1)

/-- The call `contains(s, c)` of `strconv`. -/
def contains (s : GoString) (c : Nat) : Bool := (index s c).isSome

/-- The escape loop of `strconv.unquote`:
`for len(in) > 0 && in[0] != quote`, appending each unquoted character to
`buf`; the buffer and the input left.  Each round consumes a byte, so
`fuel = len(in)` rounds are enough. -/
def unquoteLoop (quote : Nat) : Nat → GoString → GoString →
    Except GoError (GoString × GoString)
  | 0, inp, buf => .ok (buf, inp)
  | fuel + 1, inp, buf =>
    match inp with
    | [] => .ok (buf, [])
    | c :: _ =>
      if c = quote then .ok (buf, inp)
      else
        match UnquoteChar inp quote with
        | .error _ => .error .ErrSyntax
        | .ok (r, multibyte, rem) =>
          if c = 0x0A then .error .ErrSyntax
          else
            let buf := buf ++ (if r < RuneSelf ∨ multibyte = false then [r % 256]
                               else EncodeRune r)
            if quote = 0x27 then .ok (buf, rem)
            else unquoteLoop quote fuel rem buf

/-- The function `strconv.unquote` with `unescape = true`: the value of the
quoted string at the start of `inp` and the input left after it. -/
def unquote (inp : GoString) : Except GoError (GoString × GoString) :=
  match inp with
  | [] => .error .ErrSyntax
  | [_] => .error .ErrSyntax
  | quote :: body =>
    match index body quote with
    | none => .error .ErrSyntax
    | some e =>
      let stop := e + 2
      if quote = 0x60 then
        .ok ((body.take e).filter (fun b => b ≠ 0x0D), inp.drop stop)
      else if quote = 0x22 ∨ quote = 0x27 then
        let trivial :=
          !contains (inp.take stop) 0x5C && !contains (inp.take stop) 0x0A &&
          (if quote = 0x22 then ValidString (body.take e)
           else
             let p := DecodeRuneInString (body.take e)
             decide (1 + p.2 + 1 = stop ∧ (p.1 ≠ RuneError ∨ p.2 ≠ 1)))
        if trivial then .ok (body.take e, inp.drop stop)
        else
          match unquoteLoop quote body.length body [] with
          | .error err => .error err
          | .ok (buf, rest) =>
            match rest with
            | [] => .error .ErrSyntax
            | c :: rest => if c = quote then .ok (buf, rest) else .error .ErrSyntax
      else .error .ErrSyntax

/-- The function `strconv.Unquote`: the string that the Go string literal
`s` quotes. -/
def Unquote (s : GoString) : Except GoError GoString :=
  match unquote s with
  | .error err => .error err
  | .ok (out, rem) => if rem.length > 0 then .error .ErrSyntax else .ok out

/-- The steps of `fmtOutput` that turn the custom format string into the
body of the custom template:
`strconv.Unquote(fmt.Sprintf("\"%s\"", strings.Replace(format, "\"", "\\\"", -1)))`. -/
def requote (format : GoString) : Except GoError GoString :=
  Unquote ([0x22] ++ Replace format 0x22 [0x5C, 0x22] ++ [0x22])

/-! ## Payloads -/

/-- The record `apitypes.Volume` of libstorage; the fields kept are the
ones the registry names. -/
structure Volume where
  ID : GoString
  Name : GoString
  Size : Int
  deriving DecidableEq, Repr

/-- Modelled from the spec: the record `volumeWithPath` is declared in
another file of the CLI package; it is a volume together with a derived
`Path`. -/
structure volumeWithPath where
  Volume : Volume
  Path : GoString
  deriving DecidableEq, Repr

/-- The record `apitypes.Snapshot` of libstorage. -/
structure Snapshot where
  ID : GoString
  Name : GoString
  Status : GoString
  VolumeID : GoString
  deriving DecidableEq, Repr

/-- The record `apitypes.ServiceInfo` of libstorage (`Driver.Name` kept as
`DriverName`). -/
structure ServiceInfo where
  Name : GoString
  DriverName : GoString
  deriving DecidableEq, Repr

/-- The record `apitypes.Instance` of libstorage (`InstanceID.ID` kept as
`ID`). -/
structure Instance where
  ID : GoString
  Name : GoString
  ProviderName : GoString
  Region : GoString
  deriving DecidableEq, Repr

/-- The record `apitypes.MountInfo` of libstorage. -/
structure MountInfo where
  ID : GoString
  Source : GoString
  MountPoint : GoString
  deriving DecidableEq, Repr

/-- The dynamic type and value of the argument `o interface{}` of
`fmtOutput`, by the cases of its type switch; `other` stands for a value of
any other type (`tag` tells such values apart). -/
inductive Payload
  /-- A `*apitypes.Volume`. -/
  | volume (v : Volume)
  /-- A `[]*apitypes.Volume`. -/
  | volumes (vs : List Volume)
  /-- A `[]*volumeWithPath`. -/
  | volumesWithPath (vs : List volumeWithPath)
  /-- A `*apitypes.Snapshot`. -/
  | snapshot (s : Snapshot)
  /-- A `[]*apitypes.Snapshot`. -/
  | snapshots (ss : List Snapshot)
  /-- A `map[string]*apitypes.ServiceInfo`. -/
  | services (m : List (GoString × ServiceInfo))
  /-- A `map[string]*apitypes.Instance`. -/
  | instances (m : List (GoString × Instance))
  /-- A `[]*apitypes.MountInfo`. -/
  | mounts (ms : List MountInfo)
  /-- A `[]string`. -/
  | strings (ss : List GoString)
  /-- A value of any other type. -/
  | other (tag : Nat)
  deriving DecidableEq, Repr

/-! ## The registry -/

def templateNamePrintCustom : GoString := lit "printCustom"
def templateNamePrintObject : GoString := lit "printObject"
def templateNamePrintStringSlice : GoString := lit "printStringSlice"
def templateNamePrintJSON : GoString := lit "printJSON"
def templateNamePrintPrettyJSON : GoString := lit "printPrettyJSON"
def templateNamePrintVolumeFields : GoString := lit "printVolumeFields"
def templateNamePrintVolumeID : GoString := lit "printVolumeID"
def templateNamePrintVolumeWithPathFields : GoString := lit "printVolumeWithPathFields"
def templateNamePrintSnapshotFields : GoString := lit "printSnapshotFields"
def templateNamePrintInstanceFields : GoString := lit "printInstanceFields"
def templateNamePrintServiceFields : GoString := lit "printServiceFields"
def templateNamePrintMountFields : GoString := lit "printMountFields"

/-- The struct `templateMetadata`; an absent member is the empty string or
the empty list. -/
structure templateMetadata where
  format : GoString := []
  fields : List GoString := []
  sortBy : GoString := []
  deriving DecidableEq, Repr

/-- The map `defaultTemplates`, its entries in the order of the source.
In the literals the braces of the Go text are written `\x7b` and `\x7d`. -/
def defaultTemplates : List (GoString × templateMetadata) := [
  -- format: {{printf "%v" .}}
  (templateNamePrintObject, { format := lit "\x7b\x7bprintf \"%v\" .\x7d\x7d" }),
  -- format: {{.}}
  (templateNamePrintStringSlice, { format := lit "\x7b\x7b.\x7d\x7d" }),
  -- format: {{. | json}}
  (templateNamePrintJSON, { format := lit "\x7b\x7b. | json\x7d\x7d" }),
  -- format: {{. | jsonp}}
  (templateNamePrintPrettyJSON, { format := lit "\x7b\x7b. | jsonp\x7d\x7d" }),
  (templateNamePrintVolumeID, { fields := [lit "ID"], sortBy := lit "ID" }),
  (templateNamePrintVolumeFields,
    { fields := [lit "ID", lit "Name",
        -- Status={{. | volumeStatus}}
        lit "Status=\x7b\x7b. | volumeStatus\x7d\x7d",
        lit "Size"],
      sortBy := lit "Name" }),
  (templateNamePrintVolumeWithPathFields,
    { fields := [lit "ID", lit "Name",
        -- Status={{.Volume | volumeStatus}}
        lit "Status=\x7b\x7b.Volume | volumeStatus\x7d\x7d",
        lit "Size", lit "Path"],
      sortBy := lit "Name" }),
  (templateNamePrintSnapshotFields,
    { fields := [lit "ID", lit "Name", lit "Status", lit "VolumeID"],
      sortBy := lit "Name" }),
  (templateNamePrintInstanceFields,
    { fields := [
        -- ID={{.InstanceID.ID}}
        lit "ID=\x7b\x7b.InstanceID.ID\x7d\x7d",
        lit "Name",
        -- Provider={{.ProviderName}}
        lit "Provider=\x7b\x7b.ProviderName\x7d\x7d",
        lit "Region"],
      sortBy := lit "Name" }),
  (templateNamePrintServiceFields,
    { fields := [lit "Name",
        -- Driver={{.Driver.Name}}
        lit "Driver=\x7b\x7b.Driver.Name\x7d\x7d"],
      sortBy := lit "Name" }),
  (templateNamePrintMountFields,
    { fields := [lit "ID",
        -- Device={{.Source}}
        lit "Device=\x7b\x7b.Source\x7d\x7d",
        lit "MountPoint"],
      sortBy := lit "Source" })]

/-- The map index expression `defaultTemplates[name]`: the entry and
whether it is present. -/
def lookupTemplate (name : GoString) : Option templateMetadata :=
  (defaultTemplates.find? (fun e => e.1 = name)).map (·.2)

/-- The field loop of `buildDefaultTemplate`: a bare field `F` is written
as the attribute access of `F`, a `label=expression` field as its
expression, with a tab between two fields.  (The expression is passed to
`fmt.Fprintf` as a format without operands; no expression of the registry
holds a `%`, so it is written as it stands.) -/
def fieldLoop : List GoString → GoString
  | [] => []
  | field :: rest =>
    (match SplitN2 field 0x3D with
      -- {{.%s}}
      | [f] => lit "\x7b\x7b." ++ f ++ lit "\x7d\x7d"
      | fieldParts => fieldParts.getD 1 []) ++
    (if rest.isEmpty then [] else lit "\t") ++ fieldLoop rest

/-- The function `buildDefaultTemplate`; `entries` is the sequence in which
the `range` over the map `defaultTemplates` visits its entries. -/
def buildDefaultTemplate (entries : List (GoString × templateMetadata)) : GoString :=
  match entries with
  | [] => []
  | (tplName, tplMetadata) :: rest =>
    -- {{define "%s"}}
    (lit "\x7b\x7bdefine \"" ++ tplName ++ lit "\"\x7d\x7d") ++
    (if tplMetadata.format ≠ [] then
      -- %s{{end}}
      tplMetadata.format ++ lit "\x7b\x7bend\x7d\x7d"
    else
      fieldLoop tplMetadata.fields ++ lit "\x7b\x7bend\x7d\x7d") ++
    buildDefaultTemplate rest

/-! ## The formatter -/

/-- The members of the receiver `c *CLI` that `fmtOutput` reads. -/
structure CLI where
  outputFormat : GoString
  outputTemplate : GoString
  outputTemplateTabs : Bool
  quiet : Bool
  deriving DecidableEq, Repr

/-- An `io.Writer` as `fmtOutput` sees it: the stream of the caller, or a
column-aligning `tabwriter.Writer` created around a writer. -/
inductive Writer
  /-- The output stream the caller passed. -/
  | out
  /-- The value of `tabwriter.NewWriter(w, 0, 0, 2, ' ', 0)`. -/
  | tab (w : Writer)
  deriving DecidableEq, Repr

/-- The struct `templateObject`; its members `C` and `L` are the receiver
`c` and its client `c.r`, the same in every call, and are left out. -/
structure templateObject where
  D : Payload
  deriving DecidableEq, Repr

/-- The calls that `fmtOutput` makes on its collaborators. -/
inductive Event
  /-- The call `tabwriter.NewWriter(w, 0, 0, 2, ' ', 0)`. -/
  | NewWriter (w : Writer)
  /-- The call `tabWriter.Flush()` on the column-aligning writer `tw`. -/
  | Flush (tw : Writer)
  /-- The call `templ.ExecuteTemplate(w, name, o)` on the template parsed
  from `doc`. -/
  | ExecuteTemplate (w : Writer) (doc name : GoString) (o : Payload)
  /-- The call `templ.Execute(w, &templateObject{c, c.r, o})` on the
  template parsed from `doc`. -/
  | Execute (w : Writer) (doc : GoString) (data : templateObject)
  deriving DecidableEq, Repr

/-- How a call of `fmtOutput` ends. -/
inductive Return
  /-- It returns `nil`. -/
  | nil
  /-- It returns an error. -/
  | err (e : GoError)
  /-- The call `template.MustTemplate` panics. -/
  | panic
  deriving DecidableEq, Repr

/-- What a call of `fmtOutput` does: its calls on the collaborators, in
order, and how it ends. -/
structure Result where
  events : List Event
  ret : Return
  deriving DecidableEq, Repr

/-- What `fmtOutput` does not decide itself.  `range n` is the sequence in
which the `n`-th `range` over the Go map `defaultTemplates` visits its
entries (Go leaves the order open); `parses name doc` tells whether the
package `template` (not part of the source file) accepts the document
`doc`, and `runs e` is the error of the execution `e`, if any. -/
structure Env where
  range : Nat → List (GoString × templateMetadata)
  range_perm : ∀ n, (range n).Perm defaultTemplates
  parses : GoString → GoString → Bool
  runs : Event → Option GoError

/-- The value returned for the error value `e` of a collaborator. -/
def Return.ofError : Option GoError → Return
  | none => .nil
  | some e => .err e

/-- The header loop of `fmtOutput`: of each field the text before the
first `=`, with a tab between two fields. -/
def headerLoop : List GoString → GoString
  | [] => []
  | f :: rest =>
    (SplitN2 f 0x3D).headD [] ++
    (if rest.isEmpty then [] else lit "\t") ++ headerLoop rest

/-- Lines 128 to 156 of `fmtOutput`: the text appended to the document
after the define blocks. -/
def dispatch (c : CLI) (templName : GoString) : GoString :=
  if c.outputTemplate = [] then
    let entry := lookupTemplate templName
    (match entry with
      | some tplMetadata =>
        if !c.quiet then
          if tplMetadata.fields.length > 0 then
            headerLoop tplMetadata.fields ++ lit "\n"
          else []
        else []
      | none => []) ++
    -- {{range
    lit "\x7b\x7brange " ++
    (match entry with
      | some tplMetadata =>
        if tplMetadata.sortBy = [] then lit ".D"
        else lit "sort .D \"" ++ tplMetadata.sortBy ++ lit "\""
      | none => lit ".D") ++
    -- }}{{template "%s" .}}\n{{end}}
    lit " \x7d\x7d\x7b\x7btemplate \"" ++ templName ++ lit "\" .\x7d\x7d\n\x7b\x7bend\x7d\x7d"
  else
    -- {{template "%s" .}}
    lit "\x7b\x7btemplate \"" ++ templName ++ lit "\" .\x7d\x7d"

/-- Line 125 of `fmtOutput`: the define block of the custom template. -/
def customDefine (format : GoString) : GoString :=
  -- {{define "printCustom"}}%s{{end}}
  lit "\x7b\x7bdefine \"printCustom\"\x7d\x7d" ++ format ++ lit "\x7b\x7bend\x7d\x7d"

/-- Lines 120 and 121 of `fmtOutput`: `template.MustTemplate` on the
document, which panics when the document is not accepted, and
`templ.ExecuteTemplate(w, templName, o)`. -/
def mustExecuteTemplate (env : Env) (w : Writer) (doc templName : GoString)
    (o : Payload) : Result :=
  if env.parses (lit "json") doc then
    let e := Event.ExecuteTemplate w doc templName o
    ⟨[e], Return.ofError (env.runs e)⟩
  else ⟨[], .panic⟩

/-- Lines 161 to 166 of `fmtOutput`: `template.NewTemplate` on the document,
whose error is returned, and `templ.Execute(w, &templateObject{c, c.r, o})`. -/
def newExecute (env : Env) (w : Writer) (doc : GoString) (o : Payload) : Result :=
  if env.parses (lit "tmpl") doc then
    let e := Event.Execute w doc ⟨o⟩
    ⟨[e], Return.ofError (env.runs e)⟩
  else ⟨[], .err (.parse doc)⟩

/-- Lines 117 to 166 of `fmtOutput`: what follows the mode switch, with
the values the variables have there. -/
def render (env : Env) (c : CLI) (w : Writer) (templName format tplBuf : GoString)
    (o : Payload) : Result :=
  if templName = templateNamePrintJSON ∨ templName = templateNamePrintPrettyJSON then
    mustExecuteTemplate env w tplBuf templName o
  else
    let tplBuf := if templName = templateNamePrintCustom then tplBuf ++ customDefine format
                  else tplBuf
    let tplBuf := tplBuf ++ dispatch c templName
    let format := tplBuf
    newExecute env w format o

/-- The statement `if tplTabs { newTabWriter() }`: the value of the
variable `w` after it. -/
def newTabWriter (tplTabs : Bool) (w : Writer) : Writer :=
  if tplTabs then .tab w else w

/-- The calls around the rest `r` of a call of `fmtOutput` that has run
`if tplTabs { newTabWriter() }` on the writer `w`: with `tplTabs` the
column-aligning writer is created before `r` and the deferred function
flushes it when the call ends, however it ends. -/
def withTabWriter (tplTabs : Bool) (w : Writer) (r : Result) : Result :=
  if tplTabs then
    ⟨[Event.NewWriter w] ++ r.events ++ [Event.Flush (.tab w)], r.ret⟩
  else r

/-- The body of the method `fmtOutput`; `self` stands for the method in the
two calls it makes on itself.  `n` counts the calls of
`buildDefaultTemplate` made before this one. -/
def fmtOutputBody (self : Nat → Writer → GoString → Payload → Result)
    (env : Env) (c : CLI) (n : Nat) (w : Writer) (templateName : GoString)
    (o : Payload) : Result :=
  let templName := templateName
  let format := c.outputFormat
  let tplFormat := c.outputTemplate
  let tplTabs := c.outputTemplateTabs
  let tplBuf := buildDefaultTemplate (env.range n)
  if EqualFold format (lit "json") then
    render env c w templateNamePrintJSON format tplBuf o
  else if EqualFold format (lit "jsonp") then
    render env c w templateNamePrintPrettyJSON format tplBuf o
  else if EqualFold format (lit "tmpl") ∧ tplFormat = [] then
    let w0 := w
    let w := newTabWriter tplTabs w
    withTabWriter tplTabs w0 <|
      match o with
      | .volume tv => self (n + 1) w templName (.volumes [tv])
      | .volumes _ =>
        render env c w
          (if templName = [] then templateNamePrintVolumeFields else templName)
          format tplBuf o
      | .volumesWithPath _ =>
        render env c w
          (if templName = [] then templateNamePrintVolumeWithPathFields else templName)
          format tplBuf o
      | .snapshot tv => self (n + 1) w templName (.snapshots [tv])
      | .snapshots _ =>
        render env c w
          (if templName = [] then templateNamePrintSnapshotFields else templName)
          format tplBuf o
      | .services _ =>
        render env c w
          (if templName = [] then templateNamePrintServiceFields else templName)
          format tplBuf o
      | .instances _ =>
        render env c w
          (if templName = [] then templateNamePrintInstanceFields else templName)
          format tplBuf o
      | .mounts _ =>
        render env c w
          (if templName = [] then templateNamePrintMountFields else templName)
          format tplBuf o
      | .strings tv =>
        render env c w
          (if templName = [] then templateNamePrintStringSlice else templName)
          format tplBuf (.strings (sortStrings tv))
      | .other _ =>
        render env c w
          (if templName = [] then templateNamePrintObject else templName)
          format tplBuf o
  else
    let w0 := w
    let w := newTabWriter tplTabs w
    let format := if tplFormat ≠ [] then tplFormat else format
    withTabWriter tplTabs w0 <|
      match requote format with
      | .error err => ⟨[], .err err⟩
      | .ok uf => render env c w templateNamePrintCustom uf tplBuf o

/-- The method `fmtOutput`.  It calls itself only with a slice as payload,
and on a slice it does not call itself again: two unfoldings of its body
are the whole recursion (`fmtOutput_unfold` is the equation of the source). -/
def fmtOutput (env : Env) (c : CLI) (n : Nat) (w : Writer) (templateName : GoString)
    (o : Payload) : Result :=
  fmtOutputBody (fmtOutputBody (fun _ _ _ _ => ⟨[], .nil⟩) env c) env c n w templateName o

/-- The payloads that `fmtOutput` passes on to itself as a one-element
slice: a single volume record and a single snapshot record. -/
def Payload.isSingle : Payload → Bool
  | .volume _ => true
  | .snapshot _ => true
  | _ => false

/-- The payload that reaches the templates in built-in mode: a single
record has become the one-element slice that holds it, a `[]string` has
been sorted in place by `sort.Strings`, every other payload is untouched. -/
def Payload.normalized : Payload → Payload
  | .volume v => .volumes [v]
  | .snapshot s => .snapshots [s]
  | .strings ss => .strings (sortStrings ss)
  | o => o

/-- The number of calls of `fmtOutput` that the built-in mode makes for a
payload: two for a single record, one for every other payload. -/
def Payload.calls : Payload → Nat
  | .volume _ => 2
  | .snapshot _ => 2
  | _ => 1

/-- The calls around the last of `k` nested calls of `fmtOutput` in a mode
that runs `newTabWriter`: each call creates its column-aligning writer
around the writer it was given and flushes it when it ends; `inner` is what
the last call does on its writer. -/
def nestedCalls (tplTabs : Bool) : Nat → Writer → (Writer → Result) → Result
  | 0, w, inner => inner w
  | k + 1, w, inner =>
    withTabWriter tplTabs w (nestedCalls tplTabs k (newTabWriter tplTabs w) inner)

/-- Section 4.2 of the specification, the table of default template names:
the logical template name of a payload shape (a single record counts as the
one-element list it is normalized to). -/
def defaultTemplateName : Payload → GoString
  | .volume _ => lit "printVolumeFields"
  | .volumes _ => lit "printVolumeFields"
  | .volumesWithPath _ => lit "printVolumeWithPathFields"
  | .snapshot _ => lit "printSnapshotFields"
  | .snapshots _ => lit "printSnapshotFields"
  | .services _ => lit "printServiceFields"
  | .instances _ => lit "printInstanceFields"
  | .mounts _ => lit "printMountFields"
  | .strings _ => lit "printStringSlice"
  | .other _ => lit "printObject"

/-- The label of a field of the registry: the field itself when it is bare,
the text before the first `=` of a `label=expression` field. -/
def fieldLabel (f : GoString) : GoString := f.takeWhile (fun b => b ≠ 0x3D)

/-- The header line of a list of fields as the specification describes it:
the labels in declared order, separated by single tabs, ended by one
newline. -/
def headerLine (fields : List GoString) : GoString :=
  [0x09].intercalate (fields.map fieldLabel) ++ [0x0A]

/-- The range block of the built-in mode for a sort key and a template
name: the range over the payload, sorted by the key when there is one, with
one invocation of the template and a newline per element. -/
def rangeBlock (sortBy name : GoString) : GoString :=
  -- {{range X }}{{template "NAME" .}}\n{{end}}
  lit "\x7b\x7brange " ++
  (if sortBy = [] then lit ".D" else lit "sort .D \"" ++ sortBy ++ lit "\"") ++
  lit " \x7d\x7d\x7b\x7btemplate \"" ++ name ++ lit "\" .\x7d\x7d\n\x7b\x7bend\x7d\x7d"

/-- Number of positions of `s` at which `pat` starts. -/
def occurrences (pat : GoString) : GoString → Nat
  | [] => 0
  | b :: t => (if pat.isPrefixOf (b :: t) then 1 else 0) + occurrences pat t

/-- An environment for examples: every `range` visits the registry in the
order of the source, every document is accepted and every execution
succeeds. -/
def Env.plain : Env where
  range := fun _ => defaultTemplates
  range_perm := fun _ => List.Perm.refl _
  parses := fun _ _ => true
  runs := fun _ => none

/-- The payload that an execution is given. -/
def Event.payload : Event → Option Payload
  | .ExecuteTemplate _ _ _ o => some o
  | .Execute _ _ data => some data.D
  | _ => none

/-- Lines 105 to 107 of `fmtOutput`: the custom format string, which is the
raw template body when there is one and the output format string
otherwise. -/
def CLI.customFormat (c : CLI) : GoString :=
  if c.outputTemplate ≠ [] then c.outputTemplate else c.outputFormat

/-- The render expression of a field of the registry as the specification
describes it: `{{.F}}` for a bare field `F`, the expression as it stands for
a field `label=expression`. -/
def renderExpr (field : GoString) : GoString :=
  if 0x3D ∈ field then (field.dropWhile (fun b => b ≠ 0x3D)).drop 1
  -- {{.F}}
  else lit "\x7b\x7b." ++ field ++ lit "\x7d\x7d"

/-- The body of the define block of an entry as the specification describes
it: the inline format as it stands or, when there is none, the render
expressions of the fields in declared order, joined by tabs. -/
def blockBody (md : templateMetadata) : GoString :=
  if md.format ≠ [] then md.format
  else [0x09].intercalate (md.fields.map renderExpr)

/-- The define block of an entry: `{{define "NAME"}}`, the body, `{{end}}`. -/
def defineBlock (e : GoString × templateMetadata) : GoString :=
  lit "\x7b\x7bdefine \"" ++ e.1 ++ lit "\"\x7d\x7d" ++ blockBody e.2 ++
    lit "\x7b\x7bend\x7d\x7d"

/-- The writers that `k` nested calls of `fmtOutput` with tab alignment are
given, from the outermost: each call is given the column-aligning writer
that the call before has created around its own. -/
def givenWriters : Nat → Writer → List Writer
  | 0, _ => []
  | k + 1, w => w :: givenWriters k (.tab w)

/-- The writer `w` with `k` column-aligning writers around it. -/
def wrapped : Nat → Writer → Writer
  | 0, w => w
  | k + 1, w => wrapped k (.tab w)

/-- The writer that an execution writes to. -/
def Event.writer : Event → Option Writer
  | .ExecuteTemplate w _ _ _ => some w
  | .Execute w _ _ => some w
  | _ => none

/-- The number of column-aligning writers that a call of `fmtOutput`
creates: none without tab alignment and none in the JSON modes, one per
call in built-in mode, one in custom-format mode. -/
def tabWriters (c : CLI) (o : Payload) : Nat :=
  if c.outputTemplateTabs = false then 0
  else if EqualFold c.outputFormat (lit "json") = true then 0
  else if EqualFold c.outputFormat (lit "jsonp") = true then 0
  else if EqualFold c.outputFormat (lit "tmpl") = true ∧ c.outputTemplate = [] then o.calls
  else 1

/-- Modelled from the spec: the insertion step of the template function
`sort`.  The element `a` goes before the first element whose key is not
smaller than its own, in the bytewise (case-sensitive) order of Go
strings. -/
def insertByField {α : Type} (field : α → GoString) (a : α) : List α → List α
  | [] => [a]
  | b :: l =>
    if strLt (field b) (field a) then b :: insertByField field a l else a :: b :: l

/-- Modelled from the spec: the template function `sort` of the package
`cli/cli/template`, which is not among the source files.  The call
`sort list fieldName` is the list sorted by the named field in ascending,
case-sensitive order, elements with equal keys keeping their relative
order; `field` reads the named field of an element. -/
def sortByField {α : Type} (field : α → GoString) : List α → List α
  | [] => []
  | a :: l => insertByField field a (sortByField field l)

/-- Modelled from the spec: the elements for which the range block of the
built-in mode invokes the named template, in order.  The range is over the
payload as it is when there is no sort key, and over `sort .D "KEY"` when
the key is `KEY`; `field` reads a field of an element by its name. -/
def rangeRows {α : Type} (sortBy : GoString) (field : GoString → α → GoString)
    (d : List α) : List α :=
  if sortBy = [] then d else sortByField (field sortBy) d

/-- The string fields of a volume record by their names. -/
def Volume.field (name : GoString) (v : Volume) : GoString :=
  if name = lit "ID" then v.ID
  else if name = lit "Name" then v.Name
  else []

/-- The rows `rows` are the elements `xs` in ascending order of the key
`field`, elements with equal keys in their original relative order. -/
def StableSortedBy {α : Type} (field : α → GoString) (xs rows : List α) : Prop :=
  rows.Perm xs ∧
  rows.Pairwise (fun a b => strLt (field b) (field a) = false) ∧
  ∀ k : GoString, rows.filter (fun a => field a = k) = xs.filter (fun a => field a = k)

/-- The opening of the define block of a name: `{{define "NAME"}}`. -/
def defineMarker (name : GoString) : GoString :=
  lit "\x7b\x7bdefine \"" ++ name ++ lit "\"\x7d\x7d"

/-- Whether the end of `pat`, from some position after the first, agrees
with the start of `t` as far as both go: then an occurrence of `pat` could
begin before `t` and end inside it or after it. -/
def overlaps (pat t : GoString) : Bool :=
  (List.range pat.length).any fun k =>
    decide (0 < k) && ((pat.drop k).take t.length).isPrefixOf t

/-! ## Mode selection -/

theorem foldWalk_fix (fuel sr tr : Nat) : foldWalk fuel sr tr sr = sr := by
  cases fuel <;> simp [foldWalk]

/-- A rune that folds to an ASCII lower-case letter other than `k` and `s`
is that letter or its upper-case form. -/
theorem foldEq_lower (r t : Nat) (ht : 0x61 ≤ t ∧ t ≤ 0x7A) (hk : t ≠ 0x6B) (hs : t ≠ 0x73)
    (h : foldEq r t = true) : r = t ∨ r + 0x20 = t := by
  unfold foldEq at h
  by_cases h1 : t = r
  · left; exact h1.symm
  · right
    simp only [h1, if_false] at h
    by_cases h2 : max r t < RuneSelf
    · simp only [h2, if_true, decide_eq_true_eq] at h
      simp only [RuneSelf] at h2
      omega
    · simp only [h2, if_false] at h
      exfalso
      simp only [RuneSelf] at h2
      have hlo : min r t = t := by omega
      have hhi : max r t = r := by omega
      rw [hlo, hhi] at h
      have hsf : SimpleFold t = t - 0x20 := by
        unfold SimpleFold
        simp only [hk, hs, if_false]
        split_ifs <;> omega
      have h3 : SimpleFold (t - 0x20) = t := by
        unfold SimpleFold
        split_ifs <;> omega
      have h4 : foldWalk 4 t r (t - 0x20) = t := by
        have h5 : t - 0x20 ≠ t ∧ t - 0x20 < r := by omega
        rw [foldWalk, if_pos h5, h3, foldWalk_fix]
      rw [hsf, h4] at h
      exact h1 (by simpa using h)

/-- A string that folds to the ASCII string `t` does not fold to a proper
extension of `t`. -/
theorem equalFoldLoop_append (x : Nat) (u : GoString) :
    ∀ (fuel : Nat) (s t : GoString), (∀ b ∈ t, b < RuneSelf) →
      equalFoldLoop fuel s t = true → equalFoldLoop fuel s (t ++ x :: u) = false := by
  intro fuel
  induction fuel with
  | zero =>
    intro s t _ h
    simp [equalFoldLoop] at h ⊢
  | succ fuel ih =>
    intro s t ht h
    cases s with
    | nil =>
      cases t with
      | nil => simp [equalFoldLoop]
      | cons t0 t1 => simp [equalFoldLoop] at h
    | cons s0 s1 =>
      cases t with
      | nil => simp [equalFoldLoop] at h
      | cons t0 t1 =>
        have ht0 : t0 < RuneSelf := ht t0 (by simp)
        simp only [equalFoldLoop, ht0, if_true, List.cons_append] at h ⊢
        generalize (if s0 < RuneSelf then (s0, 1) else DecodeRuneInString (s0 :: s1)) = ps at h ⊢
        by_cases hf : foldEq ps.1 t0 = true
        · simp only [hf, if_true, List.drop_succ_cons, List.drop_zero] at h ⊢
          exact ih _ _ (fun b hb => ht b (by simp [hb])) h
        · simp [hf] at h

theorem EqualFold_jsonp_not_json (f : GoString) (h : EqualFold f (lit "jsonp") = true) :
    EqualFold f (lit "json") = false := by
  cases hj : EqualFold f (lit "json") with
  | false => rfl
  | true =>
    have h1 := equalFoldLoop_append 0x70 [] f.length f (lit "json") (by decide) hj
    have e : lit "json" ++ [0x70] = lit "jsonp" := by decide
    rw [e] at h1
    unfold EqualFold at h
    rw [h1] at h
    exact absurd h (by simp)

/-- The first rune decides: a format that folds to `tmpl` folds neither to
`json` nor to `jsonp`. -/
theorem EqualFold_tmpl_not_json (f : GoString) (h : EqualFold f (lit "tmpl") = true) :
    EqualFold f (lit "json") = false ∧ EqualFold f (lit "jsonp") = false := by
  unfold EqualFold at *
  cases f with
  | nil => exact absurd h (by decide)
  | cons s0 s1 =>
    have e1 : lit "tmpl" = 0x74 :: lit "mpl" := by decide
    have e2 : lit "json" = 0x6A :: lit "son" := by decide
    have e3 : lit "jsonp" = 0x6A :: lit "sonp" := by decide
    rw [e1] at h
    rw [e2, e3]
    have r74 : (0x74 : Nat) < RuneSelf := by decide
    have r6a : (0x6A : Nat) < RuneSelf := by decide
    simp only [List.length_cons, equalFoldLoop, r74, r6a, if_true] at h ⊢
    generalize (if s0 < RuneSelf then (s0, 1) else DecodeRuneInString (s0 :: s1)) = ps at h ⊢
    by_cases hf : foldEq ps.1 0x74 = true
    · have h2 := foldEq_lower _ _ (by decide) (by decide) (by decide) hf
      have hne : foldEq ps.1 0x6A = false := by
        rcases h2 with h' | h'
        · rw [h']; decide
        · have h3 : ps.1 = 0x54 := by omega
          rw [h3]; decide
      simp [hne]
    · simp [hf] at h

/-- On a payload that is not a single record the body of `fmtOutput` makes
no call on the method itself. -/
theorem fmtOutputBody_self (f g : Nat → Writer → GoString → Payload → Result)
    (env : Env) (c : CLI) (n : Nat) (w : Writer) (t : GoString) (o : Payload)
    (h : o.isSingle = false) :
    fmtOutputBody f env c n w t o = fmtOutputBody g env c n w t o := by
  cases o <;> first | rfl | simp [Payload.isSingle] at h

/-- The equation of the source: `fmtOutput` is its body with the method
itself in the place of the calls on itself. -/
theorem fmtOutput_unfold (env : Env) (c : CLI) (n : Nat) (w : Writer) (t : GoString)
    (o : Payload) :
    fmtOutput env c n w t o = fmtOutputBody (fmtOutput env c) env c n w t o := by
  unfold fmtOutput
  cases o <;> rfl

theorem fmtOutput_json (env : Env) (c : CLI) (n : Nat) (w : Writer) (t : GoString)
    (o : Payload) (h : EqualFold c.outputFormat (lit "json") = true) :
    fmtOutput env c n w t o =
      mustExecuteTemplate env w (buildDefaultTemplate (env.range n))
        templateNamePrintJSON o := by
  rw [fmtOutput_unfold, fmtOutputBody]
  simp only [h, if_true, render, true_or]

theorem fmtOutput_jsonp (env : Env) (c : CLI) (n : Nat) (w : Writer) (t : GoString)
    (o : Payload) (h : EqualFold c.outputFormat (lit "jsonp") = true) :
    fmtOutput env c n w t o =
      mustExecuteTemplate env w (buildDefaultTemplate (env.range n))
        templateNamePrintPrettyJSON o := by
  rw [fmtOutput_unfold, fmtOutputBody]
  simp only [EqualFold_jsonp_not_json _ h, h, if_true, render, or_true, Bool.false_eq_true,
    if_false]

/-- The built-in mode on a payload that is not a single record. -/
theorem fmtOutput_builtin (env : Env) (c : CLI) (n : Nat) (w : Writer) (t : GoString)
    (o : Payload) (hfmt : EqualFold c.outputFormat (lit "tmpl") = true)
    (htpl : c.outputTemplate = []) (ho : o.isSingle = false) :
    fmtOutput env c n w t o =
      withTabWriter c.outputTemplateTabs w
        (render env c (newTabWriter c.outputTemplateTabs w)
          (if t = [] then defaultTemplateName o else t)
          c.outputFormat (buildDefaultTemplate (env.range n)) o.normalized) := by
  have hj := EqualFold_tmpl_not_json _ hfmt
  rw [fmtOutput_unfold, fmtOutputBody]
  simp only [hj.1, hj.2, hfmt, htpl, and_self, if_true, Bool.false_eq_true, if_false]
  cases o <;> first | rfl | simp [Payload.isSingle] at ho

/-- The built-in mode on a single record: the call is passed on. -/
theorem fmtOutput_builtin_single (env : Env) (c : CLI) (n : Nat) (w : Writer)
    (t : GoString) (hfmt : EqualFold c.outputFormat (lit "tmpl") = true)
    (htpl : c.outputTemplate = []) :
    (∀ v, fmtOutput env c n w t (.volume v) =
      withTabWriter c.outputTemplateTabs w
        (fmtOutput env c (n + 1) (newTabWriter c.outputTemplateTabs w) t (.volumes [v]))) ∧
    (∀ v, fmtOutput env c n w t (.snapshot v) =
      withTabWriter c.outputTemplateTabs w
        (fmtOutput env c (n + 1) (newTabWriter c.outputTemplateTabs w) t
          (.snapshots [v]))) := by
  have hj := EqualFold_tmpl_not_json _ hfmt
  constructor <;> intro v <;> rw [fmtOutput_unfold, fmtOutputBody] <;>
    simp only [hj.1, hj.2, hfmt, htpl, and_self, if_true, Bool.false_eq_true, if_false]

/-- The built-in mode on every payload: the calls of `fmtOutput`, and what
the last of them continues with. -/
theorem fmtOutput_builtin_all (env : Env) (c : CLI) (n : Nat) (w : Writer) (t : GoString)
    (o : Payload) (hfmt : EqualFold c.outputFormat (lit "tmpl") = true)
    (htpl : c.outputTemplate = []) :
    fmtOutput env c n w t o =
      nestedCalls c.outputTemplateTabs o.calls w fun w1 =>
        render env c w1 (if t = [] then defaultTemplateName o else t)
          c.outputFormat (buildDefaultTemplate (env.range (n + (o.calls - 1))))
          o.normalized := by
  obtain ⟨hv, hs⟩ := fmtOutput_builtin_single env c n w t hfmt htpl
  cases o with
  | volume v =>
    rw [hv, fmtOutput_builtin env c (n + 1) _ t (.volumes [v]) hfmt htpl rfl]; rfl
  | snapshot s =>
    rw [hs, fmtOutput_builtin env c (n + 1) _ t (.snapshots [s]) hfmt htpl rfl]; rfl
  | _ => exact fmtOutput_builtin env c n w t _ hfmt htpl rfl

/-- The custom-format mode. -/
theorem fmtOutput_custom (env : Env) (c : CLI) (n : Nat) (w : Writer) (t : GoString)
    (o : Payload) (h0 : EqualFold c.outputFormat (lit "json") = false)
    (h1 : EqualFold c.outputFormat (lit "jsonp") = false)
    (h2 : ¬ (EqualFold c.outputFormat (lit "tmpl") = true ∧ c.outputTemplate = [])) :
    fmtOutput env c n w t o =
      withTabWriter c.outputTemplateTabs w
        (match requote (if c.outputTemplate ≠ [] then c.outputTemplate
                        else c.outputFormat) with
          | .error err => ⟨[], .err err⟩
          | .ok uf =>
            render env c (newTabWriter c.outputTemplateTabs w) templateNamePrintCustom uf
              (buildDefaultTemplate (env.range n)) o) := by
  rw [fmtOutput_unfold, fmtOutputBody]
  simp only [h0, h1, h2, Bool.false_eq_true, if_false]

/-- What `render` does for the custom template. -/
theorem render_custom (env : Env) (c : CLI) (w : Writer) (uf buf : GoString) (o : Payload) :
    render env c w templateNamePrintCustom uf buf o =
      newExecute env w (buf ++ customDefine uf ++ dispatch c templateNamePrintCustom) o := by
  have h1 : templateNamePrintCustom ≠ templateNamePrintJSON := by decide
  have h2 : templateNamePrintCustom ≠ templateNamePrintPrettyJSON := by decide
  simp only [render, h1, h2, or_self, if_false, if_true]

/-- What `render` does for a name that is none of the reserved three. -/
theorem render_plain (env : Env) (c : CLI) (w : Writer) (name fmt buf : GoString)
    (o : Payload) (h1 : name ≠ templateNamePrintJSON)
    (h2 : name ≠ templateNamePrintPrettyJSON) (h3 : name ≠ templateNamePrintCustom) :
    render env c w name fmt buf o = newExecute env w (buf ++ dispatch c name) o := by
  simp only [render, h1, h2, h3, or_self, if_false]

/-! ## The dispatch text -/

theorem SplitN2_head (sep : Nat) (f : GoString) :
    (SplitN2 f sep).headD [] = f.takeWhile (fun b => b ≠ sep) := by
  induction f with
  | nil => rfl
  | cons b t ih =>
    by_cases hb : b = sep
    · simp [SplitN2, hb]
    · simp only [SplitN2, hb, if_false]
      cases hs : SplitN2 t sep with
      | nil =>
        rw [hs] at ih
        simp only [List.headD_cons]
        rw [List.takeWhile_cons]
        simp only [ne_eq, hb, not_false_eq_true, decide_True, if_true]
        rw [← ih]; rfl
      | cons x rest =>
        rw [hs] at ih
        simp only [List.headD_cons] at ih ⊢
        rw [List.takeWhile_cons]
        simp only [ne_eq, hb, not_false_eq_true, decide_True, if_true]
        rw [← ih]

/-- The header loop writes the labels with single tabs between them. -/
theorem headerLoop_eq (fields : List GoString) :
    headerLoop fields = [0x09].intercalate (fields.map fieldLabel) := by
  induction fields with
  | nil => rfl
  | cons f rest ih =>
    cases rest with
    | nil =>
      simp only [headerLoop, SplitN2_head]
      simp [fieldLabel, List.intercalate]
    | cons g rest =>
      rw [headerLoop, ih, SplitN2_head]
      simp [fieldLabel, List.intercalate, lit, EncodeRune]

/-- Every entry of the registry is found under its name. -/
theorem lookupTemplate_of_mem (name : GoString) (md : templateMetadata)
    (h : (name, md) ∈ defaultTemplates) : lookupTemplate name = some md := by
  have key : ∀ e ∈ defaultTemplates, lookupTemplate e.1 = some e.2 := by decide
  exact key _ h

/-- An entry with fields has none of the three reserved names. -/
theorem name_of_fields (name : GoString) (md : templateMetadata)
    (h : (name, md) ∈ defaultTemplates) (hf : md.fields ≠ []) :
    name ≠ templateNamePrintJSON ∧ name ≠ templateNamePrintPrettyJSON ∧
      name ≠ templateNamePrintCustom := by
  have key : ∀ e ∈ defaultTemplates, e.2.fields ≠ [] →
      e.1 ≠ templateNamePrintJSON ∧ e.1 ≠ templateNamePrintPrettyJSON ∧
        e.1 ≠ templateNamePrintCustom := by decide
  exact key _ h hf

/-- The text after the define blocks in built-in mode, for a name of the
registry. -/
theorem dispatch_of_mem (c : CLI) (name : GoString) (md : templateMetadata)
    (h : (name, md) ∈ defaultTemplates) (hf : md.fields ≠ [])
    (htpl : c.outputTemplate = []) :
    dispatch c name =
      (if c.quiet then [] else headerLine md.fields) ++ rangeBlock md.sortBy name := by
  have hpos : md.fields.length > 0 := List.length_pos.mpr hf
  unfold dispatch
  simp only [htpl, if_true, lookupTemplate_of_mem name md h, hpos, headerLoop_eq,
    headerLine, rangeBlock]
  cases c.quiet <;> simp [lit, EncodeRune]

/-- The built-in mode for a selected name of the registry that has fields:
the document that is parsed and executed. -/
theorem fmtOutput_builtin_doc (env : Env) (c : CLI) (n : Nat) (w : Writer)
    (templateName : GoString) (o : Payload) (name : GoString) (md : templateMetadata)
    (hmem : (name, md) ∈ defaultTemplates) (hfields : md.fields ≠ [])
    (hfmt : EqualFold c.outputFormat (lit "tmpl") = true) (htpl : c.outputTemplate = [])
    (hsel : (if templateName = [] then defaultTemplateName o else templateName) = name) :
    fmtOutput env c n w templateName o =
      nestedCalls c.outputTemplateTabs o.calls w fun w1 =>
        newExecute env w1
          (buildDefaultTemplate (env.range (n + (o.calls - 1))) ++
            ((if c.quiet then [] else headerLine md.fields) ++ rangeBlock md.sortBy name))
          o.normalized := by
  obtain ⟨h1, h2, h3⟩ := name_of_fields name md hmem hfields
  rw [fmtOutput_builtin_all env c n w templateName o hfmt htpl, hsel]
  congr 1
  funext w1
  rw [render_plain env c _ name _ _ _ h1 h2 h3, dispatch_of_mem c name md hmem hfields htpl]

/-! ## Sorting of string slices -/

theorem strLt_asymm : ∀ (a b : GoString), strLt a b = true → strLt b a = false := by
  intro a
  induction a with
  | nil => intro b _; cases b <;> rfl
  | cons x s ih =>
    intro b h
    cases b with
    | nil => simp [strLt] at h
    | cons y t =>
      simp only [strLt, Bool.or_eq_true, decide_eq_true_eq, Bool.and_eq_true, beq_iff_eq,
        Bool.or_eq_false_iff, decide_eq_false_iff_not, Bool.and_eq_false_imp] at h ⊢
      rcases h with h | ⟨h1, h2⟩
      · exact ⟨by omega, fun e => by omega⟩
      · exact ⟨by omega, fun _ => ih t h2⟩

/-- Transitivity of `a ≤ b` read as `strLt b a = false`. -/
theorem strLe_trans : ∀ (a b c : GoString), strLt b a = false → strLt c b = false →
    strLt c a = false := by
  intro a
  induction a with
  | nil => intro b c _ _; cases c <;> rfl
  | cons x s ih =>
    intro b c h1 h2
    cases b with
    | nil => simp [strLt] at h1
    | cons y t =>
      cases c with
      | nil => simp [strLt] at h2
      | cons z u =>
        simp only [strLt, Bool.or_eq_false_iff, decide_eq_false_iff_not,
          Bool.and_eq_false_imp, beq_iff_eq] at h1 h2 ⊢
        refine ⟨by omega, fun e => ?_⟩
        have e1 : y = x := by omega
        have e2 : z = y := by omega
        exact ih t u (h1.2 e1) (h2.2 e2)

theorem mem_orderedInsert (a x : GoString) (l : List GoString) :
    x ∈ orderedInsert a l ↔ x = a ∨ x ∈ l := by
  induction l with
  | nil => simp [orderedInsert]
  | cons b l ih =>
    simp only [orderedInsert]
    split
    · simp only [List.mem_cons, ih]; tauto
    · simp only [List.mem_cons]

theorem orderedInsert_perm (a : GoString) (l : List GoString) :
    (orderedInsert a l).Perm (a :: l) := by
  induction l with
  | nil => exact List.Perm.refl _
  | cons b l ih =>
    simp only [orderedInsert]
    split
    · exact (List.Perm.cons b ih).trans (List.Perm.swap a b l)
    · exact List.Perm.refl _

theorem orderedInsert_sorted (a : GoString) (l : List GoString)
    (h : l.Pairwise (fun x y => strLt y x = false)) :
    (orderedInsert a l).Pairwise (fun x y => strLt y x = false) := by
  induction l with
  | nil => simp [orderedInsert]
  | cons b l ih =>
    rw [List.pairwise_cons] at h
    simp only [orderedInsert]
    split
    · rename_i hba
      rw [List.pairwise_cons]
      refine ⟨fun x hx => ?_, ih h.2⟩
      rcases (mem_orderedInsert a x l).mp hx with rfl | hx
      · exact strLt_asymm _ _ hba
      · exact h.1 x hx
    · rename_i hba
      have hba : strLt b a = false := by simpa using hba
      rw [List.pairwise_cons]
      refine ⟨fun x hx => ?_, List.pairwise_cons.mpr h⟩
      rcases List.mem_cons.mp hx with rfl | hx
      · exact hba
      · exact strLe_trans a b x hba (h.1 x hx)

theorem sortStrings_perm (l : List GoString) : (sortStrings l).Perm l := by
  induction l with
  | nil => exact List.Perm.refl _
  | cons a l ih => exact (orderedInsert_perm a _).trans (List.Perm.cons a ih)

theorem sortStrings_sorted (l : List GoString) :
    (sortStrings l).Pairwise (fun x y => strLt y x = false) := by
  induction l with
  | nil => exact List.Pairwise.nil
  | cons a l ih => exact orderedInsert_sorted a _ ih


/-! ## Unquoting the re-quoted format string -/

/-- The rows of the table `first`. -/
theorem first_some (b sz lo hi : Nat) (h : first b = some (sz, lo, hi)) :
    (sz = 2 ∧ 0xC2 ≤ b ∧ b ≤ 0xDF ∧ lo = 0x80 ∧ hi = 0xBF) ∨
    (sz = 3 ∧ 0xE0 ≤ b ∧ b ≤ 0xEF ∧ 0x80 ≤ lo ∧ hi ≤ 0xBF ∧
      (b = 0xE0 → 0xA0 ≤ lo) ∧ (b = 0xED → hi ≤ 0x9F)) ∨
    (sz = 4 ∧ 0xF0 ≤ b ∧ b ≤ 0xF4 ∧ 0x80 ≤ lo ∧ hi ≤ 0xBF ∧
      (b = 0xF0 → 0x90 ≤ lo) ∧ (b = 0xF4 → hi ≤ 0x8F)) := by
  unfold first at h
  split_ifs at h <;> simp only [Option.some.injEq, Prod.mk.injEq, reduceCtorEq] at h <;> omega

theorem encode2 (b s1 : Nat) (hb : 0xC2 ≤ b ∧ b ≤ 0xDF) (h1 : 0x80 ≤ s1 ∧ s1 ≤ 0xBF) :
    EncodeRune ((b % 0x20) * 0x40 + s1 % 0x40) = [b, s1] := by
  have r1 : ¬ (b % 0x20) * 0x40 + s1 % 0x40 ≤ 0x7F := by omega
  have r2 : (b % 0x20) * 0x40 + s1 % 0x40 ≤ 0x7FF := by omega
  simp only [EncodeRune, r1, r2, if_false, if_true, List.cons.injEq, and_true]
  omega

theorem encode3 (b s1 s2 : Nat) (hb : 0xE0 ≤ b ∧ b ≤ 0xEF) (h1 : 0x80 ≤ s1 ∧ s1 ≤ 0xBF)
    (h2 : 0x80 ≤ s2 ∧ s2 ≤ 0xBF) (hlo : b = 0xE0 → 0xA0 ≤ s1) (hhi : b = 0xED → s1 ≤ 0x9F) :
    EncodeRune ((b % 0x10) * 0x1000 + (s1 % 0x40) * 0x40 + s2 % 0x40) = [b, s1, s2] := by
  have r1 : ¬ (b % 0x10) * 0x1000 + (s1 % 0x40) * 0x40 + s2 % 0x40 ≤ 0x7F := by omega
  have r2 : ¬ (b % 0x10) * 0x1000 + (s1 % 0x40) * 0x40 + s2 % 0x40 ≤ 0x7FF := by omega
  have r3 : (b % 0x10) * 0x1000 + (s1 % 0x40) * 0x40 + s2 % 0x40 ≤ 0xFFFF := by omega
  have rv : ValidRune ((b % 0x10) * 0x1000 + (s1 % 0x40) * 0x40 + s2 % 0x40) = true := by
    simp only [ValidRune, MaxRune, Bool.or_eq_true, decide_eq_true_eq, Bool.and_eq_true]
    omega
  simp only [EncodeRune, r1, r2, r3, rv, if_false, if_true, List.cons.injEq, and_true]
  omega

theorem encode4 (b s1 s2 s3 : Nat) (hb : 0xF0 ≤ b ∧ b ≤ 0xF4) (h1 : 0x80 ≤ s1 ∧ s1 ≤ 0xBF)
    (h2 : 0x80 ≤ s2 ∧ s2 ≤ 0xBF) (h3 : 0x80 ≤ s3 ∧ s3 ≤ 0xBF)
    (hlo : b = 0xF0 → 0x90 ≤ s1) (hhi : b = 0xF4 → s1 ≤ 0x8F) :
    EncodeRune ((b % 0x08) * 0x40000 + (s1 % 0x40) * 0x1000 + (s2 % 0x40) * 0x40
      + s3 % 0x40) = [b, s1, s2, s3] := by
  have r1 : ¬ (b % 0x08) * 0x40000 + (s1 % 0x40) * 0x1000 + (s2 % 0x40) * 0x40
      + s3 % 0x40 ≤ 0x7F := by omega
  have r2 : ¬ (b % 0x08) * 0x40000 + (s1 % 0x40) * 0x1000 + (s2 % 0x40) * 0x40
      + s3 % 0x40 ≤ 0x7FF := by omega
  have r3 : ¬ (b % 0x08) * 0x40000 + (s1 % 0x40) * 0x1000 + (s2 % 0x40) * 0x40
      + s3 % 0x40 ≤ 0xFFFF := by omega
  have rv : ValidRune ((b % 0x08) * 0x40000 + (s1 % 0x40) * 0x1000 + (s2 % 0x40) * 0x40
      + s3 % 0x40) = true := by
    simp only [ValidRune, MaxRune, Bool.or_eq_true, decide_eq_true_eq, Bool.and_eq_true]
    omega
  simp only [EncodeRune, r1, r2, r3, rv, if_false, if_true, List.cons.injEq, and_true]
  omega


theorem isCont_iff (x : Nat) : isCont x = true ↔ 0x80 ≤ x ∧ x ≤ 0xBF := by
  simp [isCont]

/-- The function `DecodeRuneInString` reads, after the first byte, only
continuation bytes. -/
theorem decode_takeWhile (b : Nat) (t : GoString) :
    DecodeRuneInString (b :: t) = DecodeRuneInString (b :: t.takeWhile isCont) := by
  unfold DecodeRuneInString
  by_cases hb : b < RuneSelf
  · simp only [hb, if_true]
  · simp only [hb, if_false]
    cases hf : first b with
    | none => rfl
    | some v =>
      obtain ⟨sz, lo, hi⟩ := v
      have hs := first_some b sz lo hi hf
      cases t with
      | nil => rfl
      | cons s1 t1 =>
        by_cases c1 : isCont s1 = true
        · rw [List.takeWhile_cons_of_pos c1]
          simp only
          by_cases d1 : s1 < lo ∨ hi < s1
          · simp only [d1, if_true]
          · simp only [d1, if_false]
            by_cases e1 : sz ≤ 2
            · simp only [e1, if_true]
            · simp only [e1, if_false]
              cases t1 with
              | nil => rfl
              | cons s2 t2 =>
                by_cases c2 : isCont s2 = true
                · rw [List.takeWhile_cons_of_pos c2]
                  simp only [c2, Bool.not_true, Bool.false_eq_true, if_false]
                  by_cases e2 : sz ≤ 3
                  · simp only [e2, if_true]
                  · simp only [e2, if_false]
                    cases t2 with
                    | nil => rfl
                    | cons s3 t3 =>
                      by_cases c3 : isCont s3 = true
                      · rw [List.takeWhile_cons_of_pos c3]
                      · rw [List.takeWhile_cons_of_neg c3]
                        simp only [c3, Bool.not_false, if_true]
                · rw [List.takeWhile_cons_of_neg c2]
                  simp only [c2, Bool.not_false, if_true]
        · rw [List.takeWhile_cons_of_neg c1]
          have d1 : s1 < lo ∨ hi < s1 := by
            have := (isCont_iff s1).not.mp c1
            omega
          simp only [d1, if_true]

/-- What `DecodeRuneInString` returns on a string that starts with a byte
outside ASCII: either the error rune with width one, or a rune of two to
four bytes, all of them continuation bytes after the first, whose encoding
is these bytes. -/
theorem decode_cases (b : Nat) (t : GoString) (hb : ¬ b < RuneSelf) :
    DecodeRuneInString (b :: t) = (RuneError, 1) ∨
    ∃ r pre rest, t = pre ++ rest ∧ 1 ≤ pre.length ∧ (∀ x ∈ pre, isCont x = true) ∧
      DecodeRuneInString (b :: t) = (r, pre.length + 1) ∧ EncodeRune r = b :: pre := by
  unfold DecodeRuneInString
  simp only [hb, if_false]
  cases hf : first b with
  | none => left; rfl
  | some v =>
    obtain ⟨sz, lo, hi⟩ := v
    have hs := first_some b sz lo hi hf
    cases t with
    | nil => left; rfl
    | cons s1 t1 =>
      simp only
      by_cases d1 : s1 < lo ∨ hi < s1
      · left; simp only [d1, if_true]
      · simp only [d1, if_false]
        by_cases e1 : sz ≤ 2
        · right
          simp only [e1, if_true]
          refine ⟨_, [s1], t1, rfl, by simp, ?_, rfl, ?_⟩
          · intro x hx
            simp only [List.mem_singleton] at hx
            subst hx
            rw [isCont_iff]; omega
          · exact encode2 b s1 (by omega) (by omega)
        · simp only [e1, if_false]
          cases t1 with
          | nil => left; rfl
          | cons s2 t2 =>
            simp only
            by_cases c2 : isCont s2 = true
            · have c2' := (isCont_iff s2).mp c2
              simp only [c2, Bool.not_true, Bool.false_eq_true, if_false]
              by_cases e2 : sz ≤ 3
              · right
                simp only [e2, if_true]
                refine ⟨_, [s1, s2], t2, rfl, by simp, ?_, rfl, ?_⟩
                · intro x hx
                  simp only [List.mem_cons, List.mem_singleton, List.not_mem_nil,
                    or_false] at hx
                  rcases hx with rfl | rfl
                  · rw [isCont_iff]; omega
                  · exact c2
                · exact encode3 b s1 s2 (by omega) (by omega) c2' (by omega) (by omega)
              · simp only [e2, if_false]
                cases t2 with
                | nil => left; rfl
                | cons s3 t3 =>
                  simp only
                  by_cases c3 : isCont s3 = true
                  · have c3' := (isCont_iff s3).mp c3
                    right
                    simp only [c3, Bool.not_true, Bool.false_eq_true, if_false]
                    refine ⟨_, [s1, s2, s3], t3, rfl, by simp, ?_, rfl, ?_⟩
                    · intro x hx
                      simp only [List.mem_cons, List.mem_singleton, List.not_mem_nil,
                        or_false] at hx
                      rcases hx with rfl | rfl | rfl
                      · rw [isCont_iff]; omega
                      · exact c2
                      · exact c3
                    · exact encode4 b s1 s2 s3 (by omega) (by omega) c2' c3' (by omega)
                        (by omega)
                  · left; simp only [c3, Bool.not_false, if_true]
            · left; simp only [c2, Bool.not_false, if_true]


theorem Replace_append (a b : GoString) (old : Nat) (new : GoString) :
    Replace (a ++ b) old new = Replace a old new ++ Replace b old new := by
  induction a with
  | nil => rfl
  | cons x a ih =>
    show (if x = old then new else [x]) ++ Replace (a ++ b) old new = _
    rw [ih, Replace, List.append_assoc]

theorem Replace_of_not_mem (a : GoString) (old : Nat) (new : GoString) (h : old ∉ a) :
    Replace a old new = a := by
  induction a with
  | nil => rfl
  | cons x a ih =>
    simp only [List.mem_cons, not_or] at h
    have hx : ¬ x = old := fun e => h.1 e.symm
    simp only [Replace, hx, if_false, ih h.2, List.singleton_append]

theorem Replace_length (a : GoString) : a.length ≤ (Replace a 0x22 [0x5C, 0x22]).length := by
  induction a with
  | nil => simp [Replace]
  | cons x a ih =>
    simp only [Replace, List.length_append, List.length_cons]
    split_ifs <;> simp <;> omega

/-- After the escaping of the quotes, and before a rest that starts with no
continuation byte, the continuation bytes at the start are the ones of the
string itself. -/
theorem Replace_takeWhile (t rest : GoString) (hrest : rest.takeWhile isCont = []) :
    (Replace t 0x22 [0x5C, 0x22] ++ rest).takeWhile isCont = t.takeWhile isCont := by
  induction t with
  | nil => simpa [Replace] using hrest
  | cons c t ih =>
    by_cases hc : c = 0x22
    · subst hc
      simp [Replace, List.takeWhile_cons, isCont]
    · simp only [Replace, hc, if_false, List.singleton_append, List.cons_append,
        List.takeWhile_cons, ih, List.nil_append]

/-- Decoding a rune after the escaping of the quotes. -/
theorem decode_Replace (b : Nat) (t rest : GoString) (hrest : rest.takeWhile isCont = []) :
    DecodeRuneInString (b :: (Replace t 0x22 [0x5C, 0x22] ++ rest)) =
      DecodeRuneInString (b :: t) := by
  rw [decode_takeWhile, Replace_takeWhile t rest hrest, ← decode_takeWhile]

theorem Replace_cont (pre : GoString) (h : ∀ x ∈ pre, isCont x = true) :
    Replace pre 0x22 [0x5C, 0x22] = pre := by
  apply Replace_of_not_mem
  intro hq
  have := h _ hq
  simp [isCont] at this

theorem encode_long (r : Nat) (h : 2 ≤ (EncodeRune r).length) : ¬ r < RuneSelf := by
  intro hr
  have h1 : r ≤ 0x7F := by simp only [RuneSelf] at hr; omega
  simp [EncodeRune, h1] at h

/-! ### The rounds of the escape loop, for the double quote -/

theorem unquoteLoop_quote (fuel : Nat) (X buf : GoString) :
    unquoteLoop 0x22 fuel (0x22 :: X) buf = .ok (buf, 0x22 :: X) := by
  cases fuel <;> simp [unquoteLoop]

theorem unquoteLoop_ascii (fuel c : Nat) (X buf : GoString) (hc : c < RuneSelf)
    (hq : c ≠ 0x22) (hb : c ≠ 0x5C) (hl : c ≠ 0x0A) :
    unquoteLoop 0x22 (fuel + 1) (c :: X) buf = unquoteLoop 0x22 fuel X (buf ++ [c]) := by
  have hge : ¬ c ≥ RuneSelf := by omega
  have hm : c % 256 = c := Nat.mod_eq_of_lt (by simp only [RuneSelf] at hc; omega)
  simp [unquoteLoop, UnquoteChar, hq, hb, hl, hge, hc, hm]

theorem unquoteLoop_lf (fuel : Nat) (X buf : GoString) :
    unquoteLoop 0x22 (fuel + 1) (0x0A :: X) buf = .error .ErrSyntax := by
  simp [unquoteLoop, UnquoteChar, unquoteEscape, RuneSelf]

theorem unquoteLoop_escaped_quote (fuel : Nat) (X buf : GoString) :
    unquoteLoop 0x22 (fuel + 1) (0x5C :: 0x22 :: X) buf =
      unquoteLoop 0x22 fuel X (buf ++ [0x22]) := by
  simp [unquoteLoop, UnquoteChar, unquoteEscape, RuneSelf]

theorem unquoteLoop_escaped_backslash (fuel : Nat) (X buf : GoString) :
    unquoteLoop 0x22 (fuel + 1) (0x5C :: 0x5C :: X) buf =
      unquoteLoop 0x22 fuel X (buf ++ [0x5C]) := by
  simp [unquoteLoop, UnquoteChar, unquoteEscape, RuneSelf]

theorem unquoteLoop_rune (fuel c : Nat) (X buf : GoString) (hc : ¬ c < RuneSelf) :
    unquoteLoop 0x22 (fuel + 1) (c :: X) buf =
      unquoteLoop 0x22 fuel ((c :: X).drop (DecodeRuneInString (c :: X)).2)
        (buf ++ (if (DecodeRuneInString (c :: X)).1 < RuneSelf then
                  [(DecodeRuneInString (c :: X)).1 % 256]
                else EncodeRune (DecodeRuneInString (c :: X)).1)) := by
  have hge : c ≥ RuneSelf := by omega
  have hq : c ≠ 0x22 := by simp only [RuneSelf] at hc; omega
  have hl : c ≠ 0x0A := by simp only [RuneSelf] at hc; omega
  simp [unquoteLoop, UnquoteChar, hq, hl, hge]

/-- The rune loop of `unquote` on a quote-escaped string without backslash
and line feed that is valid UTF-8: the string is copied to the buffer and
the loop stops at the closing quote. -/
theorem unquoteLoop_valid : ∀ (vf : Nat) (f : GoString), validLoop vf f = true →
    0x5C ∉ f → 0x0A ∉ f → ∀ (fuel : Nat) (buf : GoString), f.length < fuel →
    unquoteLoop 0x22 fuel (Replace f 0x22 [0x5C, 0x22] ++ [0x22]) buf =
      .ok (buf ++ f, [0x22]) := by
  intro vf
  induction vf with
  | zero =>
    intro f hv _ _ fuel buf _
    have hf : f = [] := by simpa [validLoop] using hv
    subst hf
    simpa [Replace] using unquoteLoop_quote fuel [] buf
  | succ vf ih =>
    intro f hv hB hL fuel buf hfuel
    cases fuel with
    | zero => simp at hfuel
    | succ fuel =>
      cases f with
      | nil => simpa [Replace] using unquoteLoop_quote (fuel + 1) [] buf
      | cons c t =>
        simp only [List.mem_cons, not_or] at hB hL
        simp only [List.length_cons, Nat.add_lt_add_iff_right] at hfuel
        by_cases hc : c < RuneSelf
        · simp only [validLoop, hc, if_true] at hv
          by_cases hq : c = 0x22
          · subst hq
            have h1 := ih t hv hB.2 hL.2 fuel (buf ++ [0x22]) hfuel
            simp only [Replace, if_true, List.cons_append, List.nil_append,
              unquoteLoop_escaped_quote, h1, List.append_assoc]
          · have h1 := ih t hv hB.2 hL.2 fuel (buf ++ [c]) hfuel
            simp only [Replace, hq, if_false, List.cons_append, List.nil_append]
            rw [unquoteLoop_ascii fuel c _ buf hc hq (fun e => hB.1 e.symm)
              (fun e => hL.1 e.symm), h1]
            simp only [List.append_assoc, List.cons_append, List.nil_append]
        · have hq : ¬ c = 0x22 := by simp only [RuneSelf] at hc; omega
          simp only [validLoop, hc, if_false] at hv
          rcases decode_cases c t hc with hd | ⟨r, pre, rest, ht, hpre, hcont, hd, he⟩
          · rw [hd] at hv; simp at hv
          · rw [hd] at hv
            simp only [if_neg (show ¬ pre.length + 1 ≤ 1 by omega),
              ht, List.drop_succ_cons, List.drop_left] at hv
            subst ht
            simp only [List.mem_append, not_or, List.length_append] at hB hL hfuel
            have hr : ¬ r < RuneSelf := encode_long r (by rw [he]; simp; omega)
            have hdec := decode_Replace c (pre ++ rest) [0x22] (by simp [isCont])
            rw [hd] at hdec
            have h1 := ih rest hv hB.2.2 hL.2.2 fuel (buf ++ (c :: pre)) (by omega)
            simp only [Replace, hq, if_false, List.cons_append, List.nil_append]
            rw [unquoteLoop_rune fuel c _ buf hc, hdec]
            simp only [hr, if_false, he, List.drop_succ_cons]
            rw [Replace_append, Replace_cont pre hcont, List.append_assoc, List.drop_left, h1]
            simp only [List.append_assoc, List.cons_append]

/-- The rune loop of `unquote` on a quote-escaped string without backslash,
before a rest that starts with no continuation byte: it fails, or it goes
on with the rest and has used at most one round for each byte. -/
theorem unquoteLoop_prefix : ∀ (m : Nat) (p : GoString), p.length ≤ m → 0x5C ∉ p →
    ∀ (rest : GoString), rest.takeWhile isCont = [] →
    ∀ (fuel : Nat) (buf : GoString), p.length ≤ fuel →
    unquoteLoop 0x22 fuel (Replace p 0x22 [0x5C, 0x22] ++ rest) buf = .error .ErrSyntax ∨
    ∃ fuel1 buf1, fuel - p.length ≤ fuel1 ∧
      unquoteLoop 0x22 fuel (Replace p 0x22 [0x5C, 0x22] ++ rest) buf =
        unquoteLoop 0x22 fuel1 rest buf1 := by
  intro m
  induction m with
  | zero =>
    intro p hp _ rest _ fuel buf _
    have hp0 : p = [] := List.length_eq_zero.mp (by omega)
    subst hp0
    exact Or.inr ⟨fuel, buf, by simp, by simp [Replace]⟩
  | succ m ih =>
    intro p hp hB rest hrest fuel buf hfuel
    cases p with
    | nil => exact Or.inr ⟨fuel, buf, by simp, by simp [Replace]⟩
    | cons c t =>
      simp only [List.length_cons] at hp hfuel
      simp only [List.mem_cons, not_or] at hB
      cases fuel with
      | zero => omega
      | succ fuel =>
        by_cases hc : c < RuneSelf
        · by_cases hq : c = 0x22
          · subst hq
            simp only [Replace, if_true, List.cons_append, List.nil_append,
              unquoteLoop_escaped_quote]
            rcases ih t (by omega) hB.2 rest hrest fuel (buf ++ [0x22]) (by omega) with
              h | ⟨f1, b1, hf1, h⟩
            · exact Or.inl h
            · exact Or.inr ⟨f1, b1, by simp only [List.length_cons]; omega, h⟩
          · simp only [Replace, hq, if_false, List.cons_append, List.nil_append]
            by_cases hl : c = 0x0A
            · subst hl
              exact Or.inl (unquoteLoop_lf fuel _ buf)
            · rw [unquoteLoop_ascii fuel c _ buf hc hq (fun e => hB.1 e.symm) hl]
              rcases ih t (by omega) hB.2 rest hrest fuel (buf ++ [c]) (by omega) with
                h | ⟨f1, b1, hf1, h⟩
              · exact Or.inl h
              · exact Or.inr ⟨f1, b1, by simp only [List.length_cons]; omega, h⟩
        · have hq : ¬ c = 0x22 := by simp only [RuneSelf] at hc; omega
          have hdec := decode_Replace c t rest hrest
          simp only [Replace, hq, if_false, List.cons_append, List.nil_append]
          rw [unquoteLoop_rune fuel c _ buf hc, hdec]
          rcases decode_cases c t hc with hd | ⟨r, pre, rest1, ht, hpre, hcont, hd, he⟩
          · rw [hd]
            simp only [List.drop_succ_cons, List.drop_zero]
            rcases ih t (by omega) hB.2 rest hrest fuel _ (by omega) with
              h | ⟨f1, b1, hf1, h⟩
            · exact Or.inl h
            · exact Or.inr ⟨f1, b1, by simp only [List.length_cons]; omega, h⟩
          · rw [hd]
            subst ht
            simp only [List.mem_append, not_or, List.length_append] at hB hp hfuel
            simp only [List.drop_succ_cons]
            rw [Replace_append, Replace_cont pre hcont, List.append_assoc, List.drop_left]
            rcases ih rest1 (by omega) hB.2.2 rest hrest fuel _ (by omega) with
              h | ⟨f1, b1, hf1, h⟩
            · exact Or.inl h
            · exact Or.inr ⟨f1, b1,
                by simp only [List.length_cons, List.length_append]; omega, h⟩

/-- Every error of the escape loop is `ErrSyntax`. -/
theorem unquoteLoop_error (q : Nat) : ∀ (fuel : Nat) (inp buf : GoString) (e : GoError),
    unquoteLoop q fuel inp buf = .error e → e = .ErrSyntax := by
  intro fuel
  induction fuel with
  | zero => intro inp buf e h; simp [unquoteLoop] at h
  | succ fuel ih =>
    intro inp buf e h
    cases inp with
    | nil => simp [unquoteLoop] at h
    | cons c t =>
      simp only [unquoteLoop] at h
      split at h
      · simp at h
      · split at h
        · simp only [Except.error.injEq] at h; exact h.symm
        · split at h
          · simp only [Except.error.injEq] at h; exact h.symm
          · split at h
            · simp at h
            · exact ih _ _ _ h

theorem index_append_self (f : GoString) (q : Nat) (h : q ∉ f) :
    index (f ++ [q]) q = some f.length := by
  induction f with
  | nil => simp [index]
  | cons x f ih =>
    simp only [List.mem_cons, not_or] at h
    have hx : ¬ x = q := fun e => h.1 e.symm
    simp [index, hx, ih h.2]

theorem contains_cons (x c : Nat) (l : GoString) :
    contains (x :: l) c = (decide (x = c) || contains l c) := by
  unfold contains
  by_cases h : x = c
  · simp [index, h]
  · simp [index, h]

/-- In a quote-escaped string that holds a quote, the text up to the first
quote holds a backslash. -/
theorem index_Replace (x y : GoString) (h : 0x22 ∈ x) :
    ∃ e, index (Replace x 0x22 [0x5C, 0x22] ++ y) 0x22 = some e ∧
      contains ((Replace x 0x22 [0x5C, 0x22] ++ y).take (e + 1)) 0x5C = true := by
  induction x with
  | nil => simp at h
  | cons c t ih =>
    by_cases hc : c = 0x22
    · subst hc
      exact ⟨1, by simp [Replace, index], by simp [Replace, contains_cons]⟩
    · have ht : 0x22 ∈ t := by
        rcases List.mem_cons.mp h with e | e
        · exact absurd e.symm hc
        · exact e
      obtain ⟨e, h1, h2⟩ := ih ht
      refine ⟨e + 1, by simp [Replace, index, hc, h1], ?_⟩
      simp only [Replace, hc, if_false, List.cons_append, List.nil_append, List.take_succ_cons,
        contains_cons, h2, Bool.or_true]

/-- The function `unquote` on a string that starts with a double quote and
holds another one. -/
theorem unquote_double_quoted (body : GoString) (e : Nat)
    (hidx : index body 0x22 = some e) :
    unquote (0x22 :: body) =
      if (!contains ((0x22 :: body).take (e + 2)) 0x5C &&
          !contains ((0x22 :: body).take (e + 2)) 0x0A &&
          ValidString (body.take e)) = true then
        .ok (body.take e, (0x22 :: body).drop (e + 2))
      else
        match unquoteLoop 0x22 body.length body [] with
        | .error err => .error err
        | .ok (buf, rest) =>
          match rest with
          | [] => .error .ErrSyntax
          | c :: rest => if c = 0x22 then .ok (buf, rest) else .error .ErrSyntax := by
  cases body with
  | nil => simp [index] at hidx
  | cons b0 bt =>
    simp only [unquote, hidx]
    simp only [show ¬ (0x22 : Nat) = 0x60 by decide, if_false, true_or, if_true]

/-- A custom format string that is valid UTF-8 and holds neither a backslash
nor a line feed comes back from the re-quoting and unquoting as it is. -/
theorem requote_plain (f : GoString) (hB : 0x5C ∉ f) (hL : 0x0A ∉ f)
    (hv : ValidString f = true) : requote f = .ok f := by
  have hloop := unquoteLoop_valid f.length f hv hB hL
    (Replace f 0x22 [0x5C, 0x22] ++ [0x22]).length []
    (by have := Replace_length f; simp only [List.length_append, List.length_singleton]; omega)
  simp only [List.nil_append] at hloop
  unfold requote Unquote
  simp only [List.singleton_append, List.cons_append, List.nil_append]
  by_cases hq : 0x22 ∈ f
  · obtain ⟨e, h1, h2⟩ := index_Replace f [0x22] hq
    rw [unquote_double_quoted _ e h1]
    have h3 : contains ((0x22 :: (Replace f 0x22 [0x5C, 0x22] ++ [0x22])).take (e + 2)) 0x5C
        = true := by
      rw [List.take_succ_cons, contains_cons, h2]; rfl
    simp only [h3, Bool.not_true, Bool.false_and, Bool.false_eq_true, if_false, hloop]
    simp
  · rw [Replace_of_not_mem f _ _ hq] at hloop ⊢
    rw [unquote_double_quoted _ f.length (index_append_self f 0x22 hq)]
    split_ifs
    · simp
    · simp only [hloop]
      simp

/-- A custom format string in which the first backslash stands right before
a double quote is rejected by the re-quoting and unquoting. -/
theorem requote_escaped_quote (p s : GoString) (hB : 0x5C ∉ p) :
    requote (p ++ [0x5C, 0x22] ++ s) = .error .ErrSyntax := by
  have hq : 0x22 ∈ p ++ [0x5C, 0x22] ++ s := by simp
  obtain ⟨e, h1, h2⟩ := index_Replace (p ++ [0x5C, 0x22] ++ s) [0x22] hq
  unfold requote Unquote
  simp only [List.singleton_append, List.cons_append, List.nil_append]
  rw [unquote_double_quoted _ e h1]
  have h3 : contains ((0x22 :: (Replace (p ++ [0x5C, 0x22] ++ s) 0x22 [0x5C, 0x22] ++
      [0x22])).take (e + 2)) 0x5C = true := by
    rw [List.take_succ_cons, contains_cons, h2]; rfl
  simp only [h3, Bool.not_true, Bool.false_and, Bool.false_eq_true, if_false]
  have hshape : Replace (p ++ [0x5C, 0x22] ++ s) 0x22 [0x5C, 0x22] ++ [0x22] =
      Replace p 0x22 [0x5C, 0x22] ++
        (0x5C :: 0x5C :: 0x22 :: (Replace s 0x22 [0x5C, 0x22] ++ [0x22])) := by
    simp [Replace_append, Replace]
  rw [hshape]
  have hlen : p.length + 4 ≤ (Replace p 0x22 [0x5C, 0x22] ++
      (0x5C :: 0x5C :: 0x22 :: (Replace s 0x22 [0x5C, 0x22] ++ [0x22]))).length := by
    have := Replace_length p
    simp only [List.length_append, List.length_cons]; omega
  rcases unquoteLoop_prefix p.length p (le_refl _) hB
      (0x5C :: 0x5C :: 0x22 :: (Replace s 0x22 [0x5C, 0x22] ++ [0x22]))
      (by simp [isCont])
      (Replace p 0x22 [0x5C, 0x22] ++
        (0x5C :: 0x5C :: 0x22 :: (Replace s 0x22 [0x5C, 0x22] ++ [0x22]))).length
      [] (by omega) with h | ⟨f1, b1, hf1, h⟩
  · rw [h]
  · rw [h]
    cases f1 with
    | zero => omega
    | succ f1 =>
      rw [unquoteLoop_escaped_backslash, unquoteLoop_quote]
      simp

/-! ### The bounds of the loops are enough -/

theorem decode_width_pos (b : Nat) (t : GoString) :
    1 ≤ (DecodeRuneInString (b :: t)).2 := by
  by_cases hb : b < RuneSelf
  · simp [DecodeRuneInString, hb]
  · rcases decode_cases b t hb with h | ⟨r, pre, rest, _, _, _, h, _⟩
    · simp [h]
    · simp [h]

theorem hexDigits_length : ∀ (n : Nat) (s : GoString) (v v1 : Nat) (s1 : GoString),
    hexDigits n s v = some (v1, s1) → s1.length ≤ s.length := by
  intro n
  induction n with
  | zero => intro s v v1 s1 h; simp only [hexDigits, Option.some.injEq, Prod.mk.injEq] at h
            rw [h.2]
  | succ n ih =>
    intro s v v1 s1 h
    cases s with
    | nil => simp [hexDigits] at h
    | cons b t =>
      simp only [hexDigits] at h
      split at h
      · simp at h
      · have := ih _ _ _ _ h
        simp only [List.length_cons]; omega

theorem octDigits_length : ∀ (n : Nat) (s : GoString) (v v1 : Nat) (s1 : GoString),
    octDigits n s v = some (v1, s1) → s1.length ≤ s.length := by
  intro n
  induction n with
  | zero => intro s v v1 s1 h; simp only [octDigits, Option.some.injEq, Prod.mk.injEq] at h
            rw [h.2]
  | succ n ih =>
    intro s v v1 s1 h
    cases s with
    | nil => simp [octDigits] at h
    | cons b t =>
      simp only [octDigits] at h
      split at h
      · have := ih _ _ _ _ h
        simp only [List.length_cons]; omega
      · simp at h

theorem unquoteEscape_length (c : Nat) (s : GoString) (q r : Nat) (mb : Bool)
    (rem : GoString) (h : unquoteEscape c s q = .ok (r, mb, rem)) :
    rem.length ≤ s.length := by
  have key : ∀ x : Nat × Bool × GoString, x.2.2.length ≤ s.length →
      Except.ok (ε := GoError) x = .ok (r, mb, rem) → rem.length ≤ s.length := by
    intro x hx he
    simp only [Except.ok.injEq] at he
    rw [he] at hx
    exact hx
  unfold unquoteEscape at h
  by_cases h61 : c = 0x61
  · rw [if_pos h61] at h; exact key _ (le_refl _) h
  rw [if_neg h61] at h
  by_cases h62 : c = 0x62
  · rw [if_pos h62] at h; exact key _ (le_refl _) h
  rw [if_neg h62] at h
  by_cases h66 : c = 0x66
  · rw [if_pos h66] at h; exact key _ (le_refl _) h
  rw [if_neg h66] at h
  by_cases h6E : c = 0x6E
  · rw [if_pos h6E] at h; exact key _ (le_refl _) h
  rw [if_neg h6E] at h
  by_cases h72 : c = 0x72
  · rw [if_pos h72] at h; exact key _ (le_refl _) h
  rw [if_neg h72] at h
  by_cases h74 : c = 0x74
  · rw [if_pos h74] at h; exact key _ (le_refl _) h
  rw [if_neg h74] at h
  by_cases h76 : c = 0x76
  · rw [if_pos h76] at h; exact key _ (le_refl _) h
  rw [if_neg h76] at h
  by_cases hx : c = 0x78 ∨ c = 0x75 ∨ c = 0x55
  · rw [if_pos hx] at h
    cases hd : hexDigits (if c = 0x78 then 2 else if c = 0x75 then 4 else 8) s 0 with
    | none => simp only [hd] at h; exact absurd h (by simp)
    | some v =>
      obtain ⟨v, s2⟩ := v
      have hlen := hexDigits_length _ _ _ _ _ hd
      simp only [hd] at h
      split_ifs at h
      all_goals exact key _ hlen h
  rw [if_neg hx] at h
  by_cases ho : 0x30 ≤ c ∧ c ≤ 0x37
  · rw [if_pos ho] at h
    cases hd : octDigits 2 s (c - 0x30) with
    | none => simp only [hd] at h; exact absurd h (by simp)
    | some v =>
      obtain ⟨v, s2⟩ := v
      have hlen := octDigits_length _ _ _ _ _ hd
      simp only [hd] at h
      split_ifs at h
      all_goals exact key _ hlen h
  rw [if_neg ho] at h
  by_cases hb : c = 0x5C
  · rw [if_pos hb] at h; exact key _ (le_refl _) h
  rw [if_neg hb] at h
  split_ifs at h
  all_goals exact key _ (le_refl _) h

/-- The function `UnquoteChar` consumes at least one byte. -/
theorem UnquoteChar_length (s : GoString) (q r : Nat) (mb : Bool) (rem : GoString)
    (h : UnquoteChar s q = .ok (r, mb, rem)) : rem.length < s.length := by
  cases s with
  | nil => simp [UnquoteChar] at h
  | cons c t =>
    simp only [UnquoteChar] at h
    by_cases h1 : c = q ∧ (q = 0x27 ∨ q = 0x22)
    · rw [if_pos h1] at h; simp at h
    · rw [if_neg h1] at h
      by_cases h2 : c ≥ RuneSelf
      · have hw := decode_width_pos c t
        rw [if_pos h2] at h
        simp only [Except.ok.injEq, Prod.mk.injEq] at h
        rw [← h.2.2]
        simp only [List.length_drop, List.length_cons]; omega
      · rw [if_neg h2] at h
        by_cases h3 : c ≠ 0x5C
        · rw [if_pos h3] at h
          simp only [Except.ok.injEq, Prod.mk.injEq] at h
          rw [← h.2.2]; simp
        · rw [if_neg h3] at h
          cases t with
          | nil => simp at h
          | cons c1 s1 =>
            have := unquoteEscape_length c1 s1 q r mb rem h
            simp only [List.length_cons]; omega

/-- The escape loop does not depend on its bound once the bound is the
length of the input: the loop never stops for lack of rounds. -/
theorem unquoteLoop_fuel (q : Nat) : ∀ (f1 f2 : Nat) (inp buf : GoString),
    inp.length ≤ f1 → inp.length ≤ f2 →
    unquoteLoop q f1 inp buf = unquoteLoop q f2 inp buf := by
  intro f1
  induction f1 with
  | zero =>
    intro f2 inp buf h1 _
    have h0 : inp = [] := List.length_eq_zero.mp (by omega)
    subst h0
    cases f2 <;> simp [unquoteLoop]
  | succ f1 ih =>
    intro f2 inp buf h1 h2
    cases inp with
    | nil => cases f2 <;> simp [unquoteLoop]
    | cons c t =>
      cases f2 with
      | zero => simp at h2
      | succ f2 =>
        simp only [unquoteLoop]
        cases hu : UnquoteChar (c :: t) q with
        | error e => rfl
        | ok v =>
          obtain ⟨r, mb, rem⟩ := v
          have hl := UnquoteChar_length _ _ _ _ _ hu
          simp only [List.length_cons] at hl h1 h2
          simp only
          split_ifs <;> first
            | rfl
            | exact ih f2 rem _ (by omega) (by omega)

/-- The rune loop of `EqualFold` does not depend on its bound once the bound
is the length of the first string. -/
theorem equalFoldLoop_fuel : ∀ (f1 f2 : Nat) (s t : GoString),
    s.length ≤ f1 → s.length ≤ f2 → equalFoldLoop f1 s t = equalFoldLoop f2 s t := by
  intro f1
  induction f1 with
  | zero =>
    intro f2 s t h1 _
    have h0 : s = [] := List.length_eq_zero.mp (by omega)
    subst h0
    cases f2 <;> simp [equalFoldLoop]
  | succ f1 ih =>
    intro f2 s t h1 h2
    cases s with
    | nil => cases f2 <;> simp [equalFoldLoop]
    | cons s0 s1 =>
      cases f2 with
      | zero => simp at h2
      | succ f2 =>
        cases t with
        | nil => simp [equalFoldLoop]
        | cons t0 t1 =>
          simp only [equalFoldLoop]
          have hw := decode_width_pos s0 s1
          split_ifs <;> first
            | rfl
            | (simp only [List.length_cons] at h1 h2
               apply ih
               · simp only [List.length_drop, List.length_cons]; omega
               · simp only [List.length_drop, List.length_cons]; omega)

/-- The loop of `ValidString` does not depend on its bound once the bound is
the length of the string. -/
theorem validLoop_fuel : ∀ (f1 f2 : Nat) (s : GoString),
    s.length ≤ f1 → s.length ≤ f2 → validLoop f1 s = validLoop f2 s := by
  intro f1
  induction f1 with
  | zero =>
    intro f2 s h1 _
    have h0 : s = [] := List.length_eq_zero.mp (by omega)
    subst h0
    cases f2 <;> simp [validLoop]
  | succ f1 ih =>
    intro f2 s h1 h2
    cases s with
    | nil => cases f2 <;> simp [validLoop]
    | cons s0 s1 =>
      cases f2 with
      | zero => simp at h2
      | succ f2 =>
        simp only [List.length_cons] at h1 h2
        simp only [validLoop]
        split_ifs with ha hw
        · exact ih f2 s1 (by omega) (by omega)
        · rfl
        · apply ih
          · simp only [List.length_drop, List.length_cons]; omega
          · simp only [List.length_drop, List.length_cons]; omega

/-- No field of the registry holds a `%`: `fmt.Fprintf` with a field
expression as format writes the expression as it stands. -/
theorem registry_no_percent :
    ∀ e ∈ defaultTemplates, ∀ f ∈ e.2.fields, 0x25 ∉ f := by
  decide

/-! ## The payload of the executions -/

theorem newExecute_payload (env : Env) (w : Writer) (doc : GoString) (o : Payload) :
    ∀ e ∈ (newExecute env w doc o).events, e.payload = some o := by
  intro e he
  unfold newExecute at he
  by_cases hp : env.parses (lit "tmpl") doc = true
  · simp only [hp, if_true, List.mem_singleton] at he
    subst he; rfl
  · simp [hp] at he

theorem mustExecuteTemplate_payload (env : Env) (w : Writer) (doc name : GoString)
    (o : Payload) :
    ∀ e ∈ (mustExecuteTemplate env w doc name o).events, e.payload = some o := by
  intro e he
  unfold mustExecuteTemplate at he
  by_cases hp : env.parses (lit "json") doc = true
  · simp only [hp, if_true, List.mem_singleton] at he
    subst he; rfl
  · simp [hp] at he

/-- The executions of `render` are given the payload of `render`. -/
theorem render_payload (env : Env) (c : CLI) (w : Writer) (name fmt buf : GoString)
    (o : Payload) :
    ∀ e ∈ (render env c w name fmt buf o).events, e.payload = some o := by
  intro e he
  unfold render at he
  split_ifs at he
  · exact mustExecuteTemplate_payload _ _ _ _ _ e he
  · exact newExecute_payload _ _ _ _ e he
  · exact newExecute_payload _ _ _ _ e he

/-- The events of a call with the column-aligning writer around it. -/
theorem mem_withTabWriter (tplTabs : Bool) (w : Writer) (r : Result) (e : Event)
    (he : e ∈ (withTabWriter tplTabs w r).events) :
    e = .NewWriter w ∨ e = .Flush (.tab w) ∨ e ∈ r.events := by
  unfold withTabWriter at he
  cases tplTabs with
  | false => right; right; simpa using he
  | true =>
    simp only [if_true, List.singleton_append, List.mem_cons, List.mem_append,
      List.mem_singleton] at he
    tauto

/-- The dispatch text of the custom template. -/
theorem dispatch_custom (c : CLI) :
    dispatch c templateNamePrintCustom =
      if c.outputTemplate = [] then
        lit ("\x7b\x7brange .D \x7d\x7d\x7b\x7btemplate \"printCustom\" .\x7d\x7d\n" ++
          "\x7b\x7bend\x7d\x7d")
      else lit "\x7b\x7btemplate \"printCustom\" .\x7d\x7d" := by
  have h : lookupTemplate templateNamePrintCustom = none := by decide
  unfold dispatch
  rw [h]
  split_ifs <;> decide

/-- The custom-format mode with the document spelled out. -/
theorem fmtOutput_custom_doc (env : Env) (c : CLI) (n : Nat) (w : Writer) (t : GoString)
    (o : Payload) (h0 : EqualFold c.outputFormat (lit "json") = false)
    (h1 : EqualFold c.outputFormat (lit "jsonp") = false)
    (h2 : ¬ (EqualFold c.outputFormat (lit "tmpl") = true ∧ c.outputTemplate = [])) :
    fmtOutput env c n w t o =
      withTabWriter c.outputTemplateTabs w
        (match requote (if c.outputTemplate ≠ [] then c.outputTemplate
                        else c.outputFormat) with
          | .error err => ⟨[], .err err⟩
          | .ok uf =>
            newExecute env (newTabWriter c.outputTemplateTabs w)
              (buildDefaultTemplate (env.range n) ++ customDefine uf ++
                (if c.outputTemplate = [] then
                  lit ("\x7b\x7brange .D \x7d\x7d\x7b\x7btemplate \"printCustom\" .\x7d\x7d\n" ++
                    "\x7b\x7bend\x7d\x7d")
                else lit "\x7b\x7btemplate \"printCustom\" .\x7d\x7d")) o) := by
  rw [fmtOutput_custom env c n w t o h0 h1 h2]
  cases requote (if c.outputTemplate ≠ [] then c.outputTemplate else c.outputFormat) with
  | error e => rfl
  | ok uf =>
    simp only [render_custom, dispatch_custom]

/-! ## The define blocks and the dispatch block -/

theorem SplitN2_cases (sep : Nat) (f : GoString) :
    (sep ∉ f ∧ SplitN2 f sep = [f]) ∨
    (sep ∈ f ∧ SplitN2 f sep =
      [f.takeWhile (fun b => b ≠ sep), (f.dropWhile (fun b => b ≠ sep)).drop 1]) := by
  induction f with
  | nil => left; simp [SplitN2]
  | cons b t ih =>
    by_cases hb : b = sep
    · right
      subst hb
      simp [SplitN2]
    · have hb' : ¬ sep = b := fun e => hb e.symm
      rcases ih with ⟨h1, h2⟩ | ⟨h1, h2⟩
      · left
        simp [SplitN2, hb, hb', h1, h2]
      · right
        simp [SplitN2, hb, hb', h1, h2]

/-- The field loop writes the render expressions with single tabs between
them. -/
theorem fieldLoop_head (f : GoString) (rest : List GoString) :
    fieldLoop (f :: rest) =
      renderExpr f ++ (if rest.isEmpty then [] else lit "\t") ++ fieldLoop rest := by
  unfold renderExpr
  rcases SplitN2_cases 0x3D f with ⟨h1, h2⟩ | ⟨h1, h2⟩
  · simp only [fieldLoop, h2]; simp [h1]
  · simp only [fieldLoop, h2]; simp [h1]

/-- The field loop writes the render expressions with single tabs between
them. -/
theorem fieldLoop_eq (fields : List GoString) :
    fieldLoop fields = [0x09].intercalate (fields.map renderExpr) := by
  induction fields with
  | nil => rfl
  | cons f rest ih =>
    rw [fieldLoop_head, ih]
    cases rest with
    | nil => simp [List.intercalate]
    | cons g rest => simp [List.intercalate, lit, EncodeRune]

/-- The function `buildDefaultTemplate` writes the define blocks of the
entries it visits, one after the other, and nothing else. -/
theorem buildDefaultTemplate_eq (entries : List (GoString × templateMetadata)) :
    buildDefaultTemplate entries = (entries.map defineBlock).flatten := by
  induction entries with
  | nil => rfl
  | cons e rest ih =>
    obtain ⟨name, md⟩ := e
    simp only [buildDefaultTemplate, ih, List.map_cons, List.flatten_cons, defineBlock,
      blockBody, fieldLoop_eq]
    split_ifs <;> simp [List.append_assoc]

/-- No entry of the registry is named `printCustom`. -/
theorem name_of_mem (name : GoString) (md : templateMetadata)
    (h : (name, md) ∈ defaultTemplates) : name ≠ templateNamePrintCustom := by
  have key : ∀ e ∈ defaultTemplates, e.1 ≠ templateNamePrintCustom := by decide
  exact key _ h

/-- The text after the define blocks in built-in mode, for every name of the
registry: the header line when the entry has fields and quiet is off, then
the range block. -/
theorem dispatch_of_entry (c : CLI) (name : GoString) (md : templateMetadata)
    (h : (name, md) ∈ defaultTemplates) (htpl : c.outputTemplate = []) :
    dispatch c name =
      (if c.quiet = true ∨ md.fields = [] then [] else headerLine md.fields) ++
        rangeBlock md.sortBy name := by
  by_cases hf : md.fields = []
  · unfold dispatch
    simp only [htpl, if_true, lookupTemplate_of_mem name md h, hf, List.length_nil,
      gt_iff_lt, lt_self_iff_false, if_false, or_true, rangeBlock]
    cases c.quiet <;> simp [lit, EncodeRune]
  · rw [dispatch_of_mem c name md h hf htpl]
    cases c.quiet <;> simp [hf]

/-- The built-in mode for a selected name of the registry that is neither
of the JSON names: the document that is parsed and executed. -/
theorem fmtOutput_builtin_entry (env : Env) (c : CLI) (n : Nat) (w : Writer)
    (templateName : GoString) (o : Payload) (name : GoString) (md : templateMetadata)
    (hmem : (name, md) ∈ defaultTemplates)
    (h1 : name ≠ templateNamePrintJSON) (h2 : name ≠ templateNamePrintPrettyJSON)
    (hfmt : EqualFold c.outputFormat (lit "tmpl") = true) (htpl : c.outputTemplate = [])
    (hsel : (if templateName = [] then defaultTemplateName o else templateName) = name) :
    fmtOutput env c n w templateName o =
      nestedCalls c.outputTemplateTabs o.calls w fun w1 =>
        newExecute env w1
          (buildDefaultTemplate (env.range (n + (o.calls - 1))) ++
            ((if c.quiet = true ∨ md.fields = [] then [] else headerLine md.fields) ++
              rangeBlock md.sortBy name))
          o.normalized := by
  rw [fmtOutput_builtin_all env c n w templateName o hfmt htpl, hsel]
  congr 1
  funext w1
  rw [render_plain env c _ name _ _ _ h1 h2 (name_of_mem name md hmem),
    dispatch_of_entry c name md hmem htpl]

/-- A `range` over the registry visits as many entries of a name as the
registry has. -/
theorem count_range (env : Env) (n : Nat) (name : GoString) :
    ((env.range n).filter (fun e => e.1 = name)).length =
      (defaultTemplates.filter (fun e => e.1 = name)).length :=
  ((env.range_perm n).filter _).length_eq

/-- The define of `printCustom` is the define block of an entry whose
inline format is the custom body. -/
theorem customDefine_eq (uf : GoString) :
    customDefine uf = defineBlock (templateNamePrintCustom, { format := uf }) := by
  by_cases h : uf = []
  · subst h
    simp [customDefine, defineBlock, blockBody, templateNamePrintCustom, List.intercalate,
      lit, EncodeRune]
  · simp [customDefine, defineBlock, blockBody, templateNamePrintCustom, h, lit, EncodeRune]

/-! ### A line feed in the custom format string -/

theorem hexDigits_lf : ∀ (n : Nat) (s : GoString) (v v1 : Nat) (s1 : GoString),
    hexDigits n s v = some (v1, s1) → 0x0A ∈ s → 0x0A ∈ s1 := by
  intro n
  induction n with
  | zero =>
    intro s v v1 s1 h hs
    simp only [hexDigits, Option.some.injEq, Prod.mk.injEq] at h
    rw [← h.2]; exact hs
  | succ n ih =>
    intro s v v1 s1 h hs
    cases s with
    | nil => simp [hexDigits] at h
    | cons b t =>
      simp only [hexDigits] at h
      by_cases hb : b = 0x0A
      · subst hb
        simp [unhex] at h
      · have ht : 0x0A ∈ t := by
          rcases List.mem_cons.mp hs with e | e
          · exact absurd e.symm hb
          · exact e
        split at h
        · simp at h
        · exact ih _ _ _ _ h ht

theorem octDigits_lf : ∀ (n : Nat) (s : GoString) (v v1 : Nat) (s1 : GoString),
    octDigits n s v = some (v1, s1) → 0x0A ∈ s → 0x0A ∈ s1 := by
  intro n
  induction n with
  | zero =>
    intro s v v1 s1 h hs
    simp only [octDigits, Option.some.injEq, Prod.mk.injEq] at h
    rw [← h.2]; exact hs
  | succ n ih =>
    intro s v v1 s1 h hs
    cases s with
    | nil => simp [octDigits] at h
    | cons b t =>
      simp only [octDigits] at h
      split at h
      · rename_i hb
        have ht : 0x0A ∈ t := by
          rcases List.mem_cons.mp hs with e | e
          · omega
          · exact e
        exact ih _ _ _ _ h ht
      · simp at h

/-- An escape sequence does not reach over a line feed: what is left after
it still holds every line feed that followed the escape character. -/
theorem unquoteEscape_lf (c : Nat) (s : GoString) (q r : Nat) (mb : Bool)
    (rem : GoString) (h : unquoteEscape c s q = .ok (r, mb, rem)) (hs : 0x0A ∈ s) :
    0x0A ∈ rem := by
  have key : ∀ x : Nat × Bool × GoString, 0x0A ∈ x.2.2 →
      Except.ok (ε := GoError) x = .ok (r, mb, rem) → 0x0A ∈ rem := by
    intro x hx he
    simp only [Except.ok.injEq] at he
    rw [he] at hx
    exact hx
  unfold unquoteEscape at h
  by_cases h61 : c = 0x61
  · rw [if_pos h61] at h; exact key _ hs h
  rw [if_neg h61] at h
  by_cases h62 : c = 0x62
  · rw [if_pos h62] at h; exact key _ hs h
  rw [if_neg h62] at h
  by_cases h66 : c = 0x66
  · rw [if_pos h66] at h; exact key _ hs h
  rw [if_neg h66] at h
  by_cases h6E : c = 0x6E
  · rw [if_pos h6E] at h; exact key _ hs h
  rw [if_neg h6E] at h
  by_cases h72 : c = 0x72
  · rw [if_pos h72] at h; exact key _ hs h
  rw [if_neg h72] at h
  by_cases h74 : c = 0x74
  · rw [if_pos h74] at h; exact key _ hs h
  rw [if_neg h74] at h
  by_cases h76 : c = 0x76
  · rw [if_pos h76] at h; exact key _ hs h
  rw [if_neg h76] at h
  by_cases hx : c = 0x78 ∨ c = 0x75 ∨ c = 0x55
  · rw [if_pos hx] at h
    cases hd : hexDigits (if c = 0x78 then 2 else if c = 0x75 then 4 else 8) s 0 with
    | none => simp only [hd] at h; exact absurd h (by simp)
    | some v =>
      obtain ⟨v, s2⟩ := v
      have hmem := hexDigits_lf _ _ _ _ _ hd hs
      simp only [hd] at h
      split_ifs at h
      all_goals exact key _ hmem h
  rw [if_neg hx] at h
  by_cases ho : 0x30 ≤ c ∧ c ≤ 0x37
  · rw [if_pos ho] at h
    cases hd : octDigits 2 s (c - 0x30) with
    | none => simp only [hd] at h; exact absurd h (by simp)
    | some v =>
      obtain ⟨v, s2⟩ := v
      have hmem := octDigits_lf _ _ _ _ _ hd hs
      simp only [hd] at h
      split_ifs at h
      all_goals exact key _ hmem h
  rw [if_neg ho] at h
  by_cases hb : c = 0x5C
  · rw [if_pos hb] at h; exact key _ hs h
  rw [if_neg hb] at h
  split_ifs at h
  all_goals exact key _ hs h

/-- A backslash before a line feed is no escape sequence. -/
theorem unquoteEscape_of_lf (s : GoString) (q : Nat) :
    unquoteEscape 0x0A s q = .error .ErrSyntax := by
  simp [unquoteEscape]

/-- One character of the escaped string does not reach over a line feed. -/
theorem UnquoteChar_lf (c : Nat) (t : GoString) (q r : Nat) (mb : Bool) (rem : GoString)
    (h : UnquoteChar (c :: t) q = .ok (r, mb, rem)) (ht : 0x0A ∈ t) : 0x0A ∈ rem := by
  simp only [UnquoteChar] at h
  by_cases h1 : c = q ∧ (q = 0x27 ∨ q = 0x22)
  · rw [if_pos h1] at h; simp at h
  · rw [if_neg h1] at h
    by_cases h2 : c ≥ RuneSelf
    · rw [if_pos h2] at h
      simp only [Except.ok.injEq, Prod.mk.injEq] at h
      rw [← h.2.2]
      rcases decode_cases c t (by omega) with hd | ⟨r1, pre, rest, hsplit, _, hpre, hd, _⟩
      · rw [hd]; simpa using ht
      · rw [hd, hsplit]
        simp only [List.drop_succ_cons, List.drop_left]
        rw [hsplit] at ht
        rcases List.mem_append.mp ht with e | e
        · have := hpre _ e
          simp [isCont] at this
        · exact e
    · rw [if_neg h2] at h
      by_cases h3 : c ≠ 0x5C
      · rw [if_pos h3] at h
        simp only [Except.ok.injEq, Prod.mk.injEq] at h
        rw [← h.2.2]; exact ht
      · rw [if_neg h3] at h
        cases t with
        | nil => simp at h
        | cons c1 s1 =>
          by_cases hc1 : c1 = 0x0A
          · subst hc1
            simp only [unquoteEscape_of_lf] at h
            exact absurd h (by simp)
          · have hs1 : 0x0A ∈ s1 := by
              rcases List.mem_cons.mp ht with e | e
              · exact absurd e.symm hc1
              · exact e
            simp only at h
            exact unquoteEscape_lf c1 s1 q r mb rem h hs1

/-- The escape loop on an input that holds a line feed: it fails, or it
stops at a double quote that stands before the line feed. -/
theorem unquoteLoop_lf_mem : ∀ (fuel : Nat) (inp buf : GoString), 0x0A ∈ inp →
    inp.length ≤ fuel →
    unquoteLoop 0x22 fuel inp buf = .error .ErrSyntax ∨
    ∃ buf1 rest, unquoteLoop 0x22 fuel inp buf = .ok (buf1, 0x22 :: rest) ∧ 0x0A ∈ rest := by
  intro fuel
  induction fuel with
  | zero =>
    intro inp buf hmem hlen
    have h0 : inp = [] := List.length_eq_zero.mp (by omega)
    subst h0
    simp at hmem
  | succ fuel ih =>
    intro inp buf hmem hlen
    cases inp with
    | nil => simp at hmem
    | cons c t =>
      by_cases hq : c = 0x22
      · subst hq
        right
        refine ⟨buf, t, unquoteLoop_quote (fuel + 1) t buf, ?_⟩
        rcases List.mem_cons.mp hmem with e | e
        · exact absurd e (by decide)
        · exact e
      · by_cases hl : c = 0x0A
        · subst hl
          left
          exact unquoteLoop_lf fuel t buf
        · have ht : 0x0A ∈ t := by
            rcases List.mem_cons.mp hmem with e | e
            · exact absurd e.symm hl
            · exact e
          simp only [unquoteLoop, hq, if_false]
          cases hu : UnquoteChar (c :: t) 0x22 with
          | error e => left; rfl
          | ok v =>
            obtain ⟨r, mb, rem⟩ := v
            have hrem := UnquoteChar_lf c t 0x22 r mb rem hu ht
            have hlen2 := UnquoteChar_length _ _ _ _ _ hu
            simp only [List.length_cons] at hlen hlen2
            simp only [hl, if_false, show ¬ (0x22 : Nat) = 0x27 by decide]
            exact ih rem _ hrem (by omega)

theorem contains_iff (l : GoString) (c : Nat) : contains l c = true ↔ c ∈ l := by
  induction l with
  | nil => simp [contains, index]
  | cons x l ih =>
    rw [contains_cons]
    simp only [Bool.or_eq_true, decide_eq_true_eq, ih, List.mem_cons]
    constructor
    · rintro (h | h)
      · exact Or.inl h.symm
      · exact Or.inr h
    · rintro (h | h)
      · exact Or.inl h.symm
      · exact Or.inr h

theorem mem_Replace (x : Nat) (f : GoString) (old : Nat) (new : GoString) (hx : x ≠ old)
    (h : x ∈ f) : x ∈ Replace f old new := by
  induction f with
  | nil => simp at h
  | cons b t ih =>
    simp only [Replace]
    rcases List.mem_cons.mp h with e | e
    · subst e
      simp [hx]
    · exact List.mem_append_right _ (ih e)

/-- A custom format string that holds a line feed is rejected by the
re-quoting and unquoting. -/
theorem requote_lf (f : GoString) (hL : 0x0A ∈ f) : requote f = .error .ErrSyntax := by
  have hbody : 0x0A ∈ Replace f 0x22 [0x5C, 0x22] ++ [0x22] :=
    List.mem_append_left _ (mem_Replace _ _ _ _ (by decide) hL)
  have hloop := unquoteLoop_lf_mem (Replace f 0x22 [0x5C, 0x22] ++ [0x22]).length
    (Replace f 0x22 [0x5C, 0x22] ++ [0x22]) [] hbody (le_refl _)
  have htail : (match unquoteLoop 0x22 (Replace f 0x22 [0x5C, 0x22] ++ [0x22]).length
        (Replace f 0x22 [0x5C, 0x22] ++ [0x22]) [] with
      | .error err => (.error err : Except GoError (GoString × GoString))
      | .ok (buf, rest) =>
        match rest with
        | [] => .error .ErrSyntax
        | c :: rest => if c = 0x22 then .ok (buf, rest) else .error .ErrSyntax) =
        .error .ErrSyntax ∨
      ∃ buf1 rest, (match unquoteLoop 0x22 (Replace f 0x22 [0x5C, 0x22] ++ [0x22]).length
        (Replace f 0x22 [0x5C, 0x22] ++ [0x22]) [] with
      | .error err => (.error err : Except GoError (GoString × GoString))
      | .ok (buf, rest) =>
        match rest with
        | [] => .error .ErrSyntax
        | c :: rest => if c = 0x22 then .ok (buf, rest) else .error .ErrSyntax) =
        .ok (buf1, rest) ∧ 0x0A ∈ rest := by
    rcases hloop with h | ⟨buf1, rest, h, hm⟩
    · left; rw [h]
    · right; exact ⟨buf1, rest, by rw [h]; rfl, hm⟩
  unfold requote Unquote
  simp only [List.singleton_append, List.cons_append, List.nil_append]
  have hfin : ∀ u : Except GoError (GoString × GoString),
      (u = .error .ErrSyntax ∨ ∃ buf1 rest, u = .ok (buf1, rest) ∧ 0x0A ∈ rest) →
      (match u with
        | .error err => (.error err : Except GoError GoString)
        | .ok (out, rem) => if rem.length > 0 then .error .ErrSyntax else .ok out) =
        .error .ErrSyntax := by
    intro u hu
    rcases hu with h | ⟨buf1, rest, h, hm⟩
    · rw [h]
    · rw [h]
      have : rest.length > 0 := List.length_pos_of_mem hm
      simp [this]
  apply hfin
  by_cases hq : 0x22 ∈ f
  · obtain ⟨e, h1, h2⟩ := index_Replace f [0x22] hq
    rw [unquote_double_quoted _ e h1]
    have h3 : contains ((0x22 :: (Replace f 0x22 [0x5C, 0x22] ++ [0x22])).take (e + 2)) 0x5C
        = true := by
      rw [List.take_succ_cons, contains_cons, h2]; rfl
    simp only [h3, Bool.not_true, Bool.false_and, Bool.false_eq_true, if_false]
    exact htail
  · have hrep := Replace_of_not_mem f 0x22 [0x5C, 0x22] hq
    have hidx := index_append_self f 0x22 hq
    rw [hrep] at htail ⊢
    rw [unquote_double_quoted _ f.length hidx]
    have h3 : contains ((0x22 :: (f ++ [0x22])).take (f.length + 2)) 0x0A = true := by
      rw [contains_iff]
      rw [List.take_of_length_le (by simp)]
      simp [hL]
    simp only [h3, Bool.not_true, Bool.false_and, Bool.and_false, Bool.false_eq_true, if_false]
    exact htail

/-! ## The column-aligning writers -/

theorem nestedCalls_off (k : Nat) (w : Writer) (inner : Writer → Result) :
    nestedCalls false k w inner = inner w := by
  induction k with
  | zero => rfl
  | succ k ih => simp [nestedCalls, withTabWriter, newTabWriter, ih]

/-- With tab alignment, `k` nested calls create their writers from the
outermost to the innermost, the last call works on the innermost writer,
and the writers are flushed from the innermost to the outermost. -/
theorem nestedCalls_on : ∀ (k : Nat) (w : Writer) (inner : Writer → Result),
    nestedCalls true k w inner =
      ⟨(givenWriters k w).map Event.NewWriter ++ (inner (wrapped k w)).events ++
          (givenWriters k w).reverse.map (fun x => Event.Flush (.tab x)),
        (inner (wrapped k w)).ret⟩ := by
  intro k
  induction k with
  | zero => intro w inner; simp [nestedCalls, givenWriters, wrapped]
  | succ k ih =>
    intro w inner
    simp [nestedCalls, withTabWriter, newTabWriter, ih, givenWriters, wrapped]

theorem mem_givenWriters : ∀ (k : Nat) (w x : Writer), x ∈ givenWriters k w →
    sizeOf w ≤ sizeOf x := by
  intro k
  induction k with
  | zero => intro w x h; simp [givenWriters] at h
  | succ k ih =>
    intro w x h
    simp only [givenWriters, List.mem_cons] at h
    rcases h with rfl | h
    · exact le_refl _
    · have := ih _ _ h
      simp only [Writer.tab.sizeOf_spec] at this
      omega

theorem givenWriters_nodup : ∀ (k : Nat) (w : Writer), (givenWriters k w).Nodup := by
  intro k
  induction k with
  | zero => intro w; simp [givenWriters]
  | succ k ih =>
    intro w
    simp only [givenWriters, List.nodup_cons]
    refine ⟨fun h => ?_, ih _⟩
    have := mem_givenWriters _ _ _ h
    simp only [Writer.tab.sizeOf_spec] at this
    omega

/-- In a run of creations, executions and flushes of the writers `ws`,
each writer is created once and flushed once. -/
theorem count_bracket (ws : List Writer) (core : List Event) (hnd : ws.Nodup)
    (hcore : ∀ e ∈ core, e.writer ≠ none) (x : Writer) :
    (ws.map Event.NewWriter ++ core ++
        ws.reverse.map (fun y => Event.Flush (.tab y))).count (.NewWriter x) =
      ws.count x ∧
    (ws.map Event.NewWriter ++ core ++
        ws.reverse.map (fun y => Event.Flush (.tab y))).count (.Flush (.tab x)) =
      ws.count x ∧
    ws.count x ≤ 1 := by
  have inj1 : Function.Injective Event.NewWriter := fun a b h => by injection h
  have inj2 : Function.Injective (fun y : Writer => Event.Flush (.tab y)) :=
    fun a b h => by
      simp only [Event.Flush.injEq, Writer.tab.injEq] at h
      exact h
  have c1 : core.count (.NewWriter x) = 0 :=
    List.count_eq_zero.mpr fun h => hcore _ h rfl
  have c2 : core.count (.Flush (.tab x)) = 0 :=
    List.count_eq_zero.mpr fun h => hcore _ h rfl
  have c3 : (ws.reverse.map (fun y => Event.Flush (.tab y))).count (.NewWriter x) = 0 :=
    List.count_eq_zero.mpr fun h => by simp at h
  have c4 : (ws.map Event.NewWriter).count (.Flush (.tab x)) = 0 :=
    List.count_eq_zero.mpr fun h => by simp at h
  have c5 : (ws.map Event.NewWriter).count (.NewWriter x) = ws.count x :=
    List.count_map_of_injective ws _ inj1 x
  have c6 : (ws.reverse.map (fun y => Event.Flush (.tab y))).count (.Flush (.tab x)) =
      ws.count x := by
    rw [List.count_map_of_injective ws.reverse _ inj2 x, List.count_reverse]
  refine ⟨?_, ?_, List.nodup_iff_count_le_one.mp hnd x⟩
  · rw [List.count_append, List.count_append, c1, c3, c5]; omega
  · rw [List.count_append, List.count_append, c2, c4, c6]; omega

theorem newExecute_events (env : Env) (w : Writer) (doc : GoString) (o : Payload) :
    (newExecute env w doc o).events.length ≤ 1 ∧
    ∀ e ∈ (newExecute env w doc o).events, e.writer = some w := by
  unfold newExecute
  by_cases h : env.parses (lit "tmpl") doc = true
  · simp [h, Event.writer]
  · simp [h]

theorem mustExecuteTemplate_events (env : Env) (w : Writer) (doc name : GoString)
    (o : Payload) :
    (mustExecuteTemplate env w doc name o).events.length ≤ 1 ∧
    ∀ e ∈ (mustExecuteTemplate env w doc name o).events, e.writer = some w := by
  unfold mustExecuteTemplate
  by_cases h : env.parses (lit "json") doc = true
  · simp [h, Event.writer]
  · simp [h]

/-- The tail of `fmtOutput` makes at most one call, an execution on the
writer it was given. -/
theorem render_events (env : Env) (c : CLI) (w : Writer) (name fmt buf : GoString)
    (o : Payload) :
    (render env c w name fmt buf o).events.length ≤ 1 ∧
    ∀ e ∈ (render env c w name fmt buf o).events, e.writer = some w := by
  unfold render
  split_ifs
  · exact mustExecuteTemplate_events env w _ _ o
  · exact newExecute_events env w _ o
  · exact newExecute_events env w _ o

theorem wrapped_size : ∀ (k : Nat) (w : Writer), sizeOf (wrapped k w) = sizeOf w + k := by
  intro k
  induction k with
  | zero => intro w; rfl
  | succ k ih =>
    intro w
    rw [wrapped, ih, Writer.tab.sizeOf_spec]
    omega

theorem bracket_none (r : Result) (w : Writer)
    (h : r.events.length ≤ 1 ∧ ∀ e ∈ r.events, e.writer = some w) :
    ∃ core : List Event,
      r.events =
        (givenWriters 0 w).map Event.NewWriter ++ core ++
          (givenWriters 0 w).reverse.map (fun x => Event.Flush (.tab x)) ∧
      core.length ≤ 1 ∧ ∀ e ∈ core, e.writer = some (wrapped 0 w) :=
  ⟨r.events, by simp [givenWriters], h.1, h.2⟩

theorem bracket_one (r : Result) (w : Writer)
    (h : r.events.length ≤ 1 ∧ ∀ e ∈ r.events, e.writer = some (.tab w)) :
    ∃ core : List Event,
      (withTabWriter true w r).events =
        (givenWriters 1 w).map Event.NewWriter ++ core ++
          (givenWriters 1 w).reverse.map (fun x => Event.Flush (.tab x)) ∧
      core.length ≤ 1 ∧ ∀ e ∈ core, e.writer = some (wrapped 1 w) :=
  ⟨r.events, by simp [givenWriters, withTabWriter], h.1, h.2⟩

/-- The calls of `fmtOutput`, in every mode and on every way out: the
column-aligning writers are created, at most one execution follows, on the
innermost writer, and the writers are flushed. -/
theorem fmtOutput_bracket (env : Env) (c : CLI) (n : Nat) (w : Writer) (t : GoString)
    (o : Payload) :
    ∃ core : List Event,
      (fmtOutput env c n w t o).events =
        (givenWriters (tabWriters c o) w).map Event.NewWriter ++ core ++
          (givenWriters (tabWriters c o) w).reverse.map (fun x => Event.Flush (.tab x)) ∧
      core.length ≤ 1 ∧ ∀ e ∈ core, e.writer = some (wrapped (tabWriters c o) w) := by
  by_cases hj : EqualFold c.outputFormat (lit "json") = true
  · have hk : tabWriters c o = 0 := by simp [tabWriters, hj]
    rw [hk, fmtOutput_json env c n w t o hj]
    exact bracket_none _ w (mustExecuteTemplate_events env w _ _ o)
  by_cases hp : EqualFold c.outputFormat (lit "jsonp") = true
  · have hk : tabWriters c o = 0 := by simp [tabWriters, hp]
    rw [hk, fmtOutput_jsonp env c n w t o hp]
    exact bracket_none _ w (mustExecuteTemplate_events env w _ _ o)
  have hj0 : EqualFold c.outputFormat (lit "json") = false := by simpa using hj
  have hp0 : EqualFold c.outputFormat (lit "jsonp") = false := by simpa using hp
  by_cases hb : EqualFold c.outputFormat (lit "tmpl") = true ∧ c.outputTemplate = []
  · rw [fmtOutput_builtin_all env c n w t o hb.1 hb.2]
    cases htabs : c.outputTemplateTabs with
    | false =>
      have hk : tabWriters c o = 0 := by simp [tabWriters, htabs]
      rw [hk, nestedCalls_off]
      exact bracket_none _ w (render_events env c w _ _ _ _)
    | true =>
      have hk : tabWriters c o = o.calls := by simp [tabWriters, htabs, hj0, hp0, hb]
      rw [hk, nestedCalls_on]
      exact ⟨_, rfl, (render_events env c _ _ _ _ _).1, (render_events env c _ _ _ _ _).2⟩
  · rw [fmtOutput_custom env c n w t o hj0 hp0 hb]
    cases htabs : c.outputTemplateTabs with
    | false =>
      have hk : tabWriters c o = 0 := by simp [tabWriters, htabs]
      rw [hk]
      cases requote (if c.outputTemplate ≠ [] then c.outputTemplate else c.outputFormat) with
      | error e => exact bracket_none ⟨[], .err e⟩ w (by simp)
      | ok uf =>
        simp only [withTabWriter, newTabWriter, Bool.false_eq_true, if_false]
        exact bracket_none _ w (render_events env c w _ _ _ _)
    | true =>
      have hk : tabWriters c o = 1 := by simp [tabWriters, htabs, hj0, hp0, hb]
      rw [hk]
      cases requote (if c.outputTemplate ≠ [] then c.outputTemplate else c.outputFormat) with
      | error e => exact bracket_one ⟨[], .err e⟩ w (by simp)
      | ok uf =>
        simp only [newTabWriter, if_true]
        exact bracket_one _ w (render_events env c _ _ _ _ _)

/-- The executions of a run of creations, executions and flushes. -/
theorem filter_bracket (ws ws1 : List Writer) (core : List Event)
    (hcore : ∀ e ∈ core, e.writer.isSome = true) :
    (ws.map Event.NewWriter ++ core ++
        ws1.map (fun x => Event.Flush (.tab x))).filter (fun e => e.writer.isSome) = core := by
  have h1 : (ws.map Event.NewWriter).filter (fun e => e.writer.isSome) = [] :=
    List.filter_eq_nil_iff.mpr fun e he => by
      obtain ⟨x, _, rfl⟩ := List.mem_map.mp he
      simp [Event.writer]
  have h2 : (ws1.map (fun x => Event.Flush (.tab x))).filter (fun e => e.writer.isSome) = [] :=
    List.filter_eq_nil_iff.mpr fun e he => by
      obtain ⟨x, _, rfl⟩ := List.mem_map.mp he
      simp [Event.writer]
  rw [List.filter_append, List.filter_append, h1, h2, List.filter_eq_self.mpr hcore]
  simp

/-! ## The rows of the range block -/

theorem strLt_irrefl (a : GoString) : strLt a a = false := by
  cases h : strLt a a with
  | false => rfl
  | true => rw [strLt_asymm a a h] at h; exact absurd h (by simp)

theorem mem_insertByField {α : Type} (field : α → GoString) (a x : α) (l : List α) :
    x ∈ insertByField field a l ↔ x = a ∨ x ∈ l := by
  induction l with
  | nil => simp [insertByField]
  | cons b l ih =>
    simp only [insertByField]
    split
    · simp only [List.mem_cons, ih]; tauto
    · simp only [List.mem_cons]

theorem insertByField_perm {α : Type} (field : α → GoString) (a : α) (l : List α) :
    (insertByField field a l).Perm (a :: l) := by
  induction l with
  | nil => exact List.Perm.refl _
  | cons b l ih =>
    simp only [insertByField]
    split
    · exact (List.Perm.cons b ih).trans (List.Perm.swap a b l)
    · exact List.Perm.refl _

theorem insertByField_sorted {α : Type} (field : α → GoString) (a : α) (l : List α)
    (h : l.Pairwise (fun x y => strLt (field y) (field x) = false)) :
    (insertByField field a l).Pairwise (fun x y => strLt (field y) (field x) = false) := by
  induction l with
  | nil => simp [insertByField]
  | cons b l ih =>
    rw [List.pairwise_cons] at h
    simp only [insertByField]
    split
    · rename_i hba
      rw [List.pairwise_cons]
      refine ⟨fun x hx => ?_, ih h.2⟩
      rcases (mem_insertByField field a x l).mp hx with rfl | hx
      · exact strLt_asymm _ _ hba
      · exact h.1 x hx
    · rename_i hba
      have hba : strLt (field b) (field a) = false := by simpa using hba
      rw [List.pairwise_cons]
      refine ⟨fun x hx => ?_, List.pairwise_cons.mpr h⟩
      rcases List.mem_cons.mp hx with rfl | hx
      · exact hba
      · exact strLe_trans (field a) (field b) (field x) hba (h.1 x hx)

/-- The insertion step keeps the order of the elements of each key: the new
element goes before the elements of its own key. -/
theorem insertByField_filter {α : Type} (field : α → GoString) (a : α) (l : List α)
    (k : GoString) :
    (insertByField field a l).filter (fun x => field x = k) =
      (a :: l).filter (fun x => field x = k) := by
  induction l with
  | nil => rfl
  | cons b l ih =>
    simp only [insertByField]
    split
    · rename_i hba
      have hne : field b ≠ field a := fun e => by
        rw [e, strLt_irrefl] at hba
        exact absurd hba (by simp)
      rw [List.filter_cons, ih]
      by_cases hb : field b = k
      · have ha : ¬ field a = k := fun e => hne (hb.trans e.symm)
        simp [List.filter_cons, hb, ha]
      · simp [List.filter_cons, hb]
    · rfl

/-- The function `sortByField` sorts by the key and is stable. -/
theorem sortByField_stable {α : Type} (field : α → GoString) (xs : List α) :
    StableSortedBy field xs (sortByField field xs) := by
  induction xs with
  | nil => exact ⟨List.Perm.refl _, List.Pairwise.nil, fun _ => rfl⟩
  | cons a l ih =>
    obtain ⟨h1, h2, h3⟩ := ih
    refine ⟨(insertByField_perm field a _).trans (List.Perm.cons a h1),
      insertByField_sorted field a _ h2, fun k => ?_⟩
    show (insertByField field a (sortByField field l)).filter _ = _
    rw [insertByField_filter, List.filter_cons, List.filter_cons, h3 k]

/-! ## Occurrences of a define marker in a document -/

theorem isPrefixOf_append_of_le : ∀ (pat s t : GoString), pat.length ≤ s.length →
    pat.isPrefixOf (s ++ t) = pat.isPrefixOf s := by
  intro pat
  induction pat with
  | nil => intro s t _; simp
  | cons a p ih =>
    intro s t h
    cases s with
    | nil => simp at h
    | cons b s =>
      simp only [List.cons_append, List.isPrefixOf, List.append_eq]
      rw [ih s t (by simpa using h)]

theorem isPrefixOf_of_lt : ∀ (pat s : GoString), s.length < pat.length →
    pat.isPrefixOf s = false := by
  intro pat
  induction pat with
  | nil => intro s h; simp at h
  | cons a p ih =>
    intro s h
    cases s with
    | nil => rfl
    | cons b s =>
      simp only [List.isPrefixOf]
      rw [ih s (by simpa using h)]
      simp

/-- When `pat` begins in `s` and ends after it, `s` is a start of `pat` and
the rest of `pat` is a start of what follows `s`. -/
theorem isPrefixOf_append_of_lt : ∀ (pat s t : GoString), s.length < pat.length →
    pat.isPrefixOf (s ++ t) = true →
    s.isPrefixOf pat = true ∧ (pat.drop s.length).isPrefixOf t = true := by
  intro pat
  induction pat with
  | nil => intro s t h; simp at h
  | cons a p ih =>
    intro s t h hp
    cases s with
    | nil => exact ⟨rfl, by simpa using hp⟩
    | cons b s =>
      simp only [List.cons_append, List.isPrefixOf, Bool.and_eq_true, beq_iff_eq] at hp
      obtain ⟨h1, h2⟩ := ih s t (by simpa using h) hp.2
      exact ⟨by simp [List.isPrefixOf, hp.1, h1], by simpa using h2⟩

theorem isPrefixOf_take : ∀ (l a t : GoString), l.isPrefixOf (a ++ t) = true →
    (l.take a.length).isPrefixOf a = true := by
  intro l
  induction l with
  | nil => intro a t _; simp
  | cons x l ih =>
    intro a t h
    cases a with
    | nil => simp
    | cons y a =>
      simp only [List.cons_append, List.isPrefixOf, Bool.and_eq_true, beq_iff_eq] at h
      simp [List.isPrefixOf, h.1, ih a t h.2]

/-- What `overlaps` excludes, for every continuation of `t`. -/
theorem overlaps_false (pat t u : GoString) (h : overlaps pat t = false) (k : Nat)
    (h0 : 0 < k) (hk : k < pat.length) : (pat.drop k).isPrefixOf (t ++ u) = false := by
  cases hp : (pat.drop k).isPrefixOf (t ++ u) with
  | false => rfl
  | true =>
    have h1 := isPrefixOf_take _ _ _ hp
    unfold overlaps at h
    rw [List.any_eq_false] at h
    have h2 := h k (List.mem_range.mpr hk)
    simp [h0, h1] at h2

/-- The occurrences of `pat` in a text followed by another, when no
occurrence begins in the first and ends in the second. -/
theorem occurrences_append (pat : GoString) : ∀ (u t : GoString),
    (∀ j, j < u.length → pat.isPrefixOf (u.drop j ++ t) = pat.isPrefixOf (u.drop j)) →
    occurrences pat (u ++ t) = occurrences pat u + occurrences pat t := by
  intro u
  induction u with
  | nil => intro t _; simp [occurrences]
  | cons x u ih =>
    intro t h
    have h0 := h 0 (by simp)
    simp only [List.drop_zero] at h0
    have hrest : ∀ j, j < u.length →
        pat.isPrefixOf (u.drop j ++ t) = pat.isPrefixOf (u.drop j) := fun j hj => by
      have := h (j + 1) (by simpa using hj)
      simpa using this
    simp only [List.cons_append, occurrences, List.append_eq] at h0 ⊢
    simp only [h0, ih t hrest]
    omega

/-- No occurrence of `pat` begins in `u` and ends in what follows when the
end of `pat` does not agree with the start of what follows. -/
theorem occurrences_append_tail (pat u t v : GoString) (h : overlaps pat t = false) :
    occurrences pat (u ++ (t ++ v)) = occurrences pat u + occurrences pat (t ++ v) := by
  apply occurrences_append
  intro j hj
  by_cases hl : pat.length ≤ (u.drop j).length
  · exact isPrefixOf_append_of_le _ _ _ hl
  · have hl : (u.drop j).length < pat.length := by omega
    rw [isPrefixOf_of_lt _ _ hl]
    cases hp : pat.isPrefixOf (u.drop j ++ (t ++ v)) with
    | false => rfl
    | true =>
      obtain ⟨_, h2⟩ := isPrefixOf_append_of_lt _ _ _ hl hp
      have hpos : 0 < (u.drop j).length := by
        simp only [List.length_drop]; omega
      rw [overlaps_false pat t v h _ hpos hl] at h2
      exact absurd h2 (by simp)

/-- The occurrences of `pat` in `pat` followed by a text, when the end of
`pat` is never a start of `pat`. -/
theorem occurrences_self_append (pat t : GoString)
    (h : ∀ k, 0 < k → k < pat.length → (pat.drop k).isPrefixOf pat = false) :
    occurrences pat (pat ++ t) = occurrences pat pat + occurrences pat t := by
  apply occurrences_append
  intro j hj
  by_cases h0 : j = 0
  · subst h0
    exact isPrefixOf_append_of_le _ _ _ (le_refl _)
  · have hl : (pat.drop j).length < pat.length := by
      simp only [List.length_drop]; omega
    rw [isPrefixOf_of_lt _ _ hl]
    cases hp : pat.isPrefixOf (pat.drop j ++ t) with
    | false => rfl
    | true =>
      obtain ⟨h1, _⟩ := isPrefixOf_append_of_lt _ _ _ hl hp
      rw [h j (by omega) hj] at h1
      exact absurd h1 (by simp)

/-- The occurrences of `pat` in a run of blocks that all begin with `{{`,
followed by a text: the occurrences in the blocks and in the text. -/
theorem occurrences_blocks (pat : GoString) (hpat : overlaps pat [0x7B, 0x7B] = false) :
    ∀ (blocks : List GoString) (rest : GoString),
    (∀ b ∈ blocks, ∃ b1, b = 0x7B :: 0x7B :: b1) →
    (rest = [] ∨ ∃ t v, rest = t ++ v ∧ overlaps pat t = false) →
    occurrences pat (blocks.flatten ++ rest) =
      (blocks.map (occurrences pat)).sum + occurrences pat rest := by
  intro blocks
  induction blocks with
  | nil => intro rest _ _; simp
  | cons b bs ih =>
    intro rest hb hrest
    have hbs : ∀ x ∈ bs, ∃ b1, x = 0x7B :: 0x7B :: b1 := fun x hx =>
      hb x (List.mem_cons_of_mem _ hx)
    have htail : occurrences pat (b ++ (bs.flatten ++ rest)) =
        occurrences pat b + occurrences pat (bs.flatten ++ rest) := by
      cases bs with
      | nil =>
        rcases hrest with rfl | ⟨t, v, rfl, ht⟩
        · simp [occurrences]
        · simpa using occurrences_append_tail pat b t v ht
      | cons c cs =>
        obtain ⟨c1, rfl⟩ := hb c (by simp)
        have := occurrences_append_tail pat b [0x7B, 0x7B] (c1 ++ (cs.flatten ++ rest)) hpat
        simpa using this
    simp only [List.flatten_cons, List.append_assoc, List.map_cons, List.sum_cons]
    rw [htail, ih rest hbs hrest]
    omega

theorem defineBlock_head (e : GoString × templateMetadata) :
    ∃ b1, defineBlock e = 0x7B :: 0x7B :: b1 := by
  have h : lit "\x7b\x7bdefine \"" = 0x7B :: 0x7B :: lit "define \"" := by
    simp [lit, EncodeRune]
  unfold defineBlock
  rw [h]
  simp only [List.cons_append]
  exact ⟨_, rfl⟩

/-- The occurrences of a define marker in the default define blocks,
followed by a text, do not depend on the order in which the registry is
visited. -/
theorem occurrences_defaults (env : Env) (n : Nat) (pat rest : GoString)
    (hpat : overlaps pat [0x7B, 0x7B] = false)
    (hrest : rest = [] ∨ ∃ t v, rest = t ++ v ∧ overlaps pat t = false) :
    occurrences pat (buildDefaultTemplate (env.range n) ++ rest) =
      (defaultTemplates.map fun e => occurrences pat (defineBlock e)).sum +
        occurrences pat rest := by
  have hsum : ((env.range n).map (occurrences pat ∘ defineBlock)).sum =
      (defaultTemplates.map (occurrences pat ∘ defineBlock)).sum :=
    List.Perm.sum_eq ((env.range_perm n).map (occurrences pat ∘ defineBlock))
  rw [buildDefaultTemplate_eq, occurrences_blocks pat hpat _ rest
    (fun b hb => by
      obtain ⟨e, _, rfl⟩ := List.mem_map.mp hb
      exact defineBlock_head e) hrest, List.map_map, hsum]
  rfl

set_option maxRecDepth 100000 in
/-- The define markers of the names that `fmtOutput` selects from the
registry: each occurs once in the define blocks of the registry, and its end
does not agree with the start of a define block. -/
theorem registry_markers :
    ∀ name ∈ [lit "printVolumeFields", lit "printVolumeWithPathFields",
      lit "printSnapshotFields", lit "printServiceFields", lit "printInstanceFields",
      lit "printMountFields", lit "printStringSlice", lit "printObject", lit "printJSON",
      lit "printPrettyJSON"],
      overlaps (defineMarker name) [0x7B, 0x7B] = false ∧
      (defaultTemplates.map fun e => occurrences (defineMarker name) (defineBlock e)).sum = 1 := by
  decide

set_option maxRecDepth 100000 in
/-- The dispatch text of a name of the registry holds no define marker of
that name, with and without the header line. -/
theorem registry_dispatch_markers :
    ∀ e ∈ defaultTemplates,
      overlaps (defineMarker e.1) (rangeBlock e.2.sortBy e.1) = false ∧
      occurrences (defineMarker e.1) (rangeBlock e.2.sortBy e.1) = 0 ∧
      overlaps (defineMarker e.1) (headerLine e.2.fields ++ rangeBlock e.2.sortBy e.1) =
        false ∧
      occurrences (defineMarker e.1) (headerLine e.2.fields ++ rangeBlock e.2.sortBy e.1) =
        0 := by
  decide

/-- In the JSON modes the document is the default define blocks: the define
marker of a name occurs in it as often as in the define blocks of the
registry. -/
theorem occurrences_json_doc (env : Env) (n : Nat) (pat : GoString)
    (hpat : overlaps pat [0x7B, 0x7B] = false) :
    occurrences pat (buildDefaultTemplate (env.range n)) =
      (defaultTemplates.map fun e => occurrences pat (defineBlock e)).sum := by
  have h := occurrences_defaults env n pat [] hpat (Or.inl rfl)
  simpa [occurrences] using h

set_option maxRecDepth 100000 in
/-- The word `define` occurs once in each define block of the registry, and
in no dispatch text of a name of the registry. -/
theorem registry_define_word :
    overlaps (lit "define") [0x7B, 0x7B] = false ∧
    (defaultTemplates.map fun e => occurrences (lit "define") (defineBlock e)).sum =
      defaultTemplates.length ∧
    ∀ e ∈ defaultTemplates,
      overlaps (lit "define") (rangeBlock e.2.sortBy e.1) = false ∧
      occurrences (lit "define") (rangeBlock e.2.sortBy e.1) = 0 ∧
      overlaps (lit "define") (headerLine e.2.fields ++ rangeBlock e.2.sortBy e.1) = false ∧
      occurrences (lit "define") (headerLine e.2.fields ++ rangeBlock e.2.sortBy e.1) = 0 := by
  decide

/-- In built-in mode the document is the default define blocks and the
dispatch text: a text that occurs in neither form of the dispatch text of
the selected name occurs in the document as often as in the define blocks of
the registry. -/
theorem occurrences_builtin_doc (env : Env) (n : Nat) (c : CLI) (name : GoString)
    (md : templateMetadata) (hmem : (name, md) ∈ defaultTemplates)
    (htpl : c.outputTemplate = []) (pat : GoString)
    (hpat : overlaps pat [0x7B, 0x7B] = false)
    (hd : overlaps pat (rangeBlock md.sortBy name) = false ∧
      occurrences pat (rangeBlock md.sortBy name) = 0 ∧
      overlaps pat (headerLine md.fields ++ rangeBlock md.sortBy name) = false ∧
      occurrences pat (headerLine md.fields ++ rangeBlock md.sortBy name) = 0) :
    occurrences pat (buildDefaultTemplate (env.range n) ++ dispatch c name) =
      (defaultTemplates.map fun e => occurrences pat (defineBlock e)).sum := by
  obtain ⟨h1, h2, h3, h4⟩ := hd
  rw [dispatch_of_entry c name md hmem htpl]
  by_cases hq : c.quiet = true ∨ md.fields = []
  · rw [if_pos hq, List.nil_append,
      occurrences_defaults env n _ _ hpat (Or.inr ⟨_, [], (List.append_nil _).symm, h1⟩), h2,
      Nat.add_zero]
  · rw [if_neg hq,
      occurrences_defaults env n _ _ hpat (Or.inr ⟨_, [], (List.append_nil _).symm, h3⟩), h4,
      Nat.add_zero]

set_option maxRecDepth 100000 in
/-- In custom-format mode the document is the default define blocks, the
define block of `printCustom` around the custom body, and the dispatch text:
the define marker of `printCustom` occurs in it once for the block and once
for each of its occurrences in the custom body. -/
theorem occurrences_custom_doc (env : Env) (n : Nat) (c : CLI) (uf : GoString) :
    occurrences (defineMarker templateNamePrintCustom)
        (buildDefaultTemplate (env.range n) ++ customDefine uf ++
          dispatch c templateNamePrintCustom) =
      1 + occurrences (defineMarker templateNamePrintCustom) uf := by
  have hm : lit "\x7b\x7bdefine \"printCustom\"\x7d\x7d" =
      defineMarker templateNamePrintCustom := by decide
  have hpat : overlaps (defineMarker templateNamePrintCustom) [0x7B, 0x7B] = false := by
    decide
  have hself : overlaps (defineMarker templateNamePrintCustom)
      (defineMarker templateNamePrintCustom) = false := by decide
  have hsum : (defaultTemplates.map fun e =>
      occurrences (defineMarker templateNamePrintCustom) (defineBlock e)).sum = 0 := by decide
  have hone : occurrences (defineMarker templateNamePrintCustom)
      (defineMarker templateNamePrintCustom) = 1 := by decide
  have hend : lit "\x7b\x7bend\x7d\x7d" = [0x7B, 0x7B] ++ lit "end\x7d\x7d" := by decide
  have htail : occurrences (defineMarker templateNamePrintCustom)
      (lit "\x7b\x7bend\x7d\x7d" ++ dispatch c templateNamePrintCustom) = 0 := by
    rw [dispatch_custom]
    split_ifs <;> decide
  have hborder : ∀ k, 0 < k → k < (defineMarker templateNamePrintCustom).length →
      ((defineMarker templateNamePrintCustom).drop k).isPrefixOf
        (defineMarker templateNamePrintCustom) = false := fun k h0 hk => by
    have := overlaps_false _ _ [] hself k h0 hk
    simpa using this
  have hdoc : buildDefaultTemplate (env.range n) ++ customDefine uf ++
      dispatch c templateNamePrintCustom =
      buildDefaultTemplate (env.range n) ++
        (defineMarker templateNamePrintCustom ++
          (uf ++ (lit "\x7b\x7bend\x7d\x7d" ++ dispatch c templateNamePrintCustom))) := by
    simp only [customDefine, hm, List.append_assoc]
  rw [hdoc, occurrences_defaults env n _ _ hpat (Or.inr ⟨_, _, rfl, hself⟩), hsum,
    occurrences_self_append _ _ hborder, hone]
  have h2 : occurrences (defineMarker templateNamePrintCustom)
      (uf ++ (lit "\x7b\x7bend\x7d\x7d" ++ dispatch c templateNamePrintCustom)) =
      occurrences (defineMarker templateNamePrintCustom) uf +
        occurrences (defineMarker templateNamePrintCustom)
          (lit "\x7b\x7bend\x7d\x7d" ++ dispatch c templateNamePrintCustom) := by
    rw [hend, List.append_assoc]
    exact occurrences_append_tail _ uf _ _ hpat
  rw [h2, htail]
  omega

/-! ## The claims -/

/-- C1. When the output format equals `json` (respectively `jsonp`) under
case folding, `fmtOutput` parses the document made of the default define
blocks alone and executes the template `printJSON` (respectively
`printPrettyJSON`) of it against the raw payload, on the writer it was
given: no header, no range or dispatch block and no `printCustom` define are
added, and neither the explicit template name, nor the raw template body,
nor the quiet flag (nor the tab setting) has a part in the result. -/
theorem json_modes_ignore_templates (env : Env) (c : CLI) (n : Nat) (w : Writer)
    (templateName : GoString) (o : Payload) :
    (EqualFold c.outputFormat (lit "json") = true →
      fmtOutput env c n w templateName o =
        if env.parses (lit "json") (buildDefaultTemplate (env.range n)) then
          ⟨[.ExecuteTemplate w (buildDefaultTemplate (env.range n)) (lit "printJSON") o],
            Return.ofError (env.runs
              (.ExecuteTemplate w (buildDefaultTemplate (env.range n)) (lit "printJSON") o))⟩
        else ⟨[], .panic⟩) ∧
    (EqualFold c.outputFormat (lit "jsonp") = true →
      fmtOutput env c n w templateName o =
        if env.parses (lit "json") (buildDefaultTemplate (env.range n)) then
          ⟨[.ExecuteTemplate w (buildDefaultTemplate (env.range n))
              (lit "printPrettyJSON") o],
            Return.ofError (env.runs
              (.ExecuteTemplate w (buildDefaultTemplate (env.range n))
                (lit "printPrettyJSON") o))⟩
        else ⟨[], .panic⟩) := by
  constructor
  · intro h
    rw [fmtOutput_json env c n w templateName o h]
    rfl
  · intro h
    rw [fmtOutput_jsonp env c n w templateName o h]
    rfl

set_option maxRecDepth 100000 in
/-- C1, witness: the formats `JSON` and `JsonP`, with an explicit template
name, a raw template body, quiet and tabs set. -/
theorem json_modes_ignore_templates_witness :
    (EqualFold (lit "JSON") (lit "json") = true ∧
      fmtOutput Env.plain ⟨lit "JSON", lit "x", true, true⟩ 0 .out (lit "printVolumeID")
          (.other 0) =
        ⟨[.ExecuteTemplate .out (buildDefaultTemplate defaultTemplates) (lit "printJSON")
            (.other 0)], .nil⟩) ∧
    (EqualFold (lit "JsonP") (lit "jsonp") = true ∧
      fmtOutput Env.plain ⟨lit "JsonP", lit "x", true, true⟩ 0 .out (lit "printVolumeID")
          (.other 0) =
        ⟨[.ExecuteTemplate .out (buildDefaultTemplate defaultTemplates)
            (lit "printPrettyJSON") (.other 0)], .nil⟩) :=
  ⟨⟨by decide,
    (json_modes_ignore_templates Env.plain ⟨lit "JSON", lit "x", true, true⟩ 0 .out
      (lit "printVolumeID") (.other 0)).1 (by decide)⟩,
   ⟨by decide,
    (json_modes_ignore_templates Env.plain ⟨lit "JsonP", lit "x", true, true⟩ 0 .out
      (lit "printVolumeID") (.other 0)).2 (by decide)⟩⟩

/-- C2. In built-in mode (the output format equals `tmpl` under case
folding and the raw template body is empty), for every payload, `fmtOutput`
continues with the template name that the table of the specification gives
for the shape of the payload when the explicit template name is empty, and
with the explicit name, unchanged, when it is not.  (A single volume or
snapshot record has a case of its own in the type switch: it is passed on
as a one-element slice, and the name is selected in that second call.) -/
theorem builtin_template_name (env : Env) (c : CLI) (n : Nat) (w : Writer)
    (templateName : GoString) (o : Payload)
    (hfmt : EqualFold c.outputFormat (lit "tmpl") = true)
    (htpl : c.outputTemplate = []) :
    fmtOutput env c n w templateName o =
      nestedCalls c.outputTemplateTabs o.calls w fun w1 =>
        render env c w1
          (if templateName = [] then defaultTemplateName o else templateName)
          c.outputFormat (buildDefaultTemplate (env.range (n + (o.calls - 1))))
          o.normalized :=
  fmtOutput_builtin_all env c n w templateName o hfmt htpl

/-- C2, witness: the format `Tmpl` and a slice of mount records. -/
theorem builtin_template_name_witness :
    EqualFold (lit "Tmpl") (lit "tmpl") = true ∧
    fmtOutput Env.plain ⟨lit "Tmpl", [], false, false⟩ 0 .out [] (.mounts []) =
      render Env.plain ⟨lit "Tmpl", [], false, false⟩ .out
        (lit "printMountFields") (lit "Tmpl") (buildDefaultTemplate defaultTemplates)
        (.mounts []) :=
  ⟨by decide,
   builtin_template_name Env.plain ⟨lit "Tmpl", [], false, false⟩ 0 .out [] (.mounts [])
     (by decide) rfl⟩

/-- C3. For every entry of the registry that declares fields, when the
name of the entry is the selected template in built-in mode and quiet is
false, the document that `fmtOutput` has parsed and executed is the default
define blocks, then the header line of the entry (the labels of its fields
in declared order, separated by single tabs, ended by one newline), then
the range block; the header line of the volume-fields entry is
`ID\tName\tStatus\tSize\n`. -/
theorem header_line_of_fields (env : Env) (c : CLI) (n : Nat) (w : Writer)
    (templateName : GoString) (o : Payload) (name : GoString) (md : templateMetadata)
    (hmem : (name, md) ∈ defaultTemplates) (hfields : md.fields ≠ [])
    (hfmt : EqualFold c.outputFormat (lit "tmpl") = true) (htpl : c.outputTemplate = [])
    (hq : c.quiet = false)
    (hsel : (if templateName = [] then defaultTemplateName o else templateName) = name) :
    (fmtOutput env c n w templateName o =
      nestedCalls c.outputTemplateTabs o.calls w fun w1 =>
        newExecute env w1
          (buildDefaultTemplate (env.range (n + (o.calls - 1))) ++
            ([0x09].intercalate (md.fields.map fieldLabel) ++ [0x0A] ++
              rangeBlock md.sortBy name))
          o.normalized) ∧
    (name = lit "printVolumeFields" →
      [0x09].intercalate (md.fields.map fieldLabel) ++ [0x0A] =
        lit "ID\tName\tStatus\tSize\n") := by
  constructor
  · rw [fmtOutput_builtin_doc env c n w templateName o name md hmem hfields hfmt htpl hsel,
      hq]
    rfl
  · intro hn
    have key : ∀ e ∈ defaultTemplates, e.1 = lit "printVolumeFields" →
        [0x09].intercalate (e.2.fields.map fieldLabel) ++ [0x0A] =
          lit "ID\tName\tStatus\tSize\n" := by decide
    exact key _ hmem hn

set_option maxRecDepth 100000 in
/-- C3, witness: two volumes, no explicit template name. -/
theorem header_line_of_fields_witness :
    fmtOutput Env.plain ⟨lit "tmpl", [], false, false⟩ 0 .out []
        (.volumes [⟨lit "1", lit "b", 1⟩, ⟨lit "2", lit "a", 1⟩]) =
      ⟨[.Execute .out
          (buildDefaultTemplate defaultTemplates ++
            lit ("ID\tName\tStatus\tSize\n\x7b\x7brange sort .D \"Name\" \x7d\x7d" ++
              "\x7b\x7btemplate \"printVolumeFields\" .\x7d\x7d\n\x7b\x7bend\x7d\x7d"))
          ⟨.volumes [⟨lit "1", lit "b", 1⟩, ⟨lit "2", lit "a", 1⟩]⟩], .nil⟩ :=
  (header_line_of_fields Env.plain ⟨lit "tmpl", [], false, false⟩ 0 .out []
    (.volumes [⟨lit "1", lit "b", 1⟩, ⟨lit "2", lit "a", 1⟩])
    (lit "printVolumeFields")
    { fields := [lit "ID", lit "Name", lit "Status=\x7b\x7b. | volumeStatus\x7d\x7d",
        lit "Size"], sortBy := lit "Name" }
    (by decide) (by decide) (by decide) rfl rfl (by decide)).1.trans (by decide)

/-- C4. In built-in mode, for every entry of the registry with fields whose
name is the selected template and for every payload: when quiet is true the
text after the define blocks is the range block alone, and when quiet is
false it is the header line followed by the range block, in which the
header line occurs once and only once. -/
theorem quiet_drops_header (env : Env) (c : CLI) (n : Nat) (w : Writer)
    (templateName : GoString) (o : Payload) (name : GoString) (md : templateMetadata)
    (hmem : (name, md) ∈ defaultTemplates) (hfields : md.fields ≠ [])
    (hfmt : EqualFold c.outputFormat (lit "tmpl") = true) (htpl : c.outputTemplate = [])
    (hsel : (if templateName = [] then defaultTemplateName o else templateName) = name) :
    (c.quiet = true →
      fmtOutput env c n w templateName o =
        nestedCalls c.outputTemplateTabs o.calls w fun w1 =>
          newExecute env w1
            (buildDefaultTemplate (env.range (n + (o.calls - 1))) ++
              rangeBlock md.sortBy name) o.normalized) ∧
    (c.quiet = false →
      fmtOutput env c n w templateName o =
        nestedCalls c.outputTemplateTabs o.calls w fun w1 =>
          newExecute env w1
            (buildDefaultTemplate (env.range (n + (o.calls - 1))) ++
              (headerLine md.fields ++ rangeBlock md.sortBy name)) o.normalized) ∧
    occurrences (headerLine md.fields)
      (headerLine md.fields ++ rangeBlock md.sortBy name) = 1 ∧
    occurrences (headerLine md.fields) (rangeBlock md.sortBy name) = 0 ∧
    (lit "\x7b\x7brange ").isPrefixOf (rangeBlock md.sortBy name) = true := by
  have hdoc := fmtOutput_builtin_doc env c n w templateName o name md hmem hfields hfmt htpl
    hsel
  refine ⟨fun hq => ?_, fun hq => ?_, ?_, ?_, ?_⟩
  · rw [hdoc, hq]; rfl
  · rw [hdoc, hq]; rfl
  · have key : ∀ e ∈ defaultTemplates, e.2.fields ≠ [] →
        occurrences (headerLine e.2.fields)
          (headerLine e.2.fields ++ rangeBlock e.2.sortBy e.1) = 1 := by decide
    exact key _ hmem hfields
  · have key : ∀ e ∈ defaultTemplates, e.2.fields ≠ [] →
        occurrences (headerLine e.2.fields) (rangeBlock e.2.sortBy e.1) = 0 := by decide
    exact key _ hmem hfields
  · have key : ∀ e ∈ defaultTemplates,
        (lit "\x7b\x7brange ").isPrefixOf (rangeBlock e.2.sortBy e.1) = true := by decide
    exact key _ hmem

set_option maxRecDepth 100000 in
/-- C4, witness: quiet, a slice of volumes. -/
theorem quiet_drops_header_witness :
    fmtOutput Env.plain ⟨lit "tmpl", [], false, true⟩ 0 .out []
        (.volumes [⟨lit "1", lit "b", 1⟩]) =
      ⟨[.Execute .out
          (buildDefaultTemplate defaultTemplates ++
            lit ("\x7b\x7brange sort .D \"Name\" \x7d\x7d" ++
              "\x7b\x7btemplate \"printVolumeFields\" .\x7d\x7d\n\x7b\x7bend\x7d\x7d"))
          ⟨.volumes [⟨lit "1", lit "b", 1⟩]⟩], .nil⟩ :=
  ((quiet_drops_header Env.plain ⟨lit "tmpl", [], false, true⟩ 0 .out []
    (.volumes [⟨lit "1", lit "b", 1⟩])
    (lit "printVolumeFields")
    { fields := [lit "ID", lit "Name", lit "Status=\x7b\x7b. | volumeStatus\x7d\x7d",
        lit "Size"], sortBy := lit "Name" }
    (by decide) (by decide) (by decide) rfl (by decide)).1 rfl).trans (by decide)

/-- C5, as stated, fails in the JSON mode: the single volume record is
handed to the template as it is, the one-element slice as a slice. -/
theorem single_record_json_counterexample :
    fmtOutput Env.plain ⟨lit "json", [], false, false⟩ 0 .out [] (.volume ⟨[], [], 0⟩) =
      ⟨[.ExecuteTemplate .out (buildDefaultTemplate defaultTemplates) (lit "printJSON")
          (.volume ⟨[], [], 0⟩)], .nil⟩ ∧
    fmtOutput Env.plain ⟨lit "json", [], false, false⟩ 0 .out [] (.volumes [⟨[], [], 0⟩]) =
      ⟨[.ExecuteTemplate .out (buildDefaultTemplate defaultTemplates) (lit "printJSON")
          (.volumes [⟨[], [], 0⟩])], .nil⟩ ∧
    fmtOutput Env.plain ⟨lit "json", [], false, false⟩ 0 .out [] (.volume ⟨[], [], 0⟩) ≠
      fmtOutput Env.plain ⟨lit "json", [], false, false⟩ 0 .out []
        (.volumes [⟨[], [], 0⟩]) := by
  have h1 := fmtOutput_json Env.plain ⟨lit "json", [], false, false⟩ 0 .out []
    (.volume ⟨[], [], 0⟩) (by decide)
  have h2 := fmtOutput_json Env.plain ⟨lit "json", [], false, false⟩ 0 .out []
    (.volumes [⟨[], [], 0⟩]) (by decide)
  refine ⟨h1.trans rfl, h2.trans rfl, ?_⟩
  rw [h1, h2]
  simp [mustExecuteTemplate, Env.plain]

/-- C5, amended. In built-in mode, for every explicit template name and
every quiet and tab setting, rendering a single volume record (or a single
snapshot record) is the call of `fmtOutput` on the one-element slice that
holds the record, with the same template name; when tab alignment is on,
that call writes to a column-aligning writer which the outer call creates
before it and flushes after it, and without tab alignment the two calls do
the same.  In the JSON modes and in custom-format mode the record is handed
to the template as it is: the JSON template, respectively the custom
document, is executed against the record itself, and in every mode but the
built-in one every execution is given the payload that `fmtOutput` was
given. -/
theorem single_record_normalized (env : Env) (c : CLI) (n : Nat) (w : Writer)
    (templateName : GoString) :
    (EqualFold c.outputFormat (lit "tmpl") = true → c.outputTemplate = [] →
      (∀ v, fmtOutput env c n w templateName (.volume v) =
        withTabWriter c.outputTemplateTabs w
          (fmtOutput env c (n + 1) (newTabWriter c.outputTemplateTabs w) templateName
            (.volumes [v]))) ∧
      (∀ s, fmtOutput env c n w templateName (.snapshot s) =
        withTabWriter c.outputTemplateTabs w
          (fmtOutput env c (n + 1) (newTabWriter c.outputTemplateTabs w) templateName
            (.snapshots [s]))) ∧
      (c.outputTemplateTabs = false →
        (∀ v, fmtOutput env c n w templateName (.volume v) =
          fmtOutput env c (n + 1) w templateName (.volumes [v])) ∧
        (∀ s, fmtOutput env c n w templateName (.snapshot s) =
          fmtOutput env c (n + 1) w templateName (.snapshots [s])))) ∧
    (EqualFold c.outputFormat (lit "json") = true →
      (∀ v, fmtOutput env c n w templateName (.volume v) =
        mustExecuteTemplate env w (buildDefaultTemplate (env.range n))
          templateNamePrintJSON (.volume v)) ∧
      (∀ s, fmtOutput env c n w templateName (.snapshot s) =
        mustExecuteTemplate env w (buildDefaultTemplate (env.range n))
          templateNamePrintJSON (.snapshot s))) ∧
    (EqualFold c.outputFormat (lit "jsonp") = true →
      (∀ v, fmtOutput env c n w templateName (.volume v) =
        mustExecuteTemplate env w (buildDefaultTemplate (env.range n))
          templateNamePrintPrettyJSON (.volume v)) ∧
      (∀ s, fmtOutput env c n w templateName (.snapshot s) =
        mustExecuteTemplate env w (buildDefaultTemplate (env.range n))
          templateNamePrintPrettyJSON (.snapshot s))) ∧
    (EqualFold c.outputFormat (lit "json") = false →
      EqualFold c.outputFormat (lit "jsonp") = false →
      ¬ (EqualFold c.outputFormat (lit "tmpl") = true ∧ c.outputTemplate = []) →
      (∀ v uf, requote c.customFormat = .ok uf →
        fmtOutput env c n w templateName (.volume v) =
          withTabWriter c.outputTemplateTabs w
            (newExecute env (newTabWriter c.outputTemplateTabs w)
              (buildDefaultTemplate (env.range n) ++ customDefine uf ++
                dispatch c templateNamePrintCustom) (.volume v))) ∧
      (∀ s uf, requote c.customFormat = .ok uf →
        fmtOutput env c n w templateName (.snapshot s) =
          withTabWriter c.outputTemplateTabs w
            (newExecute env (newTabWriter c.outputTemplateTabs w)
              (buildDefaultTemplate (env.range n) ++ customDefine uf ++
                dispatch c templateNamePrintCustom) (.snapshot s)))) ∧
    (¬ (EqualFold c.outputFormat (lit "tmpl") = true ∧ c.outputTemplate = []) →
      ∀ o, ∀ e ∈ (fmtOutput env c n w templateName o).events,
        ∀ p, e.payload = some p → p = o) := by
  have hcustom : ∀ o uf, EqualFold c.outputFormat (lit "json") = false →
      EqualFold c.outputFormat (lit "jsonp") = false →
      ¬ (EqualFold c.outputFormat (lit "tmpl") = true ∧ c.outputTemplate = []) →
      requote c.customFormat = .ok uf →
      fmtOutput env c n w templateName o =
        withTabWriter c.outputTemplateTabs w
          (newExecute env (newTabWriter c.outputTemplateTabs w)
            (buildDefaultTemplate (env.range n) ++ customDefine uf ++
              dispatch c templateNamePrintCustom) o) := by
    intro o uf h0 h1 h2 huf
    rw [fmtOutput_custom env c n w templateName o h0 h1 h2]
    unfold CLI.customFormat at huf
    rw [huf]
    simp only [render_custom]
  refine ⟨fun hfmt htpl => ?_, fun h => ⟨fun v => fmtOutput_json env c n w _ _ h,
    fun s => fmtOutput_json env c n w _ _ h⟩,
    fun h => ⟨fun v => fmtOutput_jsonp env c n w _ _ h,
      fun s => fmtOutput_jsonp env c n w _ _ h⟩,
    fun h0 h1 h2 => ⟨fun v uf huf => hcustom _ uf h0 h1 h2 huf,
      fun s uf huf => hcustom _ uf h0 h1 h2 huf⟩, fun hb o e he p hp => ?_⟩
  · obtain ⟨h1, h2⟩ := fmtOutput_builtin_single env c n w templateName hfmt htpl
    refine ⟨h1, h2, fun ht => ⟨fun v => ?_, fun s => ?_⟩⟩
    · rw [h1, ht]; rfl
    · rw [h2, ht]; rfl
  · have hfin : ∀ q : Payload, e.payload = some q → p = q := fun q hq => by
      rw [hp] at hq
      exact Option.some.inj hq
    by_cases hj : EqualFold c.outputFormat (lit "json") = true
    · rw [fmtOutput_json env c n w templateName o hj] at he
      exact hfin o (mustExecuteTemplate_payload _ _ _ _ _ e he)
    by_cases hjp : EqualFold c.outputFormat (lit "jsonp") = true
    · rw [fmtOutput_jsonp env c n w templateName o hjp] at he
      exact hfin o (mustExecuteTemplate_payload _ _ _ _ _ e he)
    have hj0 : EqualFold c.outputFormat (lit "json") = false := by simpa using hj
    have hp0 : EqualFold c.outputFormat (lit "jsonp") = false := by simpa using hjp
    rw [fmtOutput_custom env c n w templateName o hj0 hp0 hb] at he
    rcases mem_withTabWriter _ _ _ _ he with rfl | rfl | he
    · simp [Event.payload] at hp
    · simp [Event.payload] at hp
    · cases hr : requote (if c.outputTemplate ≠ [] then c.outputTemplate
          else c.outputFormat) with
      | error err => rw [hr] at he; simp at he
      | ok uf =>
        rw [hr] at he
        exact hfin o (render_payload _ _ _ _ _ _ _ e he)

set_option maxRecDepth 100000 in
/-- C5, witness of the amended claim: a single volume with tab alignment in
built-in mode, and a single volume in the mode `jsonp`. -/
theorem single_record_normalized_witness :
    (EqualFold (lit "tmpl") (lit "tmpl") = true ∧
      fmtOutput Env.plain ⟨lit "tmpl", [], true, false⟩ 0 .out [] (.volume ⟨[], [], 0⟩) =
        withTabWriter true .out
          (fmtOutput Env.plain ⟨lit "tmpl", [], true, false⟩ 1 (.tab .out) []
            (.volumes [⟨[], [], 0⟩]))) ∧
    fmtOutput Env.plain ⟨lit "jsonp", [], true, false⟩ 0 .out [] (.volume ⟨[], [], 0⟩) =
      ⟨[.ExecuteTemplate .out (buildDefaultTemplate defaultTemplates)
          (lit "printPrettyJSON") (.volume ⟨[], [], 0⟩)], .nil⟩ :=
  ⟨⟨by decide,
    ((single_record_normalized Env.plain ⟨lit "tmpl", [], true, false⟩ 0 .out []).1
      (by decide) rfl).1 ⟨[], [], 0⟩⟩,
   (((single_record_normalized Env.plain ⟨lit "jsonp", [], true, false⟩ 0 .out []).2.2.1
      (by decide)).1 ⟨[], [], 0⟩).trans (by decide)⟩

/-- C6. In built-in mode, for every slice of strings and every explicit
template name, `fmtOutput` continues with the slice sorted, and every
execution of a template is given the sorted slice as payload; the sorted
slice is a permutation of the input in which no element is greater than a
later one, in the bytewise lexicographic order of Go strings; the slice
`["z", "a"]` becomes `["a", "z"]`. -/
theorem string_slice_sorted (env : Env) (c : CLI) (n : Nat) (w : Writer)
    (templateName : GoString) (ss : List GoString)
    (hfmt : EqualFold c.outputFormat (lit "tmpl") = true) (htpl : c.outputTemplate = []) :
    fmtOutput env c n w templateName (.strings ss) =
      withTabWriter c.outputTemplateTabs w
        (render env c (newTabWriter c.outputTemplateTabs w)
          (if templateName = [] then lit "printStringSlice" else templateName)
          c.outputFormat (buildDefaultTemplate (env.range n))
          (.strings (sortStrings ss))) ∧
    (∀ e ∈ (fmtOutput env c n w templateName (.strings ss)).events,
      e.payload = none ∨ e.payload = some (.strings (sortStrings ss))) ∧
    (sortStrings ss).Perm ss ∧
    (sortStrings ss).Pairwise (fun a b => strLt b a = false) ∧
    sortStrings [lit "z", lit "a"] = [lit "a", lit "z"] := by
  have h := fmtOutput_builtin env c n w templateName (.strings ss) hfmt htpl rfl
  refine ⟨h, ?_, sortStrings_perm ss, sortStrings_sorted ss, by decide⟩
  intro e he
  rw [h] at he
  rcases mem_withTabWriter _ _ _ e he with rfl | rfl | he
  · left; rfl
  · left; rfl
  · right; exact render_payload _ _ _ _ _ _ _ e he

set_option maxRecDepth 100000 in
/-- C6, witness: the slice `["z", "a"]`. -/
theorem string_slice_sorted_witness :
    EqualFold (lit "tmpl") (lit "tmpl") = true ∧
    fmtOutput Env.plain ⟨lit "tmpl", [], false, false⟩ 0 .out [] (.strings [lit "z", lit "a"]) =
      ⟨[.Execute .out
          (buildDefaultTemplate defaultTemplates ++
            lit ("\x7b\x7brange .D \x7d\x7d\x7b\x7btemplate \"printStringSlice\" ." ++
              "\x7d\x7d\n\x7b\x7bend\x7d\x7d"))
          ⟨.strings [lit "a", lit "z"]⟩], .nil⟩ :=
  ⟨by decide,
   (string_slice_sorted Env.plain ⟨lit "tmpl", [], false, false⟩ 0 .out []
     [lit "z", lit "a"] (by decide) rfl).1.trans (by decide)⟩

set_option maxRecDepth 100000 in
/-- C7, as stated, fails when the custom body is the output format string:
for the format `{{.Name}}` and no raw template body the document ends with
a range over the payload, `{{range .D }}{{template "printCustom" .}}`, a
newline and `{{end}}`. -/
theorem custom_format_range_counterexample :
    fmtOutput Env.plain ⟨lit "\x7b\x7b.Name\x7d\x7d", [], false, false⟩ 0 .out []
        (.volumes []) =
      ⟨[.Execute .out
          (buildDefaultTemplate defaultTemplates ++
            lit ("\x7b\x7bdefine \"printCustom\"\x7d\x7d\x7b\x7b.Name\x7d\x7d" ++
              "\x7b\x7bend\x7d\x7d") ++
            lit ("\x7b\x7brange .D \x7d\x7d\x7b\x7btemplate \"printCustom\" .\x7d\x7d\n" ++
              "\x7b\x7bend\x7d\x7d"))
          ⟨.volumes []⟩], .nil⟩ := by
  decide

/-- C7, amended. In custom-format mode, when the re-quoted custom string
unquotes to `uf`, the document is the default define blocks, one define of
`printCustom` holding `uf`, and a dispatch block without header line.  When
the custom body comes from the raw template body, the dispatch block is
`{{template "printCustom" .}}`: one invocation against the template object,
no range.  When it comes from the output format string (raw template body
empty), the dispatch block is `{{range .D }}{{template "printCustom" .}}`, a
newline and `{{end}}`: one invocation per element of the payload. -/
theorem custom_format_document (env : Env) (c : CLI) (n : Nat) (w : Writer)
    (templateName : GoString) (o : Payload) (uf : GoString)
    (h0 : EqualFold c.outputFormat (lit "json") = false)
    (h1 : EqualFold c.outputFormat (lit "jsonp") = false) :
    (c.outputTemplate ≠ [] → requote c.outputTemplate = .ok uf →
      fmtOutput env c n w templateName o =
        withTabWriter c.outputTemplateTabs w
          (newExecute env (newTabWriter c.outputTemplateTabs w)
            (buildDefaultTemplate (env.range n) ++
              (lit "\x7b\x7bdefine \"printCustom\"\x7d\x7d" ++ uf ++
                lit "\x7b\x7bend\x7d\x7d") ++
              lit "\x7b\x7btemplate \"printCustom\" .\x7d\x7d") o)) ∧
    (c.outputTemplate = [] → EqualFold c.outputFormat (lit "tmpl") = false →
      requote c.outputFormat = .ok uf →
      fmtOutput env c n w templateName o =
        withTabWriter c.outputTemplateTabs w
          (newExecute env (newTabWriter c.outputTemplateTabs w)
            (buildDefaultTemplate (env.range n) ++
              (lit "\x7b\x7bdefine \"printCustom\"\x7d\x7d" ++ uf ++
                lit "\x7b\x7bend\x7d\x7d") ++
              lit ("\x7b\x7brange .D \x7d\x7d\x7b\x7btemplate \"printCustom\" .\x7d\x7d\n" ++
                "\x7b\x7bend\x7d\x7d")) o)) := by
  constructor
  · intro ht hq
    rw [fmtOutput_custom_doc env c n w templateName o h0 h1 (fun h => ht h.2)]
    simp only [ne_eq, ht, not_false_eq_true, if_true, hq, if_false]
    rfl
  · intro ht h2 hq
    rw [fmtOutput_custom_doc env c n w templateName o h0 h1 (fun h => by simp [h2] at h)]
    simp only [ne_eq, ht, not_true_eq_false, if_false, hq, if_true]
    rfl

set_option maxRecDepth 100000 in
/-- C7, witness of the amended claim: a raw template body, and an output
format string that is a template body. -/
theorem custom_format_document_witness :
    (fmtOutput Env.plain ⟨lit "tmpl", lit "\x7b\x7b.D\x7d\x7d", false, false⟩ 0 .out []
        (.other 0) =
      ⟨[.Execute .out
          (buildDefaultTemplate defaultTemplates ++
            lit ("\x7b\x7bdefine \"printCustom\"\x7d\x7d\x7b\x7b.D\x7d\x7d" ++
              "\x7b\x7bend\x7d\x7d") ++
            lit "\x7b\x7btemplate \"printCustom\" .\x7d\x7d")
          ⟨.other 0⟩], .nil⟩) ∧
    (fmtOutput Env.plain ⟨lit "\x7b\x7b.Name\x7d\x7d", [], false, false⟩ 0 .out []
        (.volumes []) =
      ⟨[.Execute .out
          (buildDefaultTemplate defaultTemplates ++
            lit ("\x7b\x7bdefine \"printCustom\"\x7d\x7d\x7b\x7b.Name\x7d\x7d" ++
              "\x7b\x7bend\x7d\x7d") ++
            lit ("\x7b\x7brange .D \x7d\x7d\x7b\x7btemplate \"printCustom\" .\x7d\x7d\n" ++
              "\x7b\x7bend\x7d\x7d"))
          ⟨.volumes []⟩], .nil⟩) :=
  ⟨((custom_format_document Env.plain ⟨lit "tmpl", lit "\x7b\x7b.D\x7d\x7d", false, false⟩
      0 .out [] (.other 0) (lit "\x7b\x7b.D\x7d\x7d") (by decide) (by decide)).1
      (by decide) (by decide)).trans (by decide),
   ((custom_format_document Env.plain ⟨lit "\x7b\x7b.Name\x7d\x7d", [], false, false⟩
      0 .out [] (.volumes []) (lit "\x7b\x7b.Name\x7d\x7d") (by decide) (by decide)).2
      rfl (by decide) (by decide)).trans (by decide)⟩

set_option maxRecDepth 100000 in
/-- C8. The code at the custom format string `a\"b` (an `a`, a backslash, a
double quote, a `b`).  `fmtOutput` puts a backslash before every double
quote, also before this one, so the text handed to `strconv.Unquote` holds
an escaped backslash followed by a bare double quote and is rejected with
`ErrSyntax`: `fmtOutput` returns the error and no template is parsed or
executed, whether the string is the output format or the raw template body.
The Go literal `"a\"b"` itself unquotes to `a"b`, which is what the claim
says, and the string `a"b` with a plain double quote passes unchanged. -/
theorem escaped_quote_fails :
    Replace (lit "a\\\"b") 0x22 [0x5C, 0x22] = lit "a\\\\\"b" ∧
    requote (lit "a\\\"b") = .error .ErrSyntax ∧
    fmtOutput Env.plain ⟨lit "a\\\"b", [], false, false⟩ 0 .out [] (.other 0) =
      ⟨[], .err .ErrSyntax⟩ ∧
    fmtOutput Env.plain ⟨lit "tmpl", lit "a\\\"b", false, false⟩ 0 .out [] (.other 0) =
      ⟨[], .err .ErrSyntax⟩ ∧
    Unquote ([0x22] ++ lit "a\\\"b" ++ [0x22]) = .ok (lit "a\"b") ∧
    requote (lit "a\"b") = .ok (lit "a\"b") := by
  decide

/-- C9. Whenever the output format is neither `json` nor `jsonp` under case
folding and the raw template body is not empty, `fmtOutput` runs the
custom-format mode on the raw template body: the re-quoted raw body is
unquoted, an error of that step is returned, and otherwise the document is
the default define blocks, the define of `printCustom` holding the unquoted
raw body, and `{{template "printCustom" .}}`.  Neither the output format
string (it may be `tmpl`) nor the explicit template name has a part in the
result. -/
theorem raw_template_precedence (env : Env) (c : CLI) (n : Nat) (w : Writer)
    (templateName : GoString) (o : Payload)
    (h0 : EqualFold c.outputFormat (lit "json") = false)
    (h1 : EqualFold c.outputFormat (lit "jsonp") = false)
    (ht : c.outputTemplate ≠ []) :
    fmtOutput env c n w templateName o =
      withTabWriter c.outputTemplateTabs w
        (match requote c.outputTemplate with
          | .error err => ⟨[], .err err⟩
          | .ok uf =>
            newExecute env (newTabWriter c.outputTemplateTabs w)
              (buildDefaultTemplate (env.range n) ++
                (lit "\x7b\x7bdefine \"printCustom\"\x7d\x7d" ++ uf ++
                  lit "\x7b\x7bend\x7d\x7d") ++
                lit "\x7b\x7btemplate \"printCustom\" .\x7d\x7d") o) := by
  rw [fmtOutput_custom_doc env c n w templateName o h0 h1 (fun h => ht h.2)]
  simp only [ne_eq, ht, not_false_eq_true, if_true, if_false]
  rfl

set_option maxRecDepth 100000 in
/-- C9, witness: the output format `tmpl`, an explicit template name and a
raw template body. -/
theorem raw_template_precedence_witness :
    fmtOutput Env.plain ⟨lit "tmpl", lit "\x7b\x7b.D\x7d\x7d", false, false⟩ 0 .out
        (lit "printVolumeID") (.other 0) =
      ⟨[.Execute .out
          (buildDefaultTemplate defaultTemplates ++
            lit ("\x7b\x7bdefine \"printCustom\"\x7d\x7d\x7b\x7b.D\x7d\x7d" ++
              "\x7b\x7bend\x7d\x7d") ++
            lit "\x7b\x7btemplate \"printCustom\" .\x7d\x7d")
          ⟨.other 0⟩], .nil⟩ :=
  (raw_template_precedence Env.plain ⟨lit "tmpl", lit "\x7b\x7b.D\x7d\x7d", false, false⟩
    0 .out (lit "printVolumeID") (.other 0) (by decide) (by decide) (by decide)).trans
    (by decide)

/-- C10. In custom-format mode, whenever the unquoting of the re-quoted
custom format string fails, `fmtOutput` returns that error and neither
parses nor executes a template: it makes no call at all without tab
alignment, and with tab alignment only creates and flushes the
column-aligning writer.  A string that ends in a single backslash and a
string with a backslash before a character that starts no escape are
rejected. -/
theorem malformed_custom_format (env : Env) (c : CLI) (n : Nat) (w : Writer)
    (templateName : GoString) (o : Payload) (err : GoError)
    (h0 : EqualFold c.outputFormat (lit "json") = false)
    (h1 : EqualFold c.outputFormat (lit "jsonp") = false)
    (h2 : ¬ (EqualFold c.outputFormat (lit "tmpl") = true ∧ c.outputTemplate = []))
    (herr : requote (if c.outputTemplate ≠ [] then c.outputTemplate
                     else c.outputFormat) = .error err) :
    fmtOutput env c n w templateName o =
      (if c.outputTemplateTabs then ⟨[.NewWriter w, .Flush (.tab w)], .err err⟩
       else ⟨[], .err err⟩) ∧
    (∀ e ∈ (fmtOutput env c n w templateName o).events, e.payload = none) ∧
    requote (lit "abc\\") = .error .ErrSyntax ∧
    requote (lit "\\q") = .error .ErrSyntax := by
  have h : fmtOutput env c n w templateName o =
      (if c.outputTemplateTabs then ⟨[.NewWriter w, .Flush (.tab w)], .err err⟩
       else ⟨[], .err err⟩) := by
    rw [fmtOutput_custom env c n w templateName o h0 h1 h2, herr]
    cases c.outputTemplateTabs <;> rfl
  refine ⟨h, ?_, by decide, by decide⟩
  intro e he
  rw [h] at he
  split_ifs at he
  · simp only [List.mem_cons, List.mem_singleton, List.not_mem_nil, or_false] at he
    rcases he with rfl | rfl <;> rfl
  · simp at he

set_option maxRecDepth 100000 in
/-- C10, witness: the format string `abc\`, with tab alignment. -/
theorem malformed_custom_format_witness :
    requote (lit "abc\\") = .error .ErrSyntax ∧
    fmtOutput Env.plain ⟨lit "abc\\", [], true, false⟩ 0 .out [] (.other 0) =
      ⟨[.NewWriter .out, .Flush (.tab .out)], .err .ErrSyntax⟩ :=
  ⟨by decide,
   (malformed_custom_format Env.plain ⟨lit "abc\\", [], true, false⟩ 0 .out [] (.other 0)
     .ErrSyntax (by decide) (by decide) (by decide) (by decide)).1⟩

/-- C11. In built-in mode, whenever the selected template is an entry of
the registry with fields (for a list of records without explicit name: the
default template of its kind), the entry declares a sort key and the range
block of the executed document ranges over `sort .D "KEY"` for that key.
With the template function `sort` as the specification describes it, the
rows of the range block are the records of the payload in ascending bytewise
(case-sensitive) order of that field, records with equal keys in their
original relative order; the key of the lists of volumes, of volumes with
path and of snapshots is `Name`, the key of the lists of mounts is
`Source`; two volumes named `b` and `a` give the row of `a` before the row
of `b`. -/
theorem rows_sorted_by_key (env : Env) (c : CLI) (n : Nat) (w : Writer)
    (templateName : GoString) (o : Payload) (name : GoString) (md : templateMetadata)
    (hmem : (name, md) ∈ defaultTemplates) (hfields : md.fields ≠ [])
    (hfmt : EqualFold c.outputFormat (lit "tmpl") = true) (htpl : c.outputTemplate = [])
    (hsel : (if templateName = [] then defaultTemplateName o else templateName) = name) :
    md.sortBy ≠ [] ∧
    fmtOutput env c n w templateName o =
      (nestedCalls c.outputTemplateTabs o.calls w fun w1 =>
        newExecute env w1
          (buildDefaultTemplate (env.range (n + (o.calls - 1))) ++
            ((if c.quiet then [] else headerLine md.fields) ++
              (lit "\x7b\x7brange sort .D \"" ++ md.sortBy ++
                lit "\" \x7d\x7d\x7b\x7btemplate \"" ++ name ++
                lit "\" .\x7d\x7d\n\x7b\x7bend\x7d\x7d")))
          o.normalized) ∧
    (∀ (α : Type) (field : GoString → α → GoString) (d : List α),
      StableSortedBy (field md.sortBy) d (rangeRows md.sortBy field d)) ∧
    ((∀ vs, (lookupTemplate (defaultTemplateName (.volumes vs))).map (·.sortBy) =
        some (lit "Name")) ∧
      (∀ vs, (lookupTemplate (defaultTemplateName (.volumesWithPath vs))).map (·.sortBy) =
        some (lit "Name")) ∧
      (∀ ss, (lookupTemplate (defaultTemplateName (.snapshots ss))).map (·.sortBy) =
        some (lit "Name")) ∧
      (∀ ms, (lookupTemplate (defaultTemplateName (.mounts ms))).map (·.sortBy) =
        some (lit "Source"))) ∧
    (name = templateNamePrintVolumeFields → ∀ (idb ida : GoString) (sb sa : Int),
      rangeRows md.sortBy Volume.field [⟨idb, lit "b", sb⟩, ⟨ida, lit "a", sa⟩] =
        [⟨ida, lit "a", sa⟩, ⟨idb, lit "b", sb⟩]) := by
  have key : ∀ e ∈ defaultTemplates, e.2.fields ≠ [] → e.2.sortBy ≠ [] := by decide
  have hsort := key _ hmem hfields
  have k1 : (lookupTemplate (lit "printVolumeFields")).map (·.sortBy) =
      some (lit "Name") := by decide
  have k2 : (lookupTemplate (lit "printVolumeWithPathFields")).map (·.sortBy) =
      some (lit "Name") := by decide
  have k3 : (lookupTemplate (lit "printSnapshotFields")).map (·.sortBy) =
      some (lit "Name") := by decide
  have k4 : (lookupTemplate (lit "printMountFields")).map (·.sortBy) =
      some (lit "Source") := by decide
  refine ⟨hsort, ?_, fun α field d => ?_,
    ⟨fun _ => k1, fun _ => k2, fun _ => k3, fun _ => k4⟩, fun hn idb ida sb sa => ?_⟩
  · rw [fmtOutput_builtin_doc env c n w templateName o name md hmem hfields hfmt htpl hsel]
    simp [rangeBlock, hsort, lit, EncodeRune]
  · unfold rangeRows
    rw [if_neg hsort]
    exact sortByField_stable _ d
  · have key2 : ∀ e ∈ defaultTemplates, e.1 = templateNamePrintVolumeFields →
        e.2.sortBy = lit "Name" := by decide
    have hs : md.sortBy = lit "Name" := key2 _ hmem hn
    have hf : ∀ v : Volume, Volume.field (lit "Name") v = v.Name := fun v => by
      unfold Volume.field
      rw [if_neg (by decide), if_pos rfl]
    unfold rangeRows
    rw [hs, if_neg (by decide)]
    simp only [sortByField, insertByField, hf]
    rw [if_pos (by decide)]

set_option maxRecDepth 100000 in
/-- C11, witness: a list of three volumes named `b`, `a` and `a`. -/
theorem rows_sorted_by_key_witness :
    rangeRows (lit "Name") Volume.field
        [⟨lit "1", lit "b", 1⟩, ⟨lit "2", lit "a", 2⟩, ⟨lit "3", lit "a", 3⟩] =
      [⟨lit "2", lit "a", 2⟩, ⟨lit "3", lit "a", 3⟩, ⟨lit "1", lit "b", 1⟩] ∧
    StableSortedBy (Volume.field (lit "Name"))
      [⟨lit "1", lit "b", 1⟩, ⟨lit "2", lit "a", 2⟩, ⟨lit "3", lit "a", 3⟩]
      (rangeRows (lit "Name") Volume.field
        [⟨lit "1", lit "b", 1⟩, ⟨lit "2", lit "a", 2⟩, ⟨lit "3", lit "a", 3⟩]) :=
  ⟨by decide,
   (rows_sorted_by_key Env.plain ⟨lit "tmpl", [], false, false⟩ 0 .out []
    (.volumes [⟨lit "1", lit "b", 1⟩, ⟨lit "2", lit "a", 2⟩, ⟨lit "3", lit "a", 3⟩])
    (lit "printVolumeFields")
    { fields := [lit "ID", lit "Name", lit "Status=\x7b\x7b. | volumeStatus\x7d\x7d",
        lit "Size"], sortBy := lit "Name" }
    (by decide) (by decide) (by decide) rfl (by decide)).2.2.1 Volume Volume.field _⟩

set_option maxRecDepth 100000 in
/-- C12, as stated, fails for the two JSON names, which have registry
entries: when `printJSON` is the selected name in built-in mode, the
document is the default define blocks alone, without any range block, and
the template is executed directly against the payload. -/
theorem dispatch_block_json_name_counterexample :
    EqualFold (lit "tmpl") (lit "tmpl") = true ∧
    (lookupTemplate (lit "printJSON")).isSome = true ∧
    fmtOutput Env.plain ⟨lit "tmpl", [], false, false⟩ 0 .out (lit "printJSON")
        (.volumes []) =
      ⟨[.ExecuteTemplate .out (buildDefaultTemplate defaultTemplates) (lit "printJSON")
          (.volumes [])], .nil⟩ ∧
    (rangeBlock [] (lit "printJSON")).isSuffixOf
      (buildDefaultTemplate defaultTemplates) = false ∧
    occurrences (lit "\x7b\x7brange ") (buildDefaultTemplate defaultTemplates) = 0 := by
  decide

/-- C12, amended. In built-in mode, for every selected template name that
has a registry entry and for every payload: when the name is neither
`printJSON` nor `printPrettyJSON`, the document that `fmtOutput` parses and
executes is the default define blocks, the header line when the entry has
fields and quiet is off, and then exactly `{{range X }}{{template "NAME"
.}}`, a newline and `{{end}}`, where X is `sort .D "KEY"` when the entry
declares the non-empty sort key KEY and `.D` when it declares none; when the
name is `printJSON` or `printPrettyJSON`, no dispatch block is written: the
template of that name is executed directly on the document made of the
default define blocks alone. -/
theorem dispatch_block_of_registry_name (env : Env) (c : CLI) (n : Nat) (w : Writer)
    (templateName : GoString) (o : Payload) (name : GoString) (md : templateMetadata)
    (hmem : (name, md) ∈ defaultTemplates)
    (hfmt : EqualFold c.outputFormat (lit "tmpl") = true) (htpl : c.outputTemplate = [])
    (hsel : (if templateName = [] then defaultTemplateName o else templateName) = name) :
    (name ≠ templateNamePrintJSON → name ≠ templateNamePrintPrettyJSON →
      fmtOutput env c n w templateName o =
        nestedCalls c.outputTemplateTabs o.calls w fun w1 =>
          newExecute env w1
            (buildDefaultTemplate (env.range (n + (o.calls - 1))) ++
              ((if c.quiet = true ∨ md.fields = [] then [] else headerLine md.fields) ++
                (lit "\x7b\x7brange " ++
                  (if md.sortBy = [] then lit ".D"
                   else lit "sort .D \"" ++ md.sortBy ++ lit "\"") ++
                  lit " \x7d\x7d\x7b\x7btemplate \"" ++ name ++ lit "\" .\x7d\x7d" ++
                  [0x0A] ++ lit "\x7b\x7bend\x7d\x7d")))
            o.normalized) ∧
    (name = templateNamePrintJSON ∨ name = templateNamePrintPrettyJSON →
      fmtOutput env c n w templateName o =
        nestedCalls c.outputTemplateTabs o.calls w fun w1 =>
          mustExecuteTemplate env w1
            (buildDefaultTemplate (env.range (n + (o.calls - 1)))) name o.normalized) := by
  constructor
  · intro h1 h2
    rw [fmtOutput_builtin_entry env c n w templateName o name md hmem h1 h2 hfmt htpl hsel]
    congr 1
    funext w1
    congr 2
    simp [rangeBlock, lit, EncodeRune]
  · intro hj
    rw [fmtOutput_builtin_all env c n w templateName o hfmt htpl, hsel]
    congr 1
    funext w1
    simp only [render, hj, if_true]

set_option maxRecDepth 100000 in
/-- C12, witness: a slice of strings, whose entry has no sort key, and the
explicit name `printPrettyJSON` on a single volume record. -/
theorem dispatch_block_of_registry_name_witness :
    fmtOutput Env.plain ⟨lit "tmpl", [], false, false⟩ 0 .out []
        (.strings [lit "z", lit "a"]) =
      ⟨[.Execute .out
          (buildDefaultTemplate defaultTemplates ++
            lit ("\x7b\x7brange .D \x7d\x7d" ++
              "\x7b\x7btemplate \"printStringSlice\" .\x7d\x7d\n\x7b\x7bend\x7d\x7d"))
          ⟨.strings [lit "a", lit "z"]⟩], .nil⟩ ∧
    fmtOutput Env.plain ⟨lit "tmpl", [], false, false⟩ 0 .out (lit "printPrettyJSON")
        (.volume ⟨[], [], 0⟩) =
      ⟨[.ExecuteTemplate .out (buildDefaultTemplate defaultTemplates)
          (lit "printPrettyJSON") (.volumes [⟨[], [], 0⟩])], .nil⟩ :=
  ⟨((dispatch_block_of_registry_name Env.plain ⟨lit "tmpl", [], false, false⟩ 0 .out []
      (.strings [lit "z", lit "a"]) (lit "printStringSlice")
      { format := lit "\x7b\x7b.\x7d\x7d" }
      (by decide) (by decide) rfl (by decide)).1 (by decide) (by decide)).trans (by decide),
   ((dispatch_block_of_registry_name Env.plain ⟨lit "tmpl", [], false, false⟩ 0 .out
      (lit "printPrettyJSON") (.volume ⟨[], [], 0⟩) (lit "printPrettyJSON")
      { format := lit "\x7b\x7b. | jsonp\x7d\x7d" }
      (by decide) (by decide) rfl (by decide)).2 (Or.inr rfl)).trans (by decide)⟩

/-- C13. Whatever the order in which the registry is visited,
`buildDefaultTemplate` writes the define blocks of the entries it visits and
nothing else, and these are the define blocks of the registry, one for each
entry, the names of the registry being distinct; the body of the block of an
entry with an inline format is that format, the body of the block of an
entry without one is the render expressions of its fields in declared order
joined by tabs, where a bare field F renders as `{{.F}}` and a field
`label=expression` as the expression; the body of the volume-fields block
is `{{.ID}}`, `{{.Name}}`, `{{. | volumeStatus}}`, `{{.Size}}` joined by
tabs. -/
theorem default_define_blocks (env : Env) (n : Nat) :
    buildDefaultTemplate (env.range n) = ((env.range n).map defineBlock).flatten ∧
    ((env.range n).map defineBlock).Perm (defaultTemplates.map defineBlock) ∧
    (defaultTemplates.map Prod.fst).Nodup ∧
    (∀ e ∈ defaultTemplates,
      defineBlock e =
        lit "\x7b\x7bdefine \"" ++ e.1 ++ lit "\"\x7d\x7d" ++
          (if e.2.format ≠ [] then e.2.format
           else [0x09].intercalate (e.2.fields.map renderExpr)) ++
          lit "\x7b\x7bend\x7d\x7d") ∧
    (∀ f : GoString, 0x3D ∉ f → renderExpr f = lit "\x7b\x7b." ++ f ++ lit "\x7d\x7d") ∧
    (∀ label expr : GoString, 0x3D ∉ label → renderExpr (label ++ [0x3D] ++ expr) = expr) ∧
    (∀ md, (templateNamePrintVolumeFields, md) ∈ defaultTemplates →
      blockBody md =
        lit ("\x7b\x7b.ID\x7d\x7d\t\x7b\x7b.Name\x7d\x7d\t" ++
          "\x7b\x7b. | volumeStatus\x7d\x7d\t\x7b\x7b.Size\x7d\x7d")) := by
  refine ⟨buildDefaultTemplate_eq _, (env.range_perm n).map _, by decide, fun e _ => rfl,
    fun f hf => by simp [renderExpr, hf], fun label expr hl => ?_, fun md hmd => ?_⟩
  · have h1 : (label ++ [0x3D] ++ expr).dropWhile (fun b => b ≠ 0x3D) = 0x3D :: expr := by
      induction label with
      | nil => simp [List.dropWhile]
      | cons b t ih =>
        have hb : b ≠ 0x3D := fun e => hl (by simp [e])
        have ht : 0x3D ∉ t := fun e => hl (by simp [e])
        simpa [List.dropWhile, hb] using ih ht
    have hm : 0x3D ∈ label ++ [0x3D] ++ expr := by simp
    unfold renderExpr
    rw [if_pos hm, h1]
    rfl
  · have key : ∀ e ∈ defaultTemplates, e.1 = templateNamePrintVolumeFields →
        blockBody e.2 =
          lit ("\x7b\x7b.ID\x7d\x7d\t\x7b\x7b.Name\x7d\x7d\t" ++
            "\x7b\x7b. | volumeStatus\x7d\x7d\t\x7b\x7b.Size\x7d\x7d") := by decide
    exact key _ hmd rfl

set_option maxRecDepth 100000 in
/-- C13, on the registry in the order of the source: the first two define
blocks. -/
theorem default_define_blocks_witness :
    (lit ("\x7b\x7bdefine \"printObject\"\x7d\x7d\x7b\x7bprintf \"%v\" .\x7d\x7d" ++
      "\x7b\x7bend\x7d\x7d\x7b\x7bdefine \"printStringSlice\"\x7d\x7d\x7b\x7b.\x7d\x7d" ++
      "\x7b\x7bend\x7d\x7d")).isPrefixOf (buildDefaultTemplate (Env.plain.range 0)) = true :=
  (default_define_blocks Env.plain 0).1 ▸ (by decide)

/-- C14. The calls of `fmtOutput` on the column-aligning writers, for every
input and on every way out (success, a failed execution, the error of the
unquoting, a document that is not accepted, the call passed on for a single
record).  The events are: the creations of the writers, each around the
writer of the call that creates it, from the outermost; then the executions
(at most one), all on the innermost writer; then the flushes, from the
innermost writer to the outermost.  Every writer is created at most once
and flushed exactly as often as it is created.  With tab alignment outside
the JSON modes the first event is the creation of a writer around the given
stream, the last event is the flush of that writer, and no execution writes
to the given stream itself. -/
theorem tab_writers_flushed (env : Env) (c : CLI) (n : Nat) (w : Writer)
    (templateName : GoString) (o : Payload) :
    (fmtOutput env c n w templateName o).events =
      (givenWriters (tabWriters c o) w).map Event.NewWriter ++
        (fmtOutput env c n w templateName o).events.filter (fun e => e.writer.isSome) ++
        (givenWriters (tabWriters c o) w).reverse.map (fun x => Event.Flush (.tab x)) ∧
    ((fmtOutput env c n w templateName o).events.filter
      (fun e => e.writer.isSome)).length ≤ 1 ∧
    (∀ e ∈ (fmtOutput env c n w templateName o).events, e.writer.isSome = true →
      e.writer = some (wrapped (tabWriters c o) w)) ∧
    (∀ x : Writer,
      (fmtOutput env c n w templateName o).events.count (.NewWriter x) ≤ 1 ∧
      (fmtOutput env c n w templateName o).events.count (.Flush (.tab x)) =
        (fmtOutput env c n w templateName o).events.count (.NewWriter x)) ∧
    (c.outputTemplateTabs = true → EqualFold c.outputFormat (lit "json") = false →
      EqualFold c.outputFormat (lit "jsonp") = false →
      (fmtOutput env c n w templateName o).events.head? = some (.NewWriter w) ∧
      (fmtOutput env c n w templateName o).events.getLast? = some (.Flush (.tab w)) ∧
      ∀ e ∈ (fmtOutput env c n w templateName o).events, e.writer ≠ some w) := by
  obtain ⟨core, hev, hlen, hw⟩ := fmtOutput_bracket env c n w templateName o
  have hsome : ∀ e ∈ core, e.writer.isSome = true := fun e he => by rw [hw e he]; rfl
  have hfil := filter_bracket (givenWriters (tabWriters c o) w)
    (givenWriters (tabWriters c o) w).reverse core hsome
  rw [← hev] at hfil
  have hmem : ∀ e ∈ (fmtOutput env c n w templateName o).events, e.writer.isSome = true →
      e ∈ core := by
    intro e he hs
    rw [← hfil]
    exact List.mem_filter.mpr ⟨he, hs⟩
  have hcount := count_bracket (givenWriters (tabWriters c o) w) core
    (givenWriters_nodup _ _) (fun e he h => by rw [hw e he] at h; exact absurd h (by simp))
  rw [← hev] at hcount
  refine ⟨by rw [hfil]; exact hev, by rw [hfil]; exact hlen, fun e he hs => hw e (hmem e he hs),
    fun x => ?_, fun htabs hj hp => ?_⟩
  · obtain ⟨h1, h2, h3⟩ := hcount x
    exact ⟨by rw [h1]; exact h3, by rw [h1, h2]⟩
  · have hk : ∃ k, tabWriters c o = k + 1 := by
      unfold tabWriters
      simp only [htabs, hj, hp, Bool.true_eq_false, Bool.false_eq_true, if_false]
      split_ifs
      · cases o <;> exact ⟨_, rfl⟩
      · exact ⟨0, rfl⟩
    obtain ⟨k, hk⟩ := hk
    rw [hk] at hev hw
    have hlast : (fmtOutput env c n w templateName o).events =
        (List.map Event.NewWriter (givenWriters (k + 1) w) ++ core ++
          List.map (fun x => Event.Flush (.tab x)) (givenWriters k (.tab w)).reverse) ++
          [Event.Flush (.tab w)] := by
      rw [hev]; simp [givenWriters]
    refine ⟨by rw [hev]; simp [givenWriters],
      by rw [hlast]; exact List.getLast?_concat _, ?_⟩
    intro e he h
    have hs : e.writer.isSome = true := by rw [h]; rfl
    have h2 := hw e (hmem e he hs)
    rw [h] at h2
    have h3 := wrapped_size (k + 1) w
    rw [← Option.some.inj h2] at h3
    omega

set_option maxRecDepth 100000 in
/-- C14, on a single volume record in built-in mode with tab alignment:
two writers are created, the execution writes to the inner one, and both
are flushed, the inner one first. -/
theorem tab_writers_flushed_witness :
    (fmtOutput Env.plain ⟨lit "tmpl", [], true, false⟩ 0 .out []
        (.volume ⟨lit "1", lit "a", 1⟩)).events =
      [.NewWriter .out, .NewWriter (.tab .out)] ++
        (fmtOutput Env.plain ⟨lit "tmpl", [], true, false⟩ 0 .out []
          (.volume ⟨lit "1", lit "a", 1⟩)).events.filter (fun e => e.writer.isSome) ++
        [.Flush (.tab (.tab .out)), .Flush (.tab .out)] :=
  (tab_writers_flushed Env.plain ⟨lit "tmpl", [], true, false⟩ 0 .out []
    (.volume ⟨lit "1", lit "a", 1⟩)).1

set_option maxRecDepth 100000 in
/-- C15, as stated, fails: for a payload of no recognized shape the text
after the define blocks is a range over the payload, with one invocation of
`printObject` per element, not one invocation on the whole payload. -/
theorem unrecognized_payload_counterexample :
    EqualFold (lit "tmpl") (lit "tmpl") = true ∧
    fmtOutput Env.plain ⟨lit "tmpl", [], false, false⟩ 0 .out [] (.other 0) =
      ⟨[.Execute .out
          (buildDefaultTemplate defaultTemplates ++
            lit ("\x7b\x7brange .D \x7d\x7d" ++
              "\x7b\x7btemplate \"printObject\" .\x7d\x7d\n\x7b\x7bend\x7d\x7d"))
          ⟨.other 0⟩], .nil⟩ ∧
    fmtOutput Env.plain ⟨lit "tmpl", [], false, false⟩ 0 .out [] (.other 0) ≠
      ⟨[.Execute .out
          (buildDefaultTemplate defaultTemplates ++
            lit "\x7b\x7btemplate \"printObject\" .\x7d\x7d")
          ⟨.other 0⟩], .nil⟩ := by
  decide

/-- C15, amended. In built-in mode with an empty explicit template name,
for every payload of no recognized shape, `fmtOutput` selects `printObject`
and the document that is parsed and executed is the default define blocks
followed, without a header line, by `{{range .D }}{{template "printObject"
.}}`, a newline and `{{end}}`: the payload is iterated over, unsorted, and
`printObject` is applied to each of its elements. -/
theorem unrecognized_payload_ranged (env : Env) (c : CLI) (n : Nat) (w : Writer)
    (tag : Nat) (hfmt : EqualFold c.outputFormat (lit "tmpl") = true)
    (htpl : c.outputTemplate = []) :
    defaultTemplateName (.other tag) = templateNamePrintObject ∧
    fmtOutput env c n w [] (.other tag) =
      withTabWriter c.outputTemplateTabs w
        (newExecute env (newTabWriter c.outputTemplateTabs w)
          (buildDefaultTemplate (env.range n) ++
            (lit "\x7b\x7brange .D \x7d\x7d\x7b\x7btemplate \"" ++ templateNamePrintObject ++
              lit "\" .\x7d\x7d" ++ [0x0A] ++ lit "\x7b\x7bend\x7d\x7d"))
          (.other tag)) := by
  refine ⟨rfl, ?_⟩
  rw [fmtOutput_builtin_entry env c n w [] (.other tag) templateNamePrintObject
    { format := lit "\x7b\x7bprintf \"%v\" .\x7d\x7d" } (by decide) (by decide) (by decide)
    hfmt htpl rfl]
  simp [nestedCalls, Payload.calls, Payload.normalized, rangeBlock, lit, EncodeRune]

set_option maxRecDepth 100000 in
/-- C15, witness: tab alignment on, a payload of no recognized shape. -/
theorem unrecognized_payload_ranged_witness :
    fmtOutput Env.plain ⟨lit "TMPL", [], true, false⟩ 0 .out [] (.other 7) =
      ⟨[.NewWriter .out,
        .Execute (.tab .out)
          (buildDefaultTemplate defaultTemplates ++
            lit ("\x7b\x7brange .D \x7d\x7d" ++
              "\x7b\x7btemplate \"printObject\" .\x7d\x7d\n\x7b\x7bend\x7d\x7d"))
          ⟨.other 7⟩,
        .Flush (.tab .out)], .nil⟩ :=
  (unrecognized_payload_ranged Env.plain ⟨lit "TMPL", [], true, false⟩ 0 .out 7
    (by decide) rfl).2.trans (by decide)

set_option maxRecDepth 100000 in
/-- C16, as stated, fails on a string that is not valid UTF-8: the format
string made of a double quote and the byte `0xFF` holds neither a backslash
nor a line feed, and comes back with the byte replaced by the three bytes
of U+FFFD, which then stand in the body of the `printCustom` define. -/
theorem requote_invalid_utf8_counterexample :
    0x5C ∉ [0x22, 0xFF] ∧ 0x0A ∉ [0x22, 0xFF] ∧
    requote [0x22, 0xFF] = .ok [0x22, 0xEF, 0xBF, 0xBD] ∧
    fmtOutput Env.plain ⟨[0x22, 0xFF], [], false, false⟩ 0 .out [] (.other 0) =
      ⟨[.Execute .out
          (buildDefaultTemplate defaultTemplates ++
            (lit "\x7b\x7bdefine \"printCustom\"\x7d\x7d" ++ [0x22, 0xEF, 0xBF, 0xBD] ++
              lit "\x7b\x7bend\x7d\x7d") ++
            lit ("\x7b\x7brange .D \x7d\x7d\x7b\x7btemplate \"printCustom\" .\x7d\x7d\n" ++
              "\x7b\x7bend\x7d\x7d"))
          ⟨.other 0⟩], .nil⟩ := by
  decide

/-- C16, amended. For every custom format string that is valid UTF-8 and
holds neither a backslash nor a line feed, with any number of double
quotes, the re-quoting and unquoting succeeds and returns the string
unchanged, and in custom-format mode the body of the `printCustom` define
of the executed document is the string itself, byte for byte. -/
theorem plain_format_unchanged (f : GoString) (hB : 0x5C ∉ f) (hL : 0x0A ∉ f)
    (hv : ValidString f = true) :
    requote f = .ok f ∧
    ∀ (env : Env) (c : CLI) (n : Nat) (w : Writer) (templateName : GoString) (o : Payload),
      EqualFold c.outputFormat (lit "json") = false →
      EqualFold c.outputFormat (lit "jsonp") = false →
      ¬ (EqualFold c.outputFormat (lit "tmpl") = true ∧ c.outputTemplate = []) →
      c.customFormat = f →
      fmtOutput env c n w templateName o =
        withTabWriter c.outputTemplateTabs w
          (newExecute env (newTabWriter c.outputTemplateTabs w)
            (buildDefaultTemplate (env.range n) ++
              (lit "\x7b\x7bdefine \"printCustom\"\x7d\x7d" ++ f ++
                lit "\x7b\x7bend\x7d\x7d") ++
              dispatch c templateNamePrintCustom) o) := by
  have hr := requote_plain f hB hL hv
  refine ⟨hr, ?_⟩
  intro env c n w templateName o h0 h1 h2 hf
  rw [fmtOutput_custom env c n w templateName o h0 h1 h2]
  unfold CLI.customFormat at hf
  rw [hf, hr]
  simp only [render_custom]
  rfl

set_option maxRecDepth 100000 in
/-- C16, witness of the amended claim: the format string `"a" "b"`. -/
theorem plain_format_unchanged_witness :
    requote (lit "\"a\" \"b\"") = .ok (lit "\"a\" \"b\"") :=
  (plain_format_unchanged (lit "\"a\" \"b\"") (by decide) (by decide) (by decide)).1

set_option maxRecDepth 100000 in
/-- C17, as stated, fails in custom-format mode: with the raw template body
`{{end}}{{define "printCustom"}}X` the unquoted custom body closes the block
that `fmtOutput` opens for it and opens another one, and the executed
document holds `{{define "printCustom"}}` twice. -/
theorem custom_body_redefines_counterexample :
    requote (lit "\x7b\x7bend\x7d\x7d\x7b\x7bdefine \"printCustom\"\x7d\x7dX") =
      .ok (lit "\x7b\x7bend\x7d\x7d\x7b\x7bdefine \"printCustom\"\x7d\x7dX") ∧
    fmtOutput Env.plain
        ⟨lit "tmpl", lit "\x7b\x7bend\x7d\x7d\x7b\x7bdefine \"printCustom\"\x7d\x7dX",
          false, false⟩ 0 .out [] (.other 0) =
      ⟨[.Execute .out
          (buildDefaultTemplate defaultTemplates ++
            lit ("\x7b\x7bdefine \"printCustom\"\x7d\x7d\x7b\x7bend\x7d\x7d" ++
              "\x7b\x7bdefine \"printCustom\"\x7d\x7dX\x7b\x7bend\x7d\x7d") ++
            lit "\x7b\x7btemplate \"printCustom\" .\x7d\x7d")
          ⟨.other 0⟩], .nil⟩ ∧
    occurrences (lit "\x7b\x7bdefine \"printCustom\"\x7d\x7d")
      (buildDefaultTemplate defaultTemplates ++
        lit ("\x7b\x7bdefine \"printCustom\"\x7d\x7d\x7b\x7bend\x7d\x7d" ++
          "\x7b\x7bdefine \"printCustom\"\x7d\x7dX\x7b\x7bend\x7d\x7d") ++
        lit "\x7b\x7btemplate \"printCustom\" .\x7d\x7d") = 2 := by
  decide

/-- C17, amended. The names of the dispatch table and the two JSON names
are keys of the registry, `printCustom` is not, and the keys of the registry
are distinct.  In the JSON modes and in built-in mode with an empty explicit
name, whatever the order in which the registry is visited, the text
`{{define "NAME"}}` of the selected name occurs exactly once in the
document under which `fmtOutput` invokes it, and the word `define` occurs
in that document once for each entry of the registry.  In custom-format mode the
default define blocks hold no `{{define "printCustom"}}`, and the executed
document holds it once for the block that `fmtOutput` appends and once more
for each of its occurrences in the unquoted custom body: exactly once when
the body holds none. -/
theorem selected_names_defined_once (env : Env) (c : CLI) (n : Nat) (w : Writer)
    (o : Payload) :
    ((∀ p : Payload, (lookupTemplate (defaultTemplateName p)).isSome = true) ∧
      (lookupTemplate templateNamePrintJSON).isSome = true ∧
      (lookupTemplate templateNamePrintPrettyJSON).isSome = true ∧
      lookupTemplate templateNamePrintCustom = none ∧
      (defaultTemplates.map Prod.fst).Nodup) ∧
    (EqualFold c.outputFormat (lit "json") = true → ∀ t,
      fmtOutput env c n w t o =
        mustExecuteTemplate env w (buildDefaultTemplate (env.range n))
          templateNamePrintJSON o ∧
      occurrences (defineMarker templateNamePrintJSON)
        (buildDefaultTemplate (env.range n)) = 1 ∧
      occurrences (lit "define") (buildDefaultTemplate (env.range n)) =
        defaultTemplates.length) ∧
    (EqualFold c.outputFormat (lit "jsonp") = true → ∀ t,
      fmtOutput env c n w t o =
        mustExecuteTemplate env w (buildDefaultTemplate (env.range n))
          templateNamePrintPrettyJSON o ∧
      occurrences (defineMarker templateNamePrintPrettyJSON)
        (buildDefaultTemplate (env.range n)) = 1 ∧
      occurrences (lit "define") (buildDefaultTemplate (env.range n)) =
        defaultTemplates.length) ∧
    (EqualFold c.outputFormat (lit "tmpl") = true → c.outputTemplate = [] →
      fmtOutput env c n w [] o =
        (nestedCalls c.outputTemplateTabs o.calls w fun w1 =>
          newExecute env w1
            (buildDefaultTemplate (env.range (n + (o.calls - 1))) ++
              dispatch c (defaultTemplateName o)) o.normalized) ∧
      occurrences (defineMarker (defaultTemplateName o))
        (buildDefaultTemplate (env.range (n + (o.calls - 1))) ++
          dispatch c (defaultTemplateName o)) = 1 ∧
      occurrences (lit "define")
        (buildDefaultTemplate (env.range (n + (o.calls - 1))) ++
          dispatch c (defaultTemplateName o)) = defaultTemplates.length) ∧
    (EqualFold c.outputFormat (lit "json") = false →
      EqualFold c.outputFormat (lit "jsonp") = false →
      ¬ (EqualFold c.outputFormat (lit "tmpl") = true ∧ c.outputTemplate = []) →
      ∀ t uf, requote c.customFormat = .ok uf →
      fmtOutput env c n w t o =
        withTabWriter c.outputTemplateTabs w
          (newExecute env (newTabWriter c.outputTemplateTabs w)
            (buildDefaultTemplate (env.range n) ++ customDefine uf ++
              dispatch c templateNamePrintCustom) o) ∧
      customDefine uf =
        defineMarker templateNamePrintCustom ++ uf ++ lit "\x7b\x7bend\x7d\x7d" ∧
      occurrences (defineMarker templateNamePrintCustom)
        (buildDefaultTemplate (env.range n)) = 0 ∧
      occurrences (defineMarker templateNamePrintCustom)
        (buildDefaultTemplate (env.range n) ++ customDefine uf ++
          dispatch c templateNamePrintCustom) =
        1 + occurrences (defineMarker templateNamePrintCustom) uf) := by
  have key : ∀ name ∈ [lit "printVolumeFields", lit "printVolumeWithPathFields",
      lit "printSnapshotFields", lit "printServiceFields", lit "printInstanceFields",
      lit "printMountFields", lit "printStringSlice", lit "printObject"],
      (lookupTemplate name).isSome = true ∧
      (∃ e ∈ defaultTemplates, e.1 = name) ∧
      name ≠ templateNamePrintJSON ∧ name ≠ templateNamePrintPrettyJSON ∧
      name ≠ templateNamePrintCustom ∧
      name ∈ [lit "printVolumeFields", lit "printVolumeWithPathFields",
        lit "printSnapshotFields", lit "printServiceFields", lit "printInstanceFields",
        lit "printMountFields", lit "printStringSlice", lit "printObject", lit "printJSON",
        lit "printPrettyJSON"] := by decide
  have hname : ∀ p : Payload,
      (lookupTemplate (defaultTemplateName p)).isSome = true ∧
      (∃ e ∈ defaultTemplates, e.1 = defaultTemplateName p) ∧
      defaultTemplateName p ≠ templateNamePrintJSON ∧
      defaultTemplateName p ≠ templateNamePrintPrettyJSON ∧
      defaultTemplateName p ≠ templateNamePrintCustom ∧
      defaultTemplateName p ∈ [lit "printVolumeFields", lit "printVolumeWithPathFields",
        lit "printSnapshotFields", lit "printServiceFields", lit "printInstanceFields",
        lit "printMountFields", lit "printStringSlice", lit "printObject", lit "printJSON",
        lit "printPrettyJSON"] := by
    intro p
    apply key
    cases p <;> simp [defaultTemplateName]
  have hword := registry_define_word
  have hjson := registry_markers templateNamePrintJSON (by decide)
  have hjsonp := registry_markers templateNamePrintPrettyJSON (by decide)
  refine ⟨⟨fun p => (hname p).1, by decide, by decide, by decide, by decide⟩,
    ?_, ?_, ?_, ?_⟩
  · intro h t
    exact ⟨fmtOutput_json env c n w t o h,
      (occurrences_json_doc env n _ hjson.1).trans hjson.2,
      (occurrences_json_doc env n _ hword.1).trans hword.2.1⟩
  · intro h t
    exact ⟨fmtOutput_jsonp env c n w t o h,
      (occurrences_json_doc env n _ hjsonp.1).trans hjsonp.2,
      (occurrences_json_doc env n _ hword.1).trans hword.2.1⟩
  · intro hfmt htpl
    obtain ⟨_, ⟨e, he, hen⟩, hn1, hn2, hn3, hin⟩ := hname o
    obtain ⟨hov, hsum⟩ := registry_markers _ hin
    have hmem : (defaultTemplateName o, e.2) ∈ defaultTemplates := by rw [← hen]; exact he
    refine ⟨?_, ?_, ?_⟩
    · rw [fmtOutput_builtin_all env c n w [] o hfmt htpl]
      simp only [if_true, render_plain env c _ _ _ _ _ hn1 hn2 hn3]
    · have hd := registry_dispatch_markers _ hmem
      simp only at hd
      rw [occurrences_builtin_doc env _ c _ e.2 hmem htpl _ hov hd, hsum]
    · have hd := hword.2.2 _ hmem
      simp only at hd
      rw [occurrences_builtin_doc env _ c _ e.2 hmem htpl _ hword.1 hd, hword.2.1]
  · intro h0 h1 h2 t uf huf
    have hpat : overlaps (defineMarker templateNamePrintCustom) [0x7B, 0x7B] = false := by
      decide
    have hsum : (defaultTemplates.map fun e =>
        occurrences (defineMarker templateNamePrintCustom) (defineBlock e)).sum = 0 := by
      decide
    refine ⟨?_, ?_, (occurrences_json_doc env n _ hpat).trans hsum,
      occurrences_custom_doc env n c uf⟩
    · rw [fmtOutput_custom env c n w t o h0 h1 h2]
      unfold CLI.customFormat at huf
      rw [huf]
      simp only [render_custom]
    · have hm : lit "\x7b\x7bdefine \"printCustom\"\x7d\x7d" =
          defineMarker templateNamePrintCustom := by decide
      simp only [customDefine, hm]

set_option maxRecDepth 100000 in
/-- C17, on a slice of mounts in built-in mode with the registry visited in
the order of the source: `{{define "printMountFields"}}` occurs once in the
executed document. -/
theorem selected_names_defined_once_witness :
    fmtOutput Env.plain ⟨lit "tmpl", [], false, false⟩ 0 .out [] (.mounts []) =
      ⟨[.Execute .out
          (buildDefaultTemplate defaultTemplates ++
            dispatch ⟨lit "tmpl", [], false, false⟩ (lit "printMountFields"))
          ⟨.mounts []⟩], .nil⟩ ∧
    occurrences (lit "\x7b\x7bdefine \"printMountFields\"\x7d\x7d")
      (buildDefaultTemplate defaultTemplates ++
        dispatch ⟨lit "tmpl", [], false, false⟩ (lit "printMountFields")) = 1 :=
  ⟨((selected_names_defined_once Env.plain ⟨lit "tmpl", [], false, false⟩ 0 .out
      (.mounts [])).2.2.2.1 (by decide) rfl).1.trans (by decide),
   ((selected_names_defined_once Env.plain ⟨lit "tmpl", [], false, false⟩ 0 .out
      (.mounts [])).2.2.2.1 (by decide) rfl).2.1⟩

/-- C18. In custom-format mode, whenever the custom format string (the raw
template body, or the output format string when there is no raw template
body) holds a line feed, the unquoting fails with `ErrSyntax`, `fmtOutput`
returns that error, and no template is parsed or executed: without tab
alignment nothing is called at all, with tab alignment the column-aligning
writer is created and flushed and nothing else. -/
theorem line_feed_rejected (env : Env) (c : CLI) (n : Nat) (w : Writer)
    (templateName : GoString) (o : Payload)
    (h0 : EqualFold c.outputFormat (lit "json") = false)
    (h1 : EqualFold c.outputFormat (lit "jsonp") = false)
    (h2 : ¬ (EqualFold c.outputFormat (lit "tmpl") = true ∧ c.outputTemplate = []))
    (hL : 0x0A ∈ c.customFormat) :
    requote c.customFormat = .error .ErrSyntax ∧
    fmtOutput env c n w templateName o =
      (if c.outputTemplateTabs then ⟨[.NewWriter w, .Flush (.tab w)], .err .ErrSyntax⟩
       else ⟨[], .err .ErrSyntax⟩) ∧
    (∀ e ∈ (fmtOutput env c n w templateName o).events, e.payload = none) := by
  have hr := requote_lf c.customFormat hL
  have h : fmtOutput env c n w templateName o =
      (if c.outputTemplateTabs then ⟨[.NewWriter w, .Flush (.tab w)], .err .ErrSyntax⟩
       else ⟨[], .err .ErrSyntax⟩) := by
    rw [fmtOutput_custom env c n w templateName o h0 h1 h2]
    have hr2 := hr
    unfold CLI.customFormat at hr2
    rw [hr2]
    cases c.outputTemplateTabs <;> rfl
  refine ⟨hr, h, ?_⟩
  intro e he
  rw [h] at he
  split_ifs at he
  · simp only [List.mem_cons, List.mem_singleton, List.not_mem_nil, or_false] at he
    rcases he with rfl | rfl <;> rfl
  · simp at he

set_option maxRecDepth 100000 in
/-- C18, witness: the raw template body `{{.ID}}`, line feed, `{{.Name}}`,
with the output format `tmpl`. -/
theorem line_feed_rejected_witness :
    0x0A ∈ lit "\x7b\x7b.ID\x7d\x7d\n\x7b\x7b.Name\x7d\x7d" ∧
    fmtOutput Env.plain
        ⟨lit "tmpl", lit "\x7b\x7b.ID\x7d\x7d\n\x7b\x7b.Name\x7d\x7d", false, false⟩ 0 .out []
        (.volumes []) = ⟨[], .err .ErrSyntax⟩ :=
  ⟨by decide,
   (line_feed_rejected Env.plain
     ⟨lit "tmpl", lit "\x7b\x7b.ID\x7d\x7d\n\x7b\x7b.Name\x7d\x7d", false, false⟩ 0 .out []
     (.volumes []) (by decide) (by decide) (by decide) (by decide)).2.1⟩

end CliFormatter
